import Mathlib

/-!
# go-dungeon: a shallow embedding of `dungeon.go`

The generation pipeline of `dungeon.go` is embedded as executable Lean functions.
Go `int` values are `Int` (all values stay far below 2^63 for any grid that can be
allocated).  The tile grid `[][]Tile` is a list of rows; every index expression is
bounds checked and a failed check is the Go runtime panic, reported as an error value.
The shared random source is an explicit stream of draws threaded through the stages.
-/

namespace GoDungeon

/-! ## Data model -/

/-- Tile materials, in the order of the Go constant block. -/
inductive Material where
  | WALL
  | FLOOR
  | DOOR
  | TUNNEL
  deriving DecidableEq, Repr

/-- Grid position. -/
structure Point where
  x : Int
  y : Int
  deriving DecidableEq, Repr

/-- One grid cell. -/
structure Tile where
  region : Int
  material : Material
  deriving DecidableEq, Repr

/-- Placed rectangle with its recorded edge positions. -/
structure Room where
  width : Int
  height : Int
  location : Point
  edges : List Point
  deriving DecidableEq, Repr

/-- Rows of tiles, indexed row first as in the source. -/
abbrev Grid := List (List Tile)

/-- Dungeon value threaded through the pipeline. -/
structure Dungeon where
  tiles : Grid
  rooms : List Room
  width : Int
  height : Int
  numRegions : Int
  deriving DecidableEq, Repr

/-- Ways a run can stop without a result: the Go runtime panics that the pipeline can
raise, and exhaustion of the recursion budget of the embedding. -/
inductive Err where
  | indexOutOfRange
  | intnNonPositive
  | makeNegativeLen
  | outOfFuel
  deriving DecidableEq, Repr

deriving instance DecidableEq for Except

/-- Zero value of `Tile`, as produced by `make`. -/
def zeroTile : Tile := ⟨0, Material.WALL⟩

/-! ## Random source -/

/-- Stream of raw draws together with the number of draws consumed so far. -/
structure Rng where
  draws : Nat → Nat
  pos : Nat

/-- Model of `rand.Intn n`: panics when `n ≤ 0`, otherwise reduces the next raw draw
into `[0, n)`. Every value of `[0, n)` is the outcome for some stream. -/
def Rng.intn (g : Rng) (n : Int) : Except Err (Int × Rng) :=
  if n ≤ 0 then .error Err.intnNonPositive
  else .ok (((g.draws g.pos : Nat) : Int) % n, ⟨g.draws, g.pos + 1⟩)

/-- Inner loop of `rand.Perm`: for `i` in `[i, i + k)`, `j := Intn(i+1); m[i] = m[j]; m[j] = i`. -/
def permLoop : Nat → Nat → List Int → Rng → Except Err (List Int × Rng)
  | 0, _, m, g => .ok (m, g)
  | k + 1, i, m, g =>
    match g.intn ((i : Int) + 1) with
    | .error e => .error e
    | .ok (j, g1) =>
      let m1 := m.set i (m.getD j.toNat 0)
      let m2 := m1.set j.toNat (i : Int)
      permLoop k (i + 1) m2 g1

/-- Model of `rand.Perm n` (the library's inside-out shuffle), for `n ≥ 0`. -/
def Rng.perm (g : Rng) (n : Nat) : Except Err (List Int × Rng) :=
  permLoop n 0 (List.replicate n 0) g

/-! ## Grid access -/

/-- Read of `tiles[y][x]`. -/
def Grid.get (t : Grid) (x y : Int) : Except Err Tile :=
  if x < 0 ∨ y < 0 then .error Err.indexOutOfRange
  else
    match t[y.toNat]? with
    | none => .error Err.indexOutOfRange
    | some row =>
      match row[x.toNat]? with
      | none => .error Err.indexOutOfRange
      | some tile => .ok tile

/-- In-place update of `tiles[y][x]` by `f`. -/
def Grid.modify (t : Grid) (x y : Int) (f : Tile → Tile) : Except Err Grid :=
  if x < 0 ∨ y < 0 then .error Err.indexOutOfRange
  else
    match t[y.toNat]? with
    | none => .error Err.indexOutOfRange
    | some row =>
      match row[x.toNat]? with
      | none => .error Err.indexOutOfRange
      | some tile => .ok (t.set y.toNat (row.set x.toNat (f tile)))

/-- Read of `tiles[y][x].material`. -/
def Grid.material (t : Grid) (x y : Int) : Except Err Material :=
  match t.get x y with
  | .error e => .error e
  | .ok tile => .ok tile.material

/-- The integers `lo, lo+1, ..., hi-1`: the values taken by `for i := lo; i < hi; i++`. -/
def intRange (lo hi : Int) : List Int :=
  (List.range (hi - lo).toNat).map (fun (k : Nat) => lo + (k : Int))

/-- Sequential loop over a list of values with a state and early stop on a panic. -/
def forEachM {α σ : Type} (f : α → σ → Except Err σ) : List α → σ → Except Err σ
  | [], s => .ok s
  | a :: as, s =>
    match f a s with
    | .error e => .error e
    | .ok s1 => forEachM f as s1

/-- Short-circuit conjunction `tiles[..].material == WALL && ...` over positions read in order:
stops at the first tile that is not WALL, so later index expressions are not evaluated. -/
def allWall (t : Grid) : List (Int × Int) → Except Err Bool
  | [] => .ok true
  | (x, y) :: ps =>
    match t.material x y with
    | .error e => .error e
    | .ok m => if m = Material.WALL then allWall t ps else .ok false

/-! ## Stage 1: createEmptyDungeon -/

/-- Embedding of `createEmptyDungeon`: `make` panics on a negative length. -/
def createEmptyDungeon (width height : Int) : Except Err Dungeon :=
  if height < 0 then .error Err.makeNegativeLen
  else if 0 < height ∧ width < 0 then .error Err.makeNegativeLen
  else .ok
    { tiles := List.replicate height.toNat (List.replicate width.toNat zeroTile)
      rooms := []
      width := width
      height := height
      numRegions := 0 }

/-! ## Stage 2: createRooms -/

/-- The "do nothing" condition of the overlap loop: the trial is clear of room `r`. -/
def clearOf (x y width height : Int) (r : Room) : Bool :=
  decide (x + width < r.location.x) || decide (x > r.location.x + r.width) ||
  decide (y + height < r.location.y) || decide (y > r.location.y + r.height)

/-- The attempts loop of `createRooms`. -/
def placeRooms (gridWidth gridHeight minSize maxSize : Int) :
    Nat → List Room → Rng → Except Err (List Room × Rng)
  | 0, rooms, g => .ok (rooms, g)
  | n + 1, rooms, g =>
    match g.intn (maxSize - minSize) with
    | .error e => .error e
    | .ok (a, g1) =>
      match g1.intn (maxSize - minSize) with
      | .error e => .error e
      | .ok (b, g2) =>
        let width := a + minSize
        let height := b + minSize
        let maxX := gridWidth - width - 2
        let maxY := gridHeight - height - 2
        match g2.intn (maxX - 3) with
        | .error e => .error e
        | .ok (c, g3) =>
          match g3.intn (maxY - 3) with
          | .error e => .error e
          | .ok (d, g4) =>
            let x := c + 3
            let y := d + 3
            let shouldAppend := rooms.all (clearOf x y width height)
            if shouldAppend then
              placeRooms gridWidth gridHeight minSize maxSize n
                (rooms ++ [⟨width, height, ⟨x, y⟩, []⟩]) g4
            else
              placeRooms gridWidth gridHeight minSize maxSize n rooms g4

/-- Body of the carving loop for one room: mint a region id and write its footprint. -/
def carveRoom (r : Room) (s : Grid × Int) : Except Err (Grid × Int) :=
  let region := s.2 + 1
  match forEachM (fun i t =>
      forEachM (fun j t1 => Grid.modify t1 i j (fun _ => ⟨region, Material.FLOOR⟩))
        (intRange r.location.y (r.location.y + r.height)) t)
      (intRange r.location.x (r.location.x + r.width)) s.1 with
  | .error e => .error e
  | .ok t => .ok (t, region)

/-- Embedding of `createRooms`. -/
def createRooms (dungeon : Dungeon) (minSize maxSize attempts : Int) (g : Rng) :
    Except Err (Dungeon × Rng) :=
  match placeRooms dungeon.width dungeon.height minSize maxSize attempts.toNat [] g with
  | .error e => .error e
  | .ok (rooms, g1) =>
    match forEachM carveRoom rooms (dungeon.tiles, dungeon.numRegions) with
    | .error e => .error e
    | .ok (t, n) =>
      .ok ({ tiles := t, rooms := rooms, width := dungeon.width, height := dungeon.height,
             numRegions := n }, g1)

/-! ## Stage 3: createMaze -/

/-- Embedding of `lookDown`. -/
def lookDown (t : Grid) (x y : Int) : Except Err Bool :=
  allWall t [(x - 2, y), (x - 2, y + 1), (x - 2, y - 1), (x - 1, y + 1), (x - 1, y - 1)]

/-- Embedding of `lookUp`. -/
def lookUp (t : Grid) (x y : Int) : Except Err Bool :=
  allWall t [(x + 2, y), (x + 2, y - 1), (x + 2, y + 1), (x + 1, y + 1), (x + 1, y - 1)]

/-- Embedding of `lookLeft`. -/
def lookLeft (t : Grid) (x y : Int) : Except Err Bool :=
  allWall t [(x, y - 2), (x - 1, y - 2), (x + 1, y - 2), (x - 1, y - 1), (x + 1, y - 1)]

/-- Embedding of `lookRight`. -/
def lookRight (t : Grid) (x y : Int) : Except Err Bool :=
  allWall t [(x, y + 2), (x - 1, y + 2), (x + 1, y + 2), (x - 1, y + 1), (x + 1, y + 1)]

/-- One of the four guarded blocks of `getValidTiles`: `if bound && tiles[py][px] == WALL`
then `if look { append }`. -/
def tryDirection (t : Grid) (bound : Bool) (px py : Int) (look : Except Err Bool)
    (acc : List Point) : Except Err (List Point) :=
  if bound then
    match t.material px py with
    | .error e => .error e
    | .ok m =>
      if m = Material.WALL then
        match look with
        | .error e => .error e
        | .ok true => .ok (acc ++ [⟨px, py⟩])
        | .ok false => .ok acc
      else .ok acc
  else .ok acc

/-- Embedding of `getValidTiles`. -/
def getValidTiles (t : Grid) (width height x y : Int) : Except Err (List Point) :=
  match tryDirection t (decide (x - 2 ≥ 0)) (x - 1) y (lookDown t x y) [] with
  | .error e => .error e
  | .ok v1 =>
    match tryDirection t (decide (x + 2 < width)) (x + 1) y (lookUp t x y) v1 with
    | .error e => .error e
    | .ok v2 =>
      match tryDirection t (decide (y - 2 ≥ 0)) x (y - 1) (lookLeft t x y) v2 with
      | .error e => .error e
      | .ok v3 => tryDirection t (decide (y + 2 < height)) x (y + 1) (lookRight t x y) v3

/-- The two assignments that carve a tile. -/
def carveTunnel (t : Grid) (p : Point) (region : Int) : Except Err Grid :=
  t.modify p.x p.y (fun _ => ⟨region, Material.TUNNEL⟩)

/-- Embedding of `continueMaze`; the first argument bounds the recursion depth. -/
def continueMaze (width height region : Int) :
    Nat → Grid → Rng → Int → Int → Except Err (Grid × Rng)
  | 0, _, _, _, _ => .error Err.outOfFuel
  | fuel + 1, t, g, x, y =>
    match getValidTiles t width height x y with
    | .error e => .error e
    | .ok validTiles =>
      if validTiles.length > 1 then
        match g.intn validTiles.length with
        | .error e => .error e
        | .ok (i, g1) =>
          match validTiles[i.toNat]? with
          | none => .error Err.indexOutOfRange
          | some point =>
            match carveTunnel t point region with
            | .error e => .error e
            | .ok t1 =>
              match continueMaze width height region fuel t1 g1 point.x point.y with
              | .error e => .error e
              | .ok (t2, g2) => continueMaze width height region fuel t2 g2 x y
      else if validTiles.length = 1 then
        match validTiles[0]? with
        | none => .error Err.indexOutOfRange
        | some point =>
          match carveTunnel t point region with
          | .error e => .error e
          | .ok t1 =>
            match continueMaze width height region fuel t1 g point.x point.y with
            | .error e => .error e
            | .ok (t2, g2) => continueMaze width height region fuel t2 g2 x y
      else .ok (t, g)

/-- Number of WALL tiles of a grid. -/
def countWall (t : Grid) : Nat :=
  (t.map (fun row => row.countP (fun tile => decide (tile.material = Material.WALL)))).sum

/-- The 3×3 block read by the condition of `createMaze`, in source order. -/
def block3 (x y : Int) : List (Int × Int) :=
  [(x - 1, y - 1), (x - 1, y), (x - 1, y + 1), (x, y - 1), (x, y), (x, y + 1),
   (x + 1, y - 1), (x + 1, y), (x + 1, y + 1)]

/-- Body of the double loop of `createMaze` at cell `(x, y)`. Each carved tile was WALL, so
the recursion depth of `continueMaze` never exceeds the number of WALL tiles. -/
def mazeCell (width height : Int) (x y : Int) (s : Grid × Int × Rng) :
    Except Err (Grid × Int × Rng) :=
  match allWall s.1 (block3 x y) with
  | .error e => .error e
  | .ok false => .ok s
  | .ok true =>
    let region := s.2.1 + 1
    match continueMaze width height region (countWall s.1 + 1) s.1 s.2.2 x y with
    | .error e => .error e
    | .ok (t, g) => .ok (t, region, g)

/-- Embedding of `createMaze`. -/
def createMaze (dungeon : Dungeon) (g : Rng) : Except Err (Dungeon × Rng) :=
  match forEachM (fun x s =>
      forEachM (fun y s1 => mazeCell dungeon.width dungeon.height x y s1)
        (intRange 1 (dungeon.height - 1)) s)
      (intRange 1 (dungeon.width - 1)) (dungeon.tiles, dungeon.numRegions, g) with
  | .error e => .error e
  | .ok (t, n, g1) =>
    .ok ({ tiles := t, rooms := dungeon.rooms, width := dungeon.width,
           height := dungeon.height, numRegions := n }, g1)

/-! ## Stage 4: identifyEdges -/

/-- The test `material == TUNNEL || material == FLOOR`. -/
def isOpen (m : Material) : Bool :=
  decide (m = Material.TUNNEL) || decide (m = Material.FLOOR)

/-- One conditional append of `identifyEdges`: read `tiles[py][px]`, append `e` when open. -/
def appendIfOpen (t : Grid) (px py : Int) (e : Point) (edges : List Point) :
    Except Err (List Point) :=
  match t.material px py with
  | .error e1 => .error e1
  | .ok m => if isOpen m then .ok (edges ++ [e]) else .ok edges

/-- Body of the first loop of `identifyEdges` (index `j` along the room's width). -/
def scanColumn (t : Grid) (r : Room) (j : Int) (edges : List Point) : Except Err (List Point) :=
  match appendIfOpen t j (r.location.y - 2) ⟨j, r.location.y - 1⟩ edges with
  | .error e => .error e
  | .ok e1 =>
    appendIfOpen t j (r.location.y + r.height + 1) ⟨j, r.location.y + r.height⟩ e1

/-- Body of the second loop of `identifyEdges` (index `k` along the room's height). -/
def scanRow (t : Grid) (r : Room) (k : Int) (edges : List Point) : Except Err (List Point) :=
  match appendIfOpen t (r.location.x - 2) k ⟨r.location.x - 1, k⟩ edges with
  | .error e => .error e
  | .ok e1 =>
    appendIfOpen t (r.location.x + r.width + 1) k ⟨r.location.x + r.width, k⟩ e1

/-- The work of `identifyEdges` on one room. -/
def roomEdges (t : Grid) (r : Room) : Except Err Room :=
  match forEachM (scanColumn t r) (intRange r.location.x (r.location.x + r.width)) r.edges with
  | .error e => .error e
  | .ok e1 =>
    match forEachM (scanRow t r) (intRange r.location.y (r.location.y + r.height)) e1 with
    | .error e => .error e
    | .ok e2 => .ok ⟨r.width, r.height, r.location, e2⟩

/-- The rooms loop of `identifyEdges`. -/
def allRoomEdges (t : Grid) : List Room → Except Err (List Room)
  | [] => .ok []
  | r :: rs =>
    match roomEdges t r with
    | .error e => .error e
    | .ok r1 =>
      match allRoomEdges t rs with
      | .error e => .error e
      | .ok rs1 => .ok (r1 :: rs1)

/-- Embedding of `identifyEdges`. -/
def identifyEdges (dungeon : Dungeon) : Except Err Dungeon :=
  match allRoomEdges dungeon.tiles dungeon.rooms with
  | .error e => .error e
  | .ok rooms =>
    .ok { tiles := dungeon.tiles, rooms := rooms, width := dungeon.width,
          height := dungeon.height, numRegions := dungeon.numRegions }

/-! ## Stage 5: connectRegions -/

/-- The condition of the `surroundingTiles` loop of the primary phase. -/
def qualifies (roomRegion : Int) (tile : Tile) : Bool :=
  (decide (tile.material = Material.FLOOR) || decide (tile.material = Material.TUNNEL)) &&
    decide (tile.region ≠ roomRegion)

/-- Reads of a list of positions in order, as in an array literal of tiles. -/
def readTiles (t : Grid) : List (Int × Int) → Except Err (List Tile)
  | [] => .ok []
  | (x, y) :: ps =>
    match t.get x y with
    | .error e => .error e
    | .ok tile =>
      match readTiles t ps with
      | .error e => .error e
      | .ok tiles => .ok (tile :: tiles)

/-- The eight positions around an edge, in the order of the `surroundingTiles` literal. -/
def around8 (e : Point) : List (Int × Int) :=
  [(e.x - 1, e.y - 1), (e.x, e.y - 1), (e.x + 1, e.y - 1), (e.x - 1, e.y), (e.x + 1, e.y),
   (e.x - 1, e.y + 1), (e.x, e.y + 1), (e.x + 1, e.y + 1)]

/-- Assignment `tiles[y][x].material = DOOR`. -/
def setDoor (t : Grid) (x y : Int) : Except Err Grid :=
  t.modify x y (fun tile => ⟨tile.region, Material.DOOR⟩)

/-- The footprint loop of the primary phase: `tiles[y][x].region = region`. -/
def relabelRoom (t : Grid) (room : Room) (region : Int) : Except Err Grid :=
  forEachM (fun x t1 =>
      forEachM (fun y t2 => Grid.modify t2 x y (fun tile => ⟨region, tile.material⟩))
        (intRange room.location.y (room.location.y + room.height)) t1)
    (intRange room.location.x (room.location.x + room.width)) t

/-- Body of the first loop of `connectRegions` for one room. -/
def primaryStep (room : Room) (s : Grid × Rng) : Except Err (Grid × Rng) :=
  match s.2.intn room.edges.length with
  | .error e => .error e
  | .ok (k, g1) =>
    match room.edges[k.toNat]? with
    | none => .error Err.indexOutOfRange
    | some edge =>
      match s.1.get room.location.x room.location.y with
      | .error e => .error e
      | .ok corner =>
        match readTiles s.1 (around8 edge) with
        | .error e => .error e
        | .ok surroundingTiles =>
          match surroundingTiles.find? (qualifies corner.region) with
          | none => .ok (s.1, g1)
          | some tile =>
            match setDoor s.1 edge.x edge.y with
            | .error e => .error e
            | .ok t1 =>
              match relabelRoom t1 room tile.region with
              | .error e => .error e
              | .ok t2 => .ok (t2, g1)

/-- The four positions around an edge, in the order of the `surroundingPoints` literal. -/
def around4 (x y : Int) : List Point :=
  [⟨x - 1, y⟩, ⟨x + 1, y⟩, ⟨x, y - 1⟩, ⟨x, y + 1⟩]

/-- The `surroundingPoints` loop of the residual phase, started with `curRegion`. The result is
`some (region, curRegion)` at the first neighbour that triggers a door and `none` when the
loop runs to its end. -/
def residualScan (t : Grid) (connected : List Int) :
    List Point → Int → Except Err (Option (Int × Int))
  | [], _ => .ok none
  | p :: ps, curRegion =>
    match t.get p.x p.y with
    | .error e => .error e
    | .ok tile =>
      if curRegion = -1 ∧ tile.region ≠ 0 then residualScan t connected ps tile.region
      else if tile.region ≠ curRegion ∧ tile.region ≠ 0 ∧ ¬ tile.region ∈ connected then
        .ok (some (tile.region, curRegion))
      else residualScan t connected ps curRegion

/-- The edge loop of the residual phase for one room; `js` are the loop indices still to visit.
It stops at the first door made (`continue RoomsLoop`). -/
def residualEdges (room : Room) : List Nat → Grid × List Int → Except Err (Grid × List Int)
  | [], s => .ok s
  | j :: js, s =>
    match room.edges[j]? with
    | none => .error Err.indexOutOfRange
    | some edge =>
      match residualScan s.1 s.2 (around4 edge.x edge.y) (-1) with
      | .error e => .error e
      | .ok none => residualEdges room js s
      | .ok (some (region, curRegion)) =>
        match setDoor s.1 edge.x edge.y with
        | .error e => .error e
        | .ok t1 => .ok (t1, curRegion :: region :: s.2)

/-- The room loop of the residual phase; `is` are the loop indices still to visit. The loops
range over the permutations, so their variables take the indices `0, 1, ...` of the
permutation, not its values. -/
def residualRooms (rooms : List Room) :
    List Nat → Grid × List Int × Rng → Except Err (Grid × List Int × Rng)
  | [], s => .ok s
  | i :: is, s =>
    match rooms[i]? with
    | none => .error Err.indexOutOfRange
    | some room =>
      match s.2.2.perm room.edges.length with
      | .error e => .error e
      | .ok (edgePerm, g1) =>
        match residualEdges room (List.range edgePerm.length) (s.1, s.2.1) with
        | .error e => .error e
        | .ok (t1, connected) => residualRooms rooms is (t1, connected, g1)

/-- Embedding of `connectRegions`. -/
def connectRegions (dungeon : Dungeon) (g : Rng) : Except Err (Dungeon × Rng) :=
  match forEachM primaryStep dungeon.rooms (dungeon.tiles, g) with
  | .error e => .error e
  | .ok (t1, g1) =>
    match g1.perm dungeon.rooms.length with
    | .error e => .error e
    | .ok (roomPerm, g2) =>
      match residualRooms dungeon.rooms (List.range roomPerm.length) (t1, [], g2) with
      | .error e => .error e
      | .ok (t2, _, g3) =>
        .ok ({ tiles := t2, rooms := dungeon.rooms, width := dungeon.width,
               height := dungeon.height, numRegions := dungeon.numRegions }, g3)

/-! ## Stage 6: trimTunnels -/

/-- The test `material == TUNNEL || material == DOOR`. -/
def isPassage (m : Material) : Bool :=
  decide (m = Material.TUNNEL) || decide (m = Material.DOOR)

/-- The `surroundingPoints` loop of `continueTrimTunnels` with state `(wallCount, nextPoint)`. -/
def countWalls (t : Grid) : List Point → Nat × Point → Except Err (Nat × Point)
  | [], s => .ok s
  | p :: ps, s =>
    match t.get p.x p.y with
    | .error e => .error e
    | .ok tile =>
      if tile.material = Material.WALL then countWalls t ps (s.1 + 1, s.2)
      else if isPassage tile.material then countWalls t ps (s.1, p)
      else countWalls t ps s

/-- Embedding of `continueTrimTunnels`; the first argument bounds the recursion depth. -/
def continueTrimTunnels : Nat → Grid → Int → Int → Except Err Grid
  | 0, _, _, _ => .error Err.outOfFuel
  | fuel + 1, t, x, y =>
    match t.material x y with
    | .error e => .error e
    | .ok m =>
      if isPassage m then
        match countWalls t (around4 x y) (0, ⟨0, 0⟩) with
        | .error e => .error e
        | .ok (wallCount, nextPoint) =>
          if wallCount ≥ 3 then
            match t.modify x y (fun _ => ⟨0, Material.WALL⟩) with
            | .error e => .error e
            | .ok t1 =>
              if nextPoint.x ≠ 0 ∨ nextPoint.y ≠ 0 then
                continueTrimTunnels fuel t1 nextPoint.x nextPoint.y
              else .ok t1
          else .ok t
      else .ok t

/-- Number of TUNNEL and DOOR tiles of a grid. -/
def countPassage (t : Grid) : Nat :=
  (t.map (fun row => row.countP (fun tile => isPassage tile.material))).sum

/-- Embedding of `trimTunnels`. Each recursive call of `continueTrimTunnels` follows the
reversion of a TUNNEL or DOOR tile, so the depth never exceeds their number. -/
def trimTunnels (dungeon : Dungeon) : Except Err Dungeon :=
  match forEachM (fun x t =>
      forEachM (fun y t1 => continueTrimTunnels (countPassage t1 + 1) t1 x y)
        (intRange 1 (dungeon.height - 1)) t)
      (intRange 1 (dungeon.width - 1)) dungeon.tiles with
  | .error e => .error e
  | .ok t =>
    .ok { tiles := t, rooms := dungeon.rooms, width := dungeon.width,
          height := dungeon.height, numRegions := dungeon.numRegions }

/-! ## The pipeline -/

/-- Embedding of `generateDungeon`. -/
def generateDungeon (gridWidth gridHeight roomAttempts minRoomSize maxRoomSize : Int)
    (g : Rng) : Except Err Dungeon :=
  match createEmptyDungeon gridWidth gridHeight with
  | .error e => .error e
  | .ok d0 =>
    match createRooms d0 minRoomSize maxRoomSize roomAttempts g with
    | .error e => .error e
    | .ok (d1, g1) =>
      match createMaze d1 g1 with
      | .error e => .error e
      | .ok (d2, g2) =>
        match identifyEdges d2 with
        | .error e => .error e
        | .ok d3 =>
          match connectRegions d3 g2 with
          | .error e => .error e
          | .ok (d4, _) => trimTunnels d4

/-! ## Predicates used in the statements -/

/-- Value of a completed run, or `dflt` when the run stopped on a panic. -/
def okOr {α : Type} (r : Except Err α) (dflt : α) : α :=
  match r with
  | .ok a => a
  | .error _ => dflt

/-- Whether a run completed. -/
def completes {α : Type} (r : Except Err α) : Bool :=
  match r with
  | .ok _ => true
  | .error _ => false

/-- Room `a` ends strictly before room `b` begins, with a gap, on at least one axis. -/
def Room.apart (a b : Room) : Prop :=
  a.location.x + a.width < b.location.x ∨ b.location.x + b.width < a.location.x ∨
  a.location.y + a.height < b.location.y ∨ b.location.y + b.height < a.location.y

/-- Tile position `(px, py)` belongs to the footprint of room `r`. -/
def Room.covers (r : Room) (px py : Int) : Prop :=
  r.location.x ≤ px ∧ px < r.location.x + r.width ∧
  r.location.y ≤ py ∧ py < r.location.y + r.height

instance (a b : Room) : Decidable (Room.apart a b) :=
  inferInstanceAs (Decidable (_ ∨ _ ∨ _ ∨ _))

instance (r : Room) (px py : Int) : Decidable (r.covers px py) :=
  inferInstanceAs (Decidable (_ ∧ _ ∧ _ ∧ _))

/-- Room `r` keeps a margin of three tiles to every edge of a `gridWidth × gridHeight` grid. -/
def Room.inMargin (r : Room) (gridWidth gridHeight : Int) : Prop :=
  3 ≤ r.location.x ∧ 3 ≤ r.location.y ∧
  r.location.x + r.width ≤ gridWidth - 3 ∧ r.location.y + r.height ≤ gridHeight - 3

instance (r : Room) (gridWidth gridHeight : Int) : Decidable (r.inMargin gridWidth gridHeight) :=
  inferInstanceAs (Decidable (_ ∧ _ ∧ _ ∧ _))

/-- What one accepted trial of `createRooms` looks like, given the rooms accepted before. -/
def Trial (gridWidth gridHeight : Int) (rooms : List Room) (r : Room) : Prop :=
  r.edges = [] ∧ r.inMargin gridWidth gridHeight ∧ ∀ q ∈ rooms, Room.apart q r

/-- Whether the tile at `(x, y)` can be read and is TUNNEL or FLOOR. -/
def Grid.openAt (t : Grid) (x y : Int) : Bool :=
  match t.material x y with
  | .ok m => isOpen m
  | .error _ => false

/-- Edges contributed by index `j` of the first loop of `identifyEdges`: the position above the
room when the tile two steps up is open, then the position below it when the tile two steps
down is open. -/
def columnEdges (t : Grid) (r : Room) (j : Int) : List Point :=
  (if t.openAt j (r.location.y - 2) then [⟨j, r.location.y - 1⟩] else []) ++
  (if t.openAt j (r.location.y + r.height + 1) then [⟨j, r.location.y + r.height⟩] else [])

/-- Edges contributed by index `k` of the second loop of `identifyEdges`: left, then right. -/
def rowEdges (t : Grid) (r : Room) (k : Int) : List Point :=
  (if t.openAt (r.location.x - 2) k then [⟨r.location.x - 1, k⟩] else []) ++
  (if t.openAt (r.location.x + r.width + 1) k then [⟨r.location.x + r.width, k⟩] else [])

/-- The edge sequence of a room in scan order: for each column left to right its top edge then
its bottom edge, then for each row top to bottom its left edge then its right edge. -/
def scannedEdges (t : Grid) (r : Room) : List Point :=
  (intRange r.location.x (r.location.x + r.width)).flatMap (columnEdges t r) ++
  (intRange r.location.y (r.location.y + r.height)).flatMap (rowEdges t r)

/-- Every position of the `gridWidth × gridHeight` window of the grid can be read. -/
def Grid.Readable (t : Grid) (gridWidth gridHeight : Int) : Prop :=
  ∀ x y : Int, 0 ≤ x → x < gridWidth → 0 ≤ y → y < gridHeight → ∃ tile, t.get x y = .ok tile

/-- The tile at `(x, y)` is TUNNEL or FLOOR. -/
def Grid.TunnelOrFloor (t : Grid) (x y : Int) : Prop :=
  ∃ tile, t.get x y = .ok tile ∧
    (tile.material = Material.TUNNEL ∨ tile.material = Material.FLOOR)

/-- The grid is a list of `h` rows of `w` tiles each. -/
def Grid.Rect (t : Grid) (w h : Nat) : Prop :=
  t.length = h ∧ ∀ row ∈ t, row.length = w

instance (t : Grid) (w h : Nat) : Decidable (t.Rect w h) :=
  inferInstanceAs (Decidable (_ ∧ _))

/-- The first three stages of `generateDungeon`. -/
def stagesToMaze (gridWidth gridHeight roomAttempts minRoomSize maxRoomSize : Int) (g : Rng) :
    Except Err (Dungeon × Rng) :=
  match createEmptyDungeon gridWidth gridHeight with
  | .error e => .error e
  | .ok d0 =>
    match createRooms d0 minRoomSize maxRoomSize roomAttempts g with
    | .error e => .error e
    | .ok (d1, g1) => createMaze d1 g1

/-- The first four stages of `generateDungeon`. -/
def stagesToEdges (gridWidth gridHeight roomAttempts minRoomSize maxRoomSize : Int) (g : Rng) :
    Except Err (Dungeon × Rng) :=
  match stagesToMaze gridWidth gridHeight roomAttempts minRoomSize maxRoomSize g with
  | .error e => .error e
  | .ok (d2, g2) =>
    match identifyEdges d2 with
    | .error e => .error e
    | .ok d3 => .ok (d3, g2)

/-- The first five stages of `generateDungeon`. -/
def stagesToConnect (gridWidth gridHeight roomAttempts minRoomSize maxRoomSize : Int)
    (g : Rng) : Except Err (Dungeon × Rng) :=
  match stagesToEdges gridWidth gridHeight roomAttempts minRoomSize maxRoomSize g with
  | .error e => .error e
  | .ok (d3, g2) => connectRegions d3 g2

/-- Whether the tile at `p` can be read and is WALL. -/
def Grid.wallAt (t : Grid) (p : Point) : Bool :=
  match t.get p.x p.y with
  | .ok tile => decide (tile.material = Material.WALL)
  | .error _ => false

/-- Whether the tile at `p` can be read and is TUNNEL or DOOR. -/
def Grid.passageAt (t : Grid) (p : Point) : Bool :=
  match t.get p.x p.y with
  | .ok tile => isPassage tile.material
  | .error _ => false

/-- Number of WALL tiles among the four orthogonal neighbours of `(x, y)`. -/
def wallNeighbours (t : Grid) (x y : Int) : Nat :=
  ((around4 x y).filter t.wallAt).length

/-- The tile at `(x, y)` is a TUNNEL or DOOR with three or more WALL tiles among its four
orthogonal neighbours. -/
def Grid.DeadEnd (t : Grid) (x y : Int) : Prop :=
  t.passageAt ⟨x, y⟩ = true ∧ 3 ≤ wallNeighbours t x y

/-- The grid has exactly the positions `0 ≤ x < gridWidth`, `0 ≤ y < gridHeight`. -/
def Grid.HasSize (t : Grid) (gridWidth gridHeight : Int) : Prop :=
  ∀ x y : Int, (∃ tile, t.get x y = .ok tile) ↔
    (0 ≤ x ∧ x < gridWidth ∧ 0 ≤ y ∧ y < gridHeight)

/-- The outermost ring of tiles is WALL. -/
def Grid.WallRing (t : Grid) (gridWidth gridHeight : Int) : Prop :=
  ∀ (x y : Int) (tile : Tile), t.get x y = .ok tile →
    (x = 0 ∨ x = gridWidth - 1 ∨ y = 0 ∨ y = gridHeight - 1) → tile.material = Material.WALL

/-- The passage recorded by the neighbour loop of `continueTrimTunnels`: the last of the points
that is TUNNEL or DOOR, or `dflt` when there is none. -/
def lastPassage (t : Grid) (ps : List Point) (dflt : Point) : Point :=
  ((ps.filter t.passageAt).getLast?).getD dflt

/-- Region labelling of one tile as the code maintains it: a WALL tile has region 0, and a tile
with region 0 is WALL or DOOR (a door keeps the region of the tile it replaces). -/
def Tile.Labelled (tile : Tile) : Prop :=
  (tile.material = Material.WALL → tile.region = 0) ∧
  (tile.region = 0 → tile.material = Material.WALL ∨ tile.material = Material.DOOR)

/-- Every tile of the grid is labelled as the code maintains it. -/
def Grid.Labelled (t : Grid) : Prop :=
  ∀ (x y : Int) (tile : Tile), t.get x y = .ok tile → tile.Labelled

/-- No tile of the footprint of any of the rooms is WALL. -/
def RoomsOpen (t : Grid) (rooms : List Room) : Prop :=
  ∀ r ∈ rooms, ∀ (px py : Int), r.covers px py →
    ∀ tile, t.get px py = .ok tile → tile.material ≠ Material.WALL

/-- Whether the tile at `p` can be read and is not WALL. -/
def Grid.openTile (t : Grid) (p : Point) : Bool :=
  match t.get p.x p.y with
  | .ok tile => decide (tile.material ≠ Material.WALL)
  | .error _ => false

/-- There is a walk from `p` to the point through orthogonally adjacent non-WALL tiles. -/
inductive Joined (t : Grid) (p : Point) : Point → Prop where
  | start : t.openTile p = true → Joined t p p
  | step {q r : Point} : Joined t p q → r ∈ around4 q.x q.y → t.openTile r = true →
      Joined t p r

/-! ## Concrete runs used as examples -/

/-- Random source whose raw draws are all zero. -/
def zeroRng : Rng := ⟨fun _ => 0, 0⟩

/-- Random source whose raw draws are zero except the seventh, which is two. -/
def sampleRng : Rng := ⟨fun i => if i = 6 then 2 else 0, 0⟩

/-- Dungeon without tiles, the fallback value of the examples. -/
def noDungeon : Dungeon := ⟨[], [], 0, 0, 0⟩

/-- The 9 × 7 grid of walls. -/
def walls97 : Dungeon := okOr (createEmptyDungeon 9 7) noDungeon

/-- Two rooms of one tile placed in the 9 × 7 grid of walls. -/
def sampleRooms : Dungeon × Rng := okOr (createRooms walls97 1 2 2 sampleRng) (noDungeon, zeroRng)

/-- An 8 × 8 dungeon with one 2 × 2 room after maze carving. -/
def sampleMaze : Dungeon := (okOr (stagesToMaze 8 8 1 2 3 zeroRng) (noDungeon, zeroRng)).1

/-- The same dungeon after `identifyEdges`. -/
def sampleEdges : Dungeon := okOr (identifyEdges sampleMaze) noDungeon

/-- Random source whose i-th raw draw is `(a i² + b i + c) mod m`. -/
def polyRng (a b c m : Nat) : Rng := ⟨fun i => (a * i * i + b * i + c) % m, 0⟩

/-- An 11 × 11 run up to `identifyEdges` in which the room at (4, 4) gets no edge. -/
def sampleNoEdges : Dungeon × Rng :=
  okOr (stagesToEdges 11 11 2 1 2 (polyRng 1 4 1 7)) (noDungeon, zeroRng)

/-- The 9 × 7 run with two rooms, after `connectRegions`. -/
def sampleConnect : Dungeon :=
  (okOr (stagesToConnect 9 7 2 1 2 sampleRng) (noDungeon, zeroRng)).1

/-- The 9 × 7 run with two rooms, after all six stages. -/
def sampleFinal : Dungeon := okOr (generateDungeon 9 7 2 1 2 sampleRng) noDungeon

/-- A 9 × 9 run with one room, after `identifyEdges`, with the random source at that point. -/
def sampleSplitStage : Dungeon × Rng :=
  okOr (stagesToEdges 9 9 1 1 2 (polyRng 3 2 0 11)) (noDungeon, zeroRng)

/-- The same run after `connectRegions`. -/
def sampleSplit : Dungeon :=
  (okOr (connectRegions sampleSplitStage.1 sampleSplitStage.2) (noDungeon, zeroRng)).1

/-! ## Input validation in `main` -/

/-- Embedding of `parseIntOption`. The parameter `atoi` stands for `strconv.Atoi`, with `none`
for its error result. -/
def parseIntOption (atoi : String → Option Int) (option : List String)
    (defaultValue min max : Int) : Int :=
  match option with
  | [] => defaultValue
  | s :: _ =>
    match atoi s with
    | none => defaultValue
    | some value => if value < min ∨ value > max then defaultValue else value

/-- The values of the query keys read by the `/generate/` handler of `main`. -/
structure Query where
  dungeonWidth : List String
  dungeonHeight : List String
  roomAttempts : List String
  minRoomSize : List String
  maxRoomSize : List String
  pixelSize : List String

/-- The fields of `DungeonConfig` and `DungeonRoomsConfig` filled in by the handler. -/
structure Config where
  width : Int
  height : Int
  roomAttempts : Int
  minRoomSize : Int
  maxRoomSize : Int
  pixelSize : Int
  deriving DecidableEq, Repr

/-- The six `parseIntOption` assignments of the `/generate/` handler of `main`, in source order.
`math.Min` on the two converted integers is their minimum (the conversion to `float64` is
exact on the validated range). -/
def handlerConfig (atoi : String → Option Int) (q : Query) : Config :=
  let width := parseIntOption atoi q.dungeonWidth 50 20 1000
  let height := parseIntOption atoi q.dungeonHeight 50 20 1000
  let maxAllowedRoomSize := min (width - 2) (height - 2)
  let roomAttempts := parseIntOption atoi q.roomAttempts 200 1 100000
  let minRoomSize := parseIntOption atoi q.minRoomSize 5 1 maxAllowedRoomSize
  let maxRoomSize := parseIntOption atoi q.maxRoomSize (minRoomSize + 1) minRoomSize
    maxAllowedRoomSize
  let pixelSize := parseIntOption atoi q.pixelSize 10 1 20
  ⟨width, height, roomAttempts, minRoomSize, maxRoomSize, pixelSize⟩

/-- Value of a string of decimal digits, `none` when a character is not a digit. -/
def digitsValue : List Char → Nat → Option Nat
  | [], acc => some acc
  | c :: cs, acc =>
    if c.isDigit then digitsValue cs (acc * 10 + (c.toNat - '0'.toNat)) else none

/-- A decimal parser standing in for `strconv.Atoi` in the examples: an optional sign followed by
at least one decimal digit, with a value in the 64-bit range. -/
def decimalAtoi (s : String) : Option Int :=
  match s.data with
  | [] => none
  | '-' :: cs =>
    if cs.isEmpty then none
    else
      match digitsValue cs 0 with
      | none => none
      | some n => if n ≤ 2 ^ 63 then some (-(n : Int)) else none
  | '+' :: cs =>
    if cs.isEmpty then none
    else
      match digitsValue cs 0 with
      | none => none
      | some n => if n < 2 ^ 63 then some (n : Int) else none
  | cs =>
    match digitsValue cs 0 with
    | none => none
    | some n => if n < 2 ^ 63 then some (n : Int) else none

/-- The query `maxRoomSize=5` with every other key absent. -/
def queryEqualSizes : Query := ⟨[], [], [], [], ["5"], []⟩

/-- The query `dungeonWidth=20&dungeonHeight=20&minRoomSize=18` without `maxRoomSize`. -/
def queryLargeMin : Query := ⟨["20"], ["20"], [], ["18"], [], []⟩

/-- The 8 × 8 run with one attempt, after all six stages. -/
def sampleOneAttempt : Dungeon := okOr (generateDungeon 8 8 1 2 3 zeroRng) noDungeon

/-! ## The residual phase as specified -/

/-- The room loop of the residual phase as the specification words it: each room's edges are
visited in the order of the values of the drawn edge permutation. It is compared with
`residualRooms`, which embeds the source. -/
def residualRoomsInPermOrder (rooms : List Room) :
    List Nat → Grid × List Int × Rng → Except Err (Grid × List Int × Rng)
  | [], s => .ok s
  | i :: is, s =>
    match rooms[i]? with
    | none => .error Err.indexOutOfRange
    | some room =>
      match s.2.2.perm room.edges.length with
      | .error e => .error e
      | .ok (edgePerm, g1) =>
        match residualEdges room (edgePerm.map Int.toNat) (s.1, s.2.1) with
        | .error e => .error e
        | .ok (t1, connected) => residualRoomsInPermOrder rooms is (t1, connected, g1)

/-- The stage `connectRegions` as the specification words it: the residual phase visits the
rooms in the order of the values of the drawn room permutation. It is compared with
`connectRegions`, which embeds the source. -/
def connectRegionsInPermOrder (dungeon : Dungeon) (g : Rng) : Except Err (Dungeon × Rng) :=
  match forEachM primaryStep dungeon.rooms (dungeon.tiles, g) with
  | .error e => .error e
  | .ok (t1, g1) =>
    match g1.perm dungeon.rooms.length with
    | .error e => .error e
    | .ok (roomPerm, g2) =>
      match residualRoomsInPermOrder dungeon.rooms (roomPerm.map Int.toNat) (t1, [], g2) with
      | .error e => .error e
      | .ok (t2, _, g3) =>
        .ok ({ tiles := t2, rooms := dungeon.rooms, width := dungeon.width,
               height := dungeon.height, numRegions := dungeon.numRegions }, g3)

/-- A 9 × 7 run with two rooms after `identifyEdges`, with the random source at that point. -/
def sampleOrderStage : Dungeon × Rng :=
  okOr (stagesToEdges 9 7 2 1 2 (polyRng 2 0 0 3)) (noDungeon, zeroRng)

/-- Grid and random source of that run after the primary phase of `connectRegions`. -/
def sampleOrderPrimary : Grid × Rng :=
  okOr (forEachM primaryStep sampleOrderStage.1.rooms
    (sampleOrderStage.1.tiles, sampleOrderStage.2)) ([], zeroRng)

/-- Result of `connectRegions` on that run. -/
def sampleOrderCode : Dungeon :=
  (okOr (connectRegions sampleOrderStage.1 sampleOrderStage.2) (noDungeon, zeroRng)).1

/-- Result of the residual phase in permutation order on that run. -/
def sampleOrderSpec : Dungeon :=
  (okOr (connectRegionsInPermOrder sampleOrderStage.1 sampleOrderStage.2)
    (noDungeon, zeroRng)).1

/-- The first room of that run, at (5, 3), with its four edges. -/
def sampleOrderRoom : Room := ⟨1, 1, ⟨5, 3⟩, [⟨5, 2⟩, ⟨5, 4⟩, ⟨4, 3⟩, ⟨6, 3⟩]⟩

/-- The draw of the primary phase for that room. -/
def sampleOrderDraw : Int × Rng := okOr (sampleOrderStage.2.intn 4) (0, zeroRng)

/-! ## Maze carving in closed form -/

/-- Whether the tile at position `q` can be read and is WALL. -/
def Grid.wallXY (t : Grid) (q : Int × Int) : Bool := t.wallAt ⟨q.1, q.2⟩

/-- The positions read by `lookDown`, in source order. -/
def lookDownCells (x y : Int) : List (Int × Int) :=
  [(x - 2, y), (x - 2, y + 1), (x - 2, y - 1), (x - 1, y + 1), (x - 1, y - 1)]

/-- The positions read by `lookUp`, in source order. -/
def lookUpCells (x y : Int) : List (Int × Int) :=
  [(x + 2, y), (x + 2, y - 1), (x + 2, y + 1), (x + 1, y + 1), (x + 1, y - 1)]

/-- The positions read by `lookLeft`, in source order. -/
def lookLeftCells (x y : Int) : List (Int × Int) :=
  [(x, y - 2), (x - 1, y - 2), (x + 1, y - 2), (x - 1, y - 1), (x + 1, y - 1)]

/-- The positions read by `lookRight`, in source order. -/
def lookRightCells (x y : Int) : List (Int × Int) :=
  [(x, y + 2), (x - 1, y + 2), (x + 1, y + 2), (x - 1, y + 1), (x + 1, y + 1)]

/-- The first block of `getValidTiles` appends `(x - 1, y)`. -/
def leftOk (t : Grid) (x y : Int) : Bool :=
  decide (x - 2 ≥ 0) && t.wallAt ⟨x - 1, y⟩ && (lookDownCells x y).all t.wallXY

/-- The second block of `getValidTiles` appends `(x + 1, y)`. -/
def rightOk (t : Grid) (width x y : Int) : Bool :=
  decide (x + 2 < width) && t.wallAt ⟨x + 1, y⟩ && (lookUpCells x y).all t.wallXY

/-- The third block of `getValidTiles` appends `(x, y - 1)`. -/
def upOk (t : Grid) (x y : Int) : Bool :=
  decide (y - 2 ≥ 0) && t.wallAt ⟨x, y - 1⟩ && (lookLeftCells x y).all t.wallXY

/-- The fourth block of `getValidTiles` appends `(x, y + 1)`. -/
def downOk (t : Grid) (height x y : Int) : Bool :=
  decide (y + 2 < height) && t.wallAt ⟨x, y + 1⟩ && (lookRightCells x y).all t.wallXY

/-- The result of `getValidTiles` on a grid whose reads succeed. -/
def candidates (t : Grid) (width height x y : Int) : List Point :=
  (if leftOk t x y then [⟨x - 1, y⟩] else []) ++
  (if rightOk t width x y then [⟨x + 1, y⟩] else []) ++
  (if upOk t x y then [⟨x, y - 1⟩] else []) ++
  (if downOk t height x y then [⟨x, y + 1⟩] else [])

/-- Grid `t1` differs from `t` only at interior positions where a WALL tile became TUNNEL. -/
def Grid.Carved (width height : Int) (t t1 : Grid) : Prop :=
  ∀ x y : Int, t1.get x y = t.get x y ∨
    (1 ≤ x ∧ x ≤ width - 2 ∧ 1 ≤ y ∧ y ≤ height - 2 ∧
      ∃ old new, t.get x y = .ok old ∧ old.material = Material.WALL ∧
        t1.get x y = .ok new ∧ new.material = Material.TUNNEL)

/-- Whether the tile at `(x, y)` can be read and is FLOOR. -/
def Grid.floorAt (t : Grid) (x y : Int) : Bool :=
  match t.get x y with
  | .ok tile => decide (tile.material = Material.FLOOR)
  | .error _ => false

/-- Neither `(x, y)` nor any of its eight neighbours is a FLOOR tile. -/
def NoFloorNear (t : Grid) (x y : Int) : Prop :=
  ∀ q ∈ block3 x y, t.floorAt q.1 q.2 = false

/-- No TUNNEL tile is orthogonally or diagonally adjacent to a FLOOR tile. -/
def TunnelsClear (t : Grid) : Prop :=
  ∀ (x y : Int) (tile : Tile), t.get x y = .ok tile → tile.material = Material.TUNNEL →
    NoFloorNear t x y

/-- Big-step description of a call `continueMaze(x, y)`: it stops when the cell has no
candidate, and otherwise carves a candidate `p`, runs from `p`, and runs again from `(x, y)`. -/
inductive MazeRun (width height region : Int) : Grid → Int → Int → Grid → Prop where
  | stop {t : Grid} {x y : Int} : candidates t width height x y = [] →
      MazeRun width height region t x y t
  | branch {t t1 t2 t3 : Grid} {x y : Int} {p : Point} :
      p ∈ candidates t width height x y → carveTunnel t p region = .ok t1 →
      MazeRun width height region t1 p.x p.y t2 → MazeRun width height region t2 x y t3 →
      MazeRun width height region t x y t3


/-- Number of TUNNEL tiles of a grid. -/
def countTunnel (t : Grid) : Nat :=
  (t.map (fun row => row.countP (fun tile => decide (tile.material = Material.TUNNEL)))).sum

/-- A 5 × 3 grid of walls: its only interior row has three cells. -/
def walls53 : Dungeon := okOr (createEmptyDungeon 5 3) noDungeon

/-- The room has at least one tile, every tile of its footprint is FLOOR, and every other tile
of the footprint widened by one tile on each side is WALL. -/
def Room.enclosed (r : Room) (t : Grid) : Bool :=
  decide (1 ≤ r.width) && decide (1 ≤ r.height) &&
  (intRange (r.location.x - 1) (r.location.x + r.width + 1)).all (fun px =>
    (intRange (r.location.y - 1) (r.location.y + r.height + 1)).all (fun py =>
      if r.covers px py then t.floorAt px py else t.wallAt ⟨px, py⟩))

/-- Grid `t1` has the positions of `t` and differs from it at most by tiles whose material
became DOOR at an edge position of one of `rooms`, and by tiles whose region was rewritten
inside the footprint of one of `rooms`. -/
def Grid.DoorFrame (rooms : List Room) (t t1 : Grid) : Prop :=
  ∀ x y : Int,
    ((∃ tile, t1.get x y = .ok tile) ↔ (∃ tile, t.get x y = .ok tile)) ∧
    ∀ old new : Tile, t.get x y = .ok old → t1.get x y = .ok new →
      (new.material = old.material ∨
        (new.material = Material.DOOR ∧ ∃ r ∈ rooms, (⟨x, y⟩ : Point) ∈ r.edges)) ∧
      (new.region = old.region ∨ ∃ r ∈ rooms, r.covers x y)

/-- The grid has its `width × height` tiles, the rooms are pairwise apart, keep the three-tile
margin and are enclosed by WALL tiles, and every tile is a WALL tile of region 0, a FLOOR tile
with a region between 1 and the number of rooms, or a TUNNEL tile with a larger region. -/
def Dungeon.Furnished (d : Dungeon) : Prop :=
  d.tiles.HasSize d.width d.height ∧
  d.rooms.Pairwise Room.apart ∧
  (∀ r ∈ d.rooms, r.inMargin d.width d.height ∧ r.enclosed d.tiles = true) ∧
  (∀ (x y : Int) (tile : Tile), d.tiles.get x y = .ok tile →
    tile = ⟨0, Material.WALL⟩ ∨
    (tile.material = Material.FLOOR ∧ 1 ≤ tile.region ∧ tile.region ≤ d.rooms.length) ∨
    (tile.material = Material.TUNNEL ∧ (d.rooms.length : Int) < tile.region))
/-! ## Basic facts about the random source, the grid and the loops -/

theorem Rng.intn_spec {g g1 : Rng} {n v : Int} (h : g.intn n = .ok (v, g1)) :
    0 < n ∧ 0 ≤ v ∧ v < n := by
  unfold Rng.intn at h
  by_cases hn : n ≤ 0
  · simp [hn] at h
  · simp only [hn, if_false, Except.ok.injEq, Prod.mk.injEq] at h
    have hpos : 0 < n := by omega
    obtain ⟨hv, _⟩ := h
    subst hv
    exact ⟨hpos, Int.emod_nonneg _ (by omega), Int.emod_lt_of_pos _ hpos⟩

theorem Rng.intn_nonpos {g : Rng} {n : Int} (h : n ≤ 0) :
    g.intn n = .error Err.intnNonPositive := by
  simp [Rng.intn, h]

theorem eq_ok_okOr {α : Type} {r : Except Err α} (dflt : α) (h : completes r = true) :
    r = .ok (okOr r dflt) := by
  cases r with
  | error e => simp [completes] at h
  | ok a => rfl

theorem Grid.get_eq_ok {t : Grid} {x y : Int} {tile : Tile} :
    t.get x y = .ok tile ↔
      0 ≤ x ∧ 0 ≤ y ∧ ∃ row, t[y.toNat]? = some row ∧ row[x.toNat]? = some tile := by
  unfold Grid.get
  by_cases h : x < 0 ∨ y < 0
  · simp only [h, if_true]
    constructor
    · intro h1; cases h1
    · rintro ⟨hx, hy, _⟩; omega
  · simp only [h, if_false]
    have hx : 0 ≤ x := by omega
    have hy : 0 ≤ y := by omega
    cases hr : t[y.toNat]? with
    | none => simp [hx, hy]
    | some row =>
      cases hc : row[x.toNat]? with
      | none => simp [hx, hy, hc]
      | some tl => simp [hx, hy, hc]

theorem Grid.modify_eq_ok {t t1 : Grid} {x y : Int} {f : Tile → Tile} :
    t.modify x y f = .ok t1 ↔
      0 ≤ x ∧ 0 ≤ y ∧ ∃ row tile, t[y.toNat]? = some row ∧ row[x.toNat]? = some tile ∧
        t1 = t.set y.toNat (row.set x.toNat (f tile)) := by
  unfold Grid.modify
  by_cases h : x < 0 ∨ y < 0
  · simp only [h, if_true]
    constructor
    · intro h1; cases h1
    · rintro ⟨hx, hy, _⟩; omega
  · simp only [h, if_false]
    have hx : 0 ≤ x := by omega
    have hy : 0 ≤ y := by omega
    cases hr : t[y.toNat]? with
    | none => simp [hx, hy]
    | some row =>
      cases hc : row[x.toNat]? with
      | none => simp [hx, hy, hc]
      | some tl =>
        simp only [hx, hy, hc, true_and, Option.some.injEq, exists_and_left, exists_eq_left']
        constructor
        · intro h1; injection h1 with h1; exact h1.symm
        · intro h1; rw [h1]


theorem Grid.get_modify {t t1 : Grid} {x y : Int} {f : Tile → Tile}
    (h : t.modify x y f = .ok t1) (x1 y1 : Int) :
    t1.get x1 y1 =
      if x1 = x ∧ y1 = y then (match t.get x y with | .ok tile => .ok (f tile) | .error e => .error e)
      else t.get x1 y1 := by
  obtain ⟨hx, hy, row, tile, hr, hc, rfl⟩ := Grid.modify_eq_ok.mp h
  have hylt : y.toNat < t.length := by
    rcases Nat.lt_or_ge y.toNat t.length with h1 | h1
    · exact h1
    · rw [List.getElem?_eq_none h1] at hr; cases hr
  have hxlt : x.toNat < row.length := by
    rcases Nat.lt_or_ge x.toNat row.length with h1 | h1
    · exact h1
    · rw [List.getElem?_eq_none h1] at hc; cases hc
  have hget : t.get x y = .ok tile := Grid.get_eq_ok.mpr ⟨hx, hy, row, hr, hc⟩
  by_cases hneg : x1 < 0 ∨ y1 < 0
  · have h1 : ¬ (x1 = x ∧ y1 = y) := by omega
    simp [Grid.get, hneg, h1]
  · have hx1 : 0 ≤ x1 := by omega
    have hy1 : 0 ≤ y1 := by omega
    by_cases hyy : y1 = y
    · subst hyy
      by_cases hxx : x1 = x
      · subst hxx
        simp [Grid.get, hneg, List.getElem?_set, hylt, hxlt, hr, hc]
      · have hne : ¬ x.toNat = x1.toNat := by omega
        simp [Grid.get, hneg, List.getElem?_set, hylt, hxlt, hr, hc, hxx, hne]
    · have hne : ¬ y.toNat = y1.toNat := by omega
      simp [Grid.get, hneg, List.getElem?_set, hyy, hne]


theorem Grid.modify_spec {t t1 : Grid} {x y : Int} {f : Tile → Tile}
    (h : t.modify x y f = .ok t1) :
    ∃ old, t.get x y = .ok old ∧ t1.get x y = .ok (f old) ∧
      ∀ x1 y1, (x1 ≠ x ∨ y1 ≠ y) → t1.get x1 y1 = t.get x1 y1 := by
  obtain ⟨hx, hy, row, tile, hr, hc, _⟩ := Grid.modify_eq_ok.mp h
  have hget : t.get x y = .ok tile := Grid.get_eq_ok.mpr ⟨hx, hy, row, hr, hc⟩
  refine ⟨tile, hget, ?_, ?_⟩
  · rw [Grid.get_modify h]; simp [hget]
  · intro x1 y1 hne
    rw [Grid.get_modify h]
    have : ¬ (x1 = x ∧ y1 = y) := by
      rintro ⟨h1, h2⟩; rcases hne with h3 | h3 <;> contradiction
    simp [this]

theorem Grid.modify_of_get {t : Grid} {x y : Int} {tile : Tile} (f : Tile → Tile)
    (h : t.get x y = .ok tile) : ∃ t1, t.modify x y f = .ok t1 := by
  obtain ⟨hx, hy, row, hr, hc⟩ := Grid.get_eq_ok.mp h
  exact ⟨_, Grid.modify_eq_ok.mpr ⟨hx, hy, row, tile, hr, hc, rfl⟩⟩

theorem Grid.material_eq_ok {t : Grid} {x y : Int} {m : Material} :
    t.material x y = .ok m ↔ ∃ tile, t.get x y = .ok tile ∧ tile.material = m := by
  unfold Grid.material
  cases h : t.get x y with
  | error e => simp
  | ok tile => simp

theorem mem_intRange {lo hi a : Int} : a ∈ intRange lo hi ↔ lo ≤ a ∧ a < hi := by
  unfold intRange
  simp only [List.mem_map, List.mem_range]
  constructor
  · rintro ⟨k, hk, rfl⟩
    omega
  · rintro ⟨h1, h2⟩
    refine ⟨(a - lo).toNat, ?_, ?_⟩
    · omega
    · omega

theorem forEachM_append {α σ : Type} (f : α → σ → Except Err σ) (l1 l2 : List α) (s : σ) :
    forEachM f (l1 ++ l2) s =
      match forEachM f l1 s with
      | .error e => .error e
      | .ok s1 => forEachM f l2 s1 := by
  induction l1 generalizing s with
  | nil => simp [forEachM]
  | cons a l ih =>
    simp only [List.cons_append, forEachM]
    cases h : f a s with
    | error e => simp
    | ok s1 => simp [ih]

theorem forEachM_inv {α σ : Type} {f : α → σ → Except Err σ} (P : σ → Prop) {l : List α}
    (hstep : ∀ a ∈ l, ∀ s s1, P s → f a s = .ok s1 → P s1) :
    ∀ s s1, P s → forEachM f l s = .ok s1 → P s1 := by
  induction l with
  | nil => intro s s1 hp h; simp [forEachM] at h; subst h; exact hp
  | cons a l ih =>
    intro s s1 hp h
    simp only [forEachM] at h
    cases hf : f a s with
    | error e => rw [hf] at h; cases h
    | ok s2 =>
      rw [hf] at h
      exact ih (fun b hb => hstep b (List.mem_cons_of_mem _ hb)) s2 s1
        (hstep a (List.mem_cons_self _ _) s s2 hp hf) h

theorem forEachM_inv_prefix {α σ : Type} {f : α → σ → Except Err σ} (P : List α → σ → Prop)
    (l : List α)
    (hstep : ∀ pre a post, l = pre ++ a :: post → ∀ s s1, P pre s → f a s = .ok s1 →
      P (pre ++ [a]) s1) :
    ∀ s s1, P [] s → forEachM f l s = .ok s1 → P l s1 := by
  suffices H : ∀ (rest pre : List α), l = pre ++ rest → ∀ s s1, P pre s →
      forEachM f rest s = .ok s1 → P l s1 from fun s s1 hp h => H l [] rfl s s1 hp h
  intro rest
  induction rest with
  | nil =>
    intro pre hl s s1 hp h
    simp [forEachM] at h; subst h
    rw [hl, List.append_nil]; exact hp
  | cons a rest ih =>
    intro pre hl s s1 hp h
    simp only [forEachM] at h
    cases hf : f a s with
    | error e => rw [hf] at h; cases h
    | ok s2 =>
      rw [hf] at h
      exact ih (pre ++ [a]) (by simp [hl]) s2 s1 (hstep pre a rest hl s s2 hp hf) h

theorem forEachM_ok_prefix {α σ : Type} {f : α → σ → Except Err σ} (P : List α → σ → Prop)
    (l : List α)
    (hstep : ∀ pre a post, l = pre ++ a :: post → ∀ s, P pre s →
      ∃ s1, f a s = .ok s1 ∧ P (pre ++ [a]) s1) :
    ∀ s, P [] s → ∃ s1, forEachM f l s = .ok s1 ∧ P l s1 := by
  suffices H : ∀ (rest pre : List α), l = pre ++ rest → ∀ s, P pre s →
      ∃ s1, forEachM f rest s = .ok s1 ∧ P l s1 from fun s hp => H l [] rfl s hp
  intro rest
  induction rest with
  | nil =>
    intro pre hl s hp
    refine ⟨s, by simp [forEachM], ?_⟩
    rw [hl, List.append_nil]; exact hp
  | cons a rest ih =>
    intro pre hl s hp
    obtain ⟨s2, hf, hp2⟩ := hstep pre a rest hl s hp
    obtain ⟨s1, h1, h2⟩ := ih (pre ++ [a]) (by simp [hl]) s2 hp2
    exact ⟨s1, by simp [forEachM, hf, h1], h2⟩

/-! ## Room placement -/

theorem Room.apart_symm {a b : Room} (h : Room.apart a b) : Room.apart b a := by
  unfold Room.apart at *
  omega

theorem clearOf_apart {x y width height : Int} {q : Room}
    (h : clearOf x y width height q = true) :
    Room.apart q ⟨width, height, ⟨x, y⟩, []⟩ := by
  simp only [clearOf, Bool.or_eq_true, decide_eq_true_eq] at h
  unfold Room.apart
  simp only
  omega

theorem placeRooms_induct (gridWidth gridHeight minSize maxSize : Int) (P : List Room → Prop)
    (hP : ∀ rooms r, P rooms → Trial gridWidth gridHeight rooms r → P (rooms ++ [r])) :
    ∀ (n : Nat) (rooms : List Room) (g : Rng) (res : List Room × Rng),
      placeRooms gridWidth gridHeight minSize maxSize n rooms g = .ok res →
      P rooms → P res.1 := by
  intro n
  induction n with
  | zero =>
    intro rooms g res h hp
    simp only [placeRooms, Except.ok.injEq] at h
    subst h; exact hp
  | succ n ih =>
    intro rooms g res h hp
    simp only [placeRooms] at h
    cases ha : g.intn (maxSize - minSize) with
    | error e => rw [ha] at h; cases h
    | ok r1 =>
      obtain ⟨a, g1⟩ := r1
      rw [ha] at h
      simp only at h
      cases hb : g1.intn (maxSize - minSize) with
      | error e => rw [hb] at h; cases h
      | ok r2 =>
        obtain ⟨b, g2⟩ := r2
        rw [hb] at h
        simp only at h
        cases hc : g2.intn (gridWidth - (a + minSize) - 2 - 3) with
        | error e => rw [hc] at h; cases h
        | ok r3 =>
          obtain ⟨c, g3⟩ := r3
          rw [hc] at h
          simp only at h
          cases hd : g3.intn (gridHeight - (b + minSize) - 2 - 3) with
          | error e => rw [hd] at h; cases h
          | ok r4 =>
            obtain ⟨d, g4⟩ := r4
            rw [hd] at h
            simp only at h
            by_cases hall : rooms.all (clearOf (c + 3) (d + 3) (a + minSize) (b + minSize)) = true
            · rw [if_pos hall] at h
              refine ih _ _ _ h (hP _ _ hp ⟨rfl, ?_, ?_⟩)
              · have h3 := Rng.intn_spec hc
                have h4 := Rng.intn_spec hd
                unfold Room.inMargin
                simp only
                omega
              · intro q hq
                exact clearOf_apart (List.all_eq_true.mp hall q hq)
            · rw [if_neg hall] at h
              exact ih _ _ _ h hp

theorem createRooms_rooms {d : Dungeon} {minSize maxSize attempts : Int} {g : Rng}
    {res : Dungeon × Rng} (h : createRooms d minSize maxSize attempts g = .ok res) :
    ∃ g0, placeRooms d.width d.height minSize maxSize attempts.toNat [] g = .ok (res.1.rooms, g0) := by
  unfold createRooms at h
  cases hp : placeRooms d.width d.height minSize maxSize attempts.toNat [] g with
  | error e => rw [hp] at h; cases h
  | ok r =>
    obtain ⟨rooms, g1⟩ := r
    rw [hp] at h
    simp only at h
    cases hc : forEachM carveRoom rooms (d.tiles, d.numRegions) with
    | error e => rw [hc] at h; cases h
    | ok s =>
      obtain ⟨t, n⟩ := s
      rw [hc] at h
      simp only [Except.ok.injEq] at h
      subst h
      exact ⟨g1, rfl⟩

/-- Claim C1 (refuted at a validated input): with gridWidth = gridHeight = 20, roomAttempts = 1,
minRoomSize = 17 and maxRoomSize = 18, all inside the validated ranges, the only room width
is 17, so `maxX - 3 = -2` and `rand.Intn` panics in `createRooms`, whatever the random draws. -/
theorem generateDungeon_fails_on_validated_input (g : Rng) :
    generateDungeon 20 20 1 17 18 g = .error Err.intnNonPositive := by
  have h1 : ∀ k : Nat, ((k : Int) % (18 - 17)) = 0 := by intro k; omega
  simp [generateDungeon, createEmptyDungeon, createRooms, placeRooms, Rng.intn, h1]

/-- Claim C5: whenever `createRooms` completes, every accepted room lies at least three tiles
from every grid edge. -/
theorem createRooms_margin (d : Dungeon) (minSize maxSize attempts : Int) (g : Rng)
    (res : Dungeon × Rng) (h : createRooms d minSize maxSize attempts g = .ok res) :
    ∀ r ∈ res.1.rooms,
      r.location.x ≥ 3 ∧ r.location.y ≥ 3 ∧
      r.location.x + r.width ≤ d.width - 3 ∧ r.location.y + r.height ≤ d.height - 3 := by
  obtain ⟨g0, hp⟩ := createRooms_rooms h
  have := placeRooms_induct d.width d.height minSize maxSize
    (fun rooms => ∀ r ∈ rooms, r.inMargin d.width d.height)
    (by
      intro rooms r hrooms htrial q hq
      rcases List.mem_append.mp hq with hq | hq
      · exact hrooms q hq
      · simp only [List.mem_singleton] at hq
        subst hq; exact htrial.2.1)
    _ _ _ _ hp (by simp)
  intro r hr
  have h1 := this r hr
  unfold Room.inMargin at h1
  omega

theorem createRooms_pairwise {d : Dungeon} {minSize maxSize attempts : Int} {g : Rng}
    {res : Dungeon × Rng} (h : createRooms d minSize maxSize attempts g = .ok res) :
    res.1.rooms.Pairwise Room.apart := by
  obtain ⟨g0, hp⟩ := createRooms_rooms h
  exact placeRooms_induct d.width d.height minSize maxSize
    (fun rooms => rooms.Pairwise Room.apart)
    (by
      intro rooms r hrooms htrial
      rw [List.pairwise_append]
      refine ⟨hrooms, by simp, ?_⟩
      intro a ha b hb
      simp only [List.mem_singleton] at hb
      subst hb
      exact htrial.2.2 a ha)
    _ _ _ _ hp (by simp)

/-- Claim C4: any two distinct accepted rooms of a result of `createRooms` are separated with a
gap on at least one axis, so no tile of one equals or touches, even diagonally, a tile of the
other. -/
theorem createRooms_apart (d : Dungeon) (minSize maxSize attempts : Int) (g : Rng)
    (res : Dungeon × Rng) (h : createRooms d minSize maxSize attempts g = .ok res)
    (i j : Nat) (a b : Room) (hne : i ≠ j)
    (ha : res.1.rooms[i]? = some a) (hb : res.1.rooms[j]? = some b) :
    (a.location.x + a.width < b.location.x ∨ b.location.x + b.width < a.location.x ∨
      a.location.y + a.height < b.location.y ∨ b.location.y + b.height < a.location.y) ∧
    ∀ px py qx qy : Int, a.covers px py → b.covers qx qy →
      ¬ (|px - qx| ≤ 1 ∧ |py - qy| ≤ 1) := by
  have hpw := createRooms_pairwise h
  have hab : Room.apart a b := by
    obtain ⟨hi, hai⟩ := List.getElem?_eq_some_iff.mp ha
    obtain ⟨hj, hbj⟩ := List.getElem?_eq_some_iff.mp hb
    rw [List.pairwise_iff_getElem] at hpw
    rcases Nat.lt_or_gt_of_ne hne with hlt | hgt
    · have := hpw i j hi hj hlt
      rw [hai, hbj] at this; exact this
    · have := hpw j i hj hi hgt
      rw [hai, hbj] at this; exact Room.apart_symm this
  refine ⟨hab, ?_⟩
  intro px py qx qy hpa hqb
  unfold Room.apart at hab
  unfold Room.covers at hpa hqb
  rw [abs_le, abs_le]
  omega

/-- Witness of `createRooms_margin`: the two rooms placed in the 9 × 7 grid. -/
theorem createRooms_margin_witness :
    completes (createRooms walls97 1 2 2 sampleRng) = true ∧
    sampleRooms.1.rooms.length = 2 ∧
    ∀ r ∈ sampleRooms.1.rooms,
      r.location.x ≥ 3 ∧ r.location.y ≥ 3 ∧
      r.location.x + r.width ≤ walls97.width - 3 ∧
      r.location.y + r.height ≤ walls97.height - 3 :=
  ⟨by decide, by decide,
    createRooms_margin walls97 1 2 2 sampleRng sampleRooms (eq_ok_okOr _ (by decide))⟩

/-- Witness of `createRooms_apart`: the two rooms placed in the 9 × 7 grid. -/
theorem createRooms_apart_witness :
    completes (createRooms walls97 1 2 2 sampleRng) = true ∧
    sampleRooms.1.rooms[0]? = some ⟨1, 1, ⟨3, 3⟩, []⟩ ∧
    sampleRooms.1.rooms[1]? = some ⟨1, 1, ⟨5, 3⟩, []⟩ ∧
    ∀ px py qx qy : Int, Room.covers ⟨1, 1, ⟨3, 3⟩, []⟩ px py →
      Room.covers ⟨1, 1, ⟨5, 3⟩, []⟩ qx qy → ¬ (|px - qx| ≤ 1 ∧ |py - qy| ≤ 1) :=
  ⟨by decide, by decide, by decide,
    (createRooms_apart walls97 1 2 2 sampleRng sampleRooms (eq_ok_okOr _ (by decide))
      0 1 ⟨1, 1, ⟨3, 3⟩, []⟩ ⟨1, 1, ⟨5, 3⟩, []⟩ (by decide) (by decide) (by decide)).2⟩

/-! ## Writing a rectangle of tiles -/

theorem intRange_nodup (lo hi : Int) : (intRange lo hi).Nodup := by
  unfold intRange
  refine List.Nodup.map ?_ (List.nodup_range _)
  intro a b h
  simp only at h
  omega

theorem fillColumn_get {f : Tile → Tile} {i : Int} :
    ∀ {ys : List Int} {t t1 : Grid}, ys.Nodup →
      forEachM (fun j t0 => Grid.modify t0 i j f) ys t = .ok t1 →
      ∀ px py, t1.get px py =
        if px = i ∧ py ∈ ys then Except.map f (t.get px py) else t.get px py := by
  intro ys
  induction ys with
  | nil =>
    intro t t1 _ h px py
    simp only [forEachM, Except.ok.injEq] at h
    subst h; simp
  | cons j ys ih =>
    intro t t1 hnd h px py
    simp only [forEachM] at h
    cases hm : Grid.modify t i j f with
    | error e => rw [hm] at h; cases h
    | ok t2 =>
      rw [hm] at h
      simp only at h
      have hnd2 := (List.nodup_cons.mp hnd)
      rw [ih hnd2.2 h px py, Grid.get_modify hm]
      by_cases hpx : px = i
      · subst hpx
        by_cases hpy : py = j
        · subst hpy
          have : py ∉ ys := hnd2.1
          simp only [this, and_false, if_false, true_and, List.mem_cons, true_or, if_true]
          cases t.get px py <;> rfl
        · simp [hpy]
      · simp [hpx]

theorem fillRect_get {f : Tile → Tile} {ys : List Int} (hys : ys.Nodup) :
    ∀ {xs : List Int} {t t1 : Grid}, xs.Nodup →
      forEachM (fun i t0 => forEachM (fun j t2 => Grid.modify t2 i j f) ys t0) xs t = .ok t1 →
      ∀ px py, t1.get px py =
        if px ∈ xs ∧ py ∈ ys then Except.map f (t.get px py) else t.get px py := by
  intro xs
  induction xs with
  | nil =>
    intro t t1 _ h px py
    simp only [forEachM, Except.ok.injEq] at h
    subst h; simp
  | cons i xs ih =>
    intro t t1 hnd h px py
    simp only [forEachM] at h
    cases hm : forEachM (fun j t2 => Grid.modify t2 i j f) ys t with
    | error e => rw [hm] at h; cases h
    | ok t2 =>
      rw [hm] at h
      simp only at h
      have hnd2 := (List.nodup_cons.mp hnd)
      rw [ih hnd2.2 h px py, fillColumn_get hys hm]
      by_cases hpx : px = i
      · subst hpx
        have : px ∉ xs := hnd2.1
        simp [this]
      · simp [hpx]

theorem carveRoom_get {r : Room} {t t1 : Grid} {n n1 : Int}
    (h : carveRoom r (t, n) = .ok (t1, n1)) :
    n1 = n + 1 ∧ ∀ px py, t1.get px py =
      if r.covers px py then Except.map (fun _ => ⟨n + 1, Material.FLOOR⟩) (t.get px py)
      else t.get px py := by
  unfold carveRoom at h
  simp only at h
  cases hm : forEachM (fun i t0 =>
      forEachM (fun j t2 => Grid.modify t2 i j (fun _ => ⟨n + 1, Material.FLOOR⟩))
        (intRange r.location.y (r.location.y + r.height)) t0)
      (intRange r.location.x (r.location.x + r.width)) t with
  | error e => rw [hm] at h; cases h
  | ok t2 =>
    rw [hm] at h
    simp only [Except.ok.injEq, Prod.mk.injEq] at h
    obtain ⟨h1, h2⟩ := h
    subst h1
    refine ⟨h2.symm, ?_⟩
    intro px py
    rw [fillRect_get (intRange_nodup _ _) (intRange_nodup _ _) hm px py]
    simp only [mem_intRange]
    by_cases hc : (r.location.x ≤ px ∧ px < r.location.x + r.width) ∧
        r.location.y ≤ py ∧ py < r.location.y + r.height
    · have hc2 : r.covers px py := ⟨hc.1.1, hc.1.2, hc.2.1, hc.2.2⟩
      rw [if_pos hc, if_pos hc2]
    · have hc2 : ¬ r.covers px py := by
        rintro ⟨a, b, c, d⟩; exact hc ⟨⟨a, b⟩, c, d⟩
      rw [if_neg hc, if_neg hc2]

theorem Room.apart_not_covers {a b : Room} (h : Room.apart a b) {px py : Int}
    (ha : a.covers px py) : ¬ b.covers px py := by
  unfold Room.apart at h
  unfold Room.covers at *
  omega


theorem Grid.modify_defined {t t1 : Grid} {x y : Int} {f : Tile → Tile}
    (h : t.modify x y f = .ok t1) (px py : Int) :
    (∃ tile, t1.get px py = .ok tile) ↔ (∃ tile, t.get px py = .ok tile) := by
  obtain ⟨old, h1, h2, h3⟩ := Grid.modify_spec h
  by_cases hp : px = x ∧ py = y
  · obtain ⟨rfl, rfl⟩ := hp
    exact ⟨fun _ => ⟨old, h1⟩, fun _ => ⟨f old, h2⟩⟩
  · have : px ≠ x ∨ py ≠ y := by
      by_cases hx : px = x
      · right; intro hy; exact hp ⟨hx, hy⟩
      · left; exact hx
    rw [h3 px py this]

theorem fillColumn_defined {f : Tile → Tile} {i : Int} :
    ∀ {ys : List Int} {t t1 : Grid},
      forEachM (fun j t0 => Grid.modify t0 i j f) ys t = .ok t1 →
      (∀ px py, (∃ tile, t1.get px py = .ok tile) ↔ (∃ tile, t.get px py = .ok tile)) ∧
      ∀ py ∈ ys, ∃ tile, t.get i py = .ok tile := by
  intro ys
  induction ys with
  | nil =>
    intro t t1 h
    simp only [forEachM, Except.ok.injEq] at h
    subst h; simp
  | cons j ys ih =>
    intro t t1 h
    simp only [forEachM] at h
    cases hm : Grid.modify t i j f with
    | error e => rw [hm] at h; cases h
    | ok t2 =>
      rw [hm] at h
      simp only at h
      obtain ⟨ih1, ih2⟩ := ih h
      refine ⟨fun px py => (ih1 px py).trans (Grid.modify_defined hm px py), ?_⟩
      intro py hpy
      rcases List.mem_cons.mp hpy with rfl | hpy
      · obtain ⟨old, h1, _⟩ := Grid.modify_spec hm
        exact ⟨old, h1⟩
      · exact (Grid.modify_defined hm i py).mp (ih2 py hpy)

theorem fillRect_defined {f : Tile → Tile} {ys : List Int} :
    ∀ {xs : List Int} {t t1 : Grid},
      forEachM (fun i t0 => forEachM (fun j t2 => Grid.modify t2 i j f) ys t0) xs t = .ok t1 →
      (∀ px py, (∃ tile, t1.get px py = .ok tile) ↔ (∃ tile, t.get px py = .ok tile)) ∧
      ∀ px ∈ xs, ∀ py ∈ ys, ∃ tile, t.get px py = .ok tile := by
  intro xs
  induction xs with
  | nil =>
    intro t t1 h
    simp only [forEachM, Except.ok.injEq] at h
    subst h; simp
  | cons i xs ih =>
    intro t t1 h
    simp only [forEachM] at h
    cases hm : forEachM (fun j t2 => Grid.modify t2 i j f) ys t with
    | error e => rw [hm] at h; cases h
    | ok t2 =>
      rw [hm] at h
      simp only at h
      obtain ⟨ih1, ih2⟩ := ih h
      obtain ⟨c1, c2⟩ := fillColumn_defined hm
      refine ⟨fun px py => (ih1 px py).trans (c1 px py), ?_⟩
      intro px hpx py hpy
      rcases List.mem_cons.mp hpx with rfl | hpx
      · exact c2 py hpy
      · exact (c1 px py).mp (ih2 px hpx py hpy)

theorem carveRoom_covered {r : Room} {t t1 : Grid} {n n1 : Int}
    (h : carveRoom r (t, n) = .ok (t1, n1)) {px py : Int} (hc : r.covers px py) :
    t1.get px py = .ok ⟨n + 1, Material.FLOOR⟩ := by
  have hg := (carveRoom_get h).2 px py
  rw [if_pos hc] at hg
  unfold carveRoom at h
  simp only at h
  cases hm : forEachM (fun i t0 =>
      forEachM (fun j t2 => Grid.modify t2 i j (fun _ => ⟨n + 1, Material.FLOOR⟩))
        (intRange r.location.y (r.location.y + r.height)) t0)
      (intRange r.location.x (r.location.x + r.width)) t with
  | error e => rw [hm] at h; cases h
  | ok t2 =>
    obtain ⟨tile, ht⟩ := (fillRect_defined hm).2 px (mem_intRange.mpr ⟨hc.1, hc.2.1⟩) py
      (mem_intRange.mpr ⟨hc.2.2.1, hc.2.2.2⟩)
    rw [hg, ht]; rfl

theorem createEmptyDungeon_spec {width height : Int} {d : Dungeon}
    (h : createEmptyDungeon width height = .ok d) :
    d.width = width ∧ d.height = height ∧ d.rooms = [] ∧ d.numRegions = 0 ∧
    d.tiles = List.replicate height.toNat (List.replicate width.toNat zeroTile) := by
  unfold createEmptyDungeon at h
  split at h
  · cases h
  · split at h
    · cases h
    · simp only [Except.ok.injEq] at h
      subst h
      simp

theorem replicate_get {w h : Nat} {px py : Int} {tile : Tile}
    (hg : Grid.get (List.replicate h (List.replicate w zeroTile)) px py = .ok tile) :
    tile = zeroTile := by
  obtain ⟨_, _, row, hr, hc⟩ := Grid.get_eq_ok.mp hg
  have h1 := List.getElem?_mem hr
  have h2 := List.getElem?_mem hc
  rw [List.mem_replicate] at h1
  rw [h1.2, List.mem_replicate] at h2
  exact h2.2

/-- Claim C7: when `createRooms` is applied to the dungeon made by `createEmptyDungeon` and
completes, `numRegions` equals the number of accepted rooms, the k-th accepted room (counted
from 1) has every tile of its footprint FLOOR with region k, and every tile outside all
footprints is still WALL with region 0. -/
theorem createRooms_carves (width height minSize maxSize attempts : Int) (g : Rng)
    (d0 : Dungeon) (res : Dungeon × Rng)
    (h0 : createEmptyDungeon width height = .ok d0)
    (h : createRooms d0 minSize maxSize attempts g = .ok res) :
    res.1.numRegions = res.1.rooms.length ∧
    (∀ (k : Nat) (r : Room), res.1.rooms[k]? = some r → ∀ px py, r.covers px py →
      res.1.tiles.get px py = .ok ⟨(k : Int) + 1, Material.FLOOR⟩) ∧
    (∀ px py tile, res.1.tiles.get px py = .ok tile →
      (∀ r ∈ res.1.rooms, ¬ r.covers px py) → tile = ⟨0, Material.WALL⟩) := by
  have hpw := createRooms_pairwise h
  obtain ⟨_, _, _, hn0, ht0⟩ := createEmptyDungeon_spec h0
  unfold createRooms at h
  cases hp : placeRooms d0.width d0.height minSize maxSize attempts.toNat [] g with
  | error e => rw [hp] at h; cases h
  | ok r =>
    obtain ⟨rooms, g1⟩ := r
    rw [hp] at h
    simp only at h
    cases hc : forEachM carveRoom rooms (d0.tiles, d0.numRegions) with
    | error e => rw [hc] at h; cases h
    | ok s =>
      obtain ⟨t, n⟩ := s
      rw [hc] at h
      simp only [Except.ok.injEq] at h
      subst h
      simp only at hpw ⊢
      have key := forEachM_inv_prefix
        (fun (pre : List Room) (s : Grid × Int) =>
          s.2 = pre.length ∧
          (∀ (k : Nat) (r : Room), pre[k]? = some r → ∀ px py, r.covers px py →
            s.1.get px py = .ok ⟨(k : Int) + 1, Material.FLOOR⟩) ∧
          (∀ px py tile, s.1.get px py = .ok tile →
            (∀ r ∈ pre, ¬ r.covers px py) → tile = zeroTile))
        rooms
        (by
          rintro pre a post hl ⟨t0, n0⟩ ⟨t1, n1⟩ ⟨hn, hcov, hout⟩ hstep
          simp only at hn hcov hout
          obtain ⟨hn1, hget⟩ := carveRoom_get hstep
          have hpa : ∀ q ∈ pre, Room.apart q a := by
            rw [hl, List.pairwise_append] at hpw
            intro q hq
            exact hpw.2.2 q hq a (List.mem_cons_self _ _)
          refine ⟨?_, ?_, ?_⟩
          · simp only [List.length_append, List.length_singleton, Nat.cast_add, Nat.cast_one]
            omega
          · intro k r hk px py hr
            rcases Nat.lt_or_ge k pre.length with hlt | hge
            · rw [List.getElem?_append_left hlt] at hk
              have hmem := List.getElem?_mem hk
              have hna : ¬ a.covers px py := Room.apart_not_covers (hpa r hmem) hr
              simp only
              rw [hget, if_neg hna]
              exact hcov k r hk px py hr
            · rw [List.getElem?_append_right hge] at hk
              have hk0 : k - pre.length = 0 := by
                rcases Nat.eq_zero_or_pos (k - pre.length) with h0 | h0
                · exact h0
                · rw [List.getElem?_eq_none (by simp only [List.length_singleton]; omega)] at hk; cases hk
              rw [hk0] at hk
              simp only [List.getElem?_cons_zero, Option.some.injEq] at hk
              subst hk
              have := carveRoom_covered hstep hr
              simp only
              rw [this]
              have : (k : Int) = n0 := by omega
              rw [this]
          · intro px py tile hg hnot
            have hna : ¬ a.covers px py := hnot a (by simp)
            simp only at hg
            rw [hget, if_neg hna] at hg
            exact hout px py tile hg (fun r hr => hnot r (by simp [hr])))
        (d0.tiles, d0.numRegions) (t, n)
        (by
          refine ⟨by simp [hn0], by simp, ?_⟩
          intro px py tile hg _
          simp only at hg
          rw [ht0] at hg
          exact replicate_get hg)
        hc
      exact key

/-- Witness of `createRooms_carves`: the two rooms placed in the 9 × 7 grid. -/
theorem createRooms_carves_witness :
    completes (createEmptyDungeon 9 7) = true ∧
    completes (createRooms walls97 1 2 2 sampleRng) = true ∧
    sampleRooms.1.numRegions = 2 ∧
    sampleRooms.1.numRegions = sampleRooms.1.rooms.length :=
  ⟨by decide, by decide, by decide,
    (createRooms_carves 9 7 1 2 2 sampleRng walls97 sampleRooms (eq_ok_okOr _ (by decide))
      (eq_ok_okOr _ (by decide))).1⟩

/-! ## Edge identification -/

theorem appendIfOpen_ok {t : Grid} {px py : Int} (e : Point) (edges : List Point)
    (h : ∃ tile, t.get px py = .ok tile) :
    appendIfOpen t px py e edges = .ok (edges ++ if t.openAt px py then [e] else []) := by
  obtain ⟨tile, ht⟩ := h
  unfold appendIfOpen Grid.openAt Grid.material
  rw [ht]
  simp only
  by_cases ho : isOpen tile.material = true
  · simp [ho]
  · simp [ho]

theorem scanColumn_ok {t : Grid} {r : Room} {j : Int} (edges : List Point)
    (h1 : ∃ tile, t.get j (r.location.y - 2) = .ok tile)
    (h2 : ∃ tile, t.get j (r.location.y + r.height + 1) = .ok tile) :
    scanColumn t r j edges = .ok (edges ++ columnEdges t r j) := by
  unfold scanColumn columnEdges
  rw [appendIfOpen_ok _ _ h1]
  simp only
  rw [appendIfOpen_ok _ _ h2, List.append_assoc]

theorem scanRow_ok {t : Grid} {r : Room} {k : Int} (edges : List Point)
    (h1 : ∃ tile, t.get (r.location.x - 2) k = .ok tile)
    (h2 : ∃ tile, t.get (r.location.x + r.width + 1) k = .ok tile) :
    scanRow t r k edges = .ok (edges ++ rowEdges t r k) := by
  unfold scanRow rowEdges
  rw [appendIfOpen_ok _ _ h1]
  simp only
  rw [appendIfOpen_ok _ _ h2, List.append_assoc]

theorem forEachM_append_flatMap {α β : Type} {f : α → List β → Except Err (List β)}
    {c : α → List β} :
    ∀ (l : List α) (acc : List β), (∀ a ∈ l, ∀ acc, f a acc = .ok (acc ++ c a)) →
      forEachM f l acc = .ok (acc ++ l.flatMap c) := by
  intro l
  induction l with
  | nil => intro acc _; simp [forEachM]
  | cons a l ih =>
    intro acc h
    simp only [forEachM]
    rw [h a (List.mem_cons_self _ _) acc]
    simp only
    rw [ih _ (fun b hb => h b (List.mem_cons_of_mem _ hb))]
    simp [List.flatMap_cons]

theorem roomEdges_ok {t : Grid} {gridWidth gridHeight : Int} {r : Room}
    (ht : t.Readable gridWidth gridHeight) (hm : r.inMargin gridWidth gridHeight)
    (hw : 0 ≤ r.width) (hh : 0 ≤ r.height) :
    roomEdges t r = .ok ⟨r.width, r.height, r.location, r.edges ++ scannedEdges t r⟩ := by
  unfold Room.inMargin at hm
  unfold roomEdges
  rw [forEachM_append_flatMap (c := columnEdges t r) _ _ (by
    intro j hj acc
    rw [mem_intRange] at hj
    exact scanColumn_ok acc (ht _ _ (by omega) (by omega) (by omega) (by omega))
      (ht _ _ (by omega) (by omega) (by omega) (by omega)))]
  simp only
  rw [forEachM_append_flatMap (c := rowEdges t r) _ _ (by
    intro k hk acc
    rw [mem_intRange] at hk
    exact scanRow_ok acc (ht _ _ (by omega) (by omega) (by omega) (by omega))
      (ht _ _ (by omega) (by omega) (by omega) (by omega)))]
  simp only [scannedEdges, List.append_assoc]

theorem allRoomEdges_ok {t : Grid} {gridWidth gridHeight : Int}
    (ht : t.Readable gridWidth gridHeight) :
    ∀ (rooms : List Room),
      (∀ r ∈ rooms, r.inMargin gridWidth gridHeight ∧ 0 ≤ r.width ∧ 0 ≤ r.height) →
      allRoomEdges t rooms =
        .ok (rooms.map (fun r => ⟨r.width, r.height, r.location, r.edges ++ scannedEdges t r⟩)) := by
  intro rooms
  induction rooms with
  | nil => intro _; simp [allRoomEdges]
  | cons r rs ih =>
    intro h
    obtain ⟨h1, h2, h3⟩ := h r (List.mem_cons_self _ _)
    simp only [allRoomEdges]
    rw [roomEdges_ok ht h1 h2 h3]
    simp only
    rw [ih (fun q hq => h q (List.mem_cons_of_mem _ hq))]
    simp

theorem identifyEdges_eq {d : Dungeon}
    (ht : d.tiles.Readable d.width d.height)
    (hr : ∀ r ∈ d.rooms, r.inMargin d.width d.height ∧ 0 ≤ r.width ∧ 0 ≤ r.height) :
    identifyEdges d = .ok
      { tiles := d.tiles
        rooms := d.rooms.map (fun r =>
          ⟨r.width, r.height, r.location, r.edges ++ scannedEdges d.tiles r⟩)
        width := d.width
        height := d.height
        numRegions := d.numRegions } := by
  unfold identifyEdges
  rw [allRoomEdges_ok ht d.rooms hr]

theorem Grid.openAt_iff {t : Grid} {x y : Int} :
    t.openAt x y = true ↔ ∃ tile, t.get x y = .ok tile ∧
      (tile.material = Material.TUNNEL ∨ tile.material = Material.FLOOR) := by
  unfold Grid.openAt Grid.material
  cases h : t.get x y with
  | error e => simp
  | ok tile => simp [isOpen]

theorem mem_scannedEdges {t : Grid} {r : Room} {p : Point} :
    p ∈ scannedEdges t r ↔
      (∃ j, r.location.x ≤ j ∧ j < r.location.x + r.width ∧
        ((p = ⟨j, r.location.y - 1⟩ ∧ t.openAt j (r.location.y - 2) = true) ∨
         (p = ⟨j, r.location.y + r.height⟩ ∧ t.openAt j (r.location.y + r.height + 1) = true))) ∨
      (∃ k, r.location.y ≤ k ∧ k < r.location.y + r.height ∧
        ((p = ⟨r.location.x - 1, k⟩ ∧ t.openAt (r.location.x - 2) k = true) ∨
         (p = ⟨r.location.x + r.width, k⟩ ∧ t.openAt (r.location.x + r.width + 1) k = true))) := by
  unfold scannedEdges columnEdges rowEdges
  simp only [List.mem_append, List.mem_flatMap, mem_intRange]
  constructor
  · rintro (⟨j, ⟨h1, h2⟩, h3⟩ | ⟨k, ⟨h1, h2⟩, h3⟩)
    · left
      refine ⟨j, h1, h2, ?_⟩
      rcases h3 with h3 | h3
      · left
        split at h3
        · simp only [List.mem_singleton] at h3; exact ⟨h3, by assumption⟩
        · simp at h3
      · right
        split at h3
        · simp only [List.mem_singleton] at h3; exact ⟨h3, by assumption⟩
        · simp at h3
    · right
      refine ⟨k, h1, h2, ?_⟩
      rcases h3 with h3 | h3
      · left
        split at h3
        · simp only [List.mem_singleton] at h3; exact ⟨h3, by assumption⟩
        · simp at h3
      · right
        split at h3
        · simp only [List.mem_singleton] at h3; exact ⟨h3, by assumption⟩
        · simp at h3
  · rintro (⟨j, h1, h2, h3⟩ | ⟨k, h1, h2, h3⟩)
    · left
      refine ⟨j, ⟨h1, h2⟩, ?_⟩
      rcases h3 with ⟨h3, h4⟩ | ⟨h3, h4⟩
      · left; simp [h3, h4]
      · right; simp [h3, h4]
    · right
      refine ⟨k, ⟨h1, h2⟩, ?_⟩
      rcases h3 with ⟨h3, h4⟩ | ⟨h3, h4⟩
      · left; simp [h3, h4]
      · right; simp [h3, h4]

theorem Grid.readable_of_rect {t : Grid} {w h : Nat} (hr : t.Rect w h) :
    t.Readable (w : Int) (h : Int) := by
  intro x y hx0 hxw hy0 hyh
  obtain ⟨hlen, hrows⟩ := hr
  have hy : y.toNat < t.length := by omega
  have hrow := hrows t[y.toNat] (List.getElem_mem _)
  have hx : x.toNat < (t[y.toNat]).length := by omega
  exact ⟨(t[y.toNat])[x.toNat], Grid.get_eq_ok.mpr ⟨hx0, hy0, t[y.toNat],
    List.getElem?_eq_getElem hy, List.getElem?_eq_getElem hx⟩⟩

/-- Claim C9: for a dungeon whose grid window can be read and whose rooms keep the three-tile
margin and start with an empty edge sequence, `identifyEdges` completes, changes no tile, and
a point is in a room's edge sequence exactly when it is a position directly above, below,
left of or right of the room's footprint whose tile two steps outward is TUNNEL or FLOOR. -/
theorem identifyEdges_membership (d : Dungeon)
    (ht : d.tiles.Readable d.width d.height)
    (hr : ∀ r ∈ d.rooms, r.inMargin d.width d.height ∧ 0 ≤ r.width ∧ 0 ≤ r.height ∧
      r.edges = []) :
    ∃ d1, identifyEdges d = .ok d1 ∧ d1.tiles = d.tiles ∧
      d1.rooms.length = d.rooms.length ∧
      ∀ (i : Nat) (r : Room), d.rooms[i]? = some r →
        ∃ r1, d1.rooms[i]? = some r1 ∧ r1.location = r.location ∧
          r1.width = r.width ∧ r1.height = r.height ∧
          ∀ p : Point, p ∈ r1.edges ↔
            (∃ j, r.location.x ≤ j ∧ j < r.location.x + r.width ∧
              p = ⟨j, r.location.y - 1⟩ ∧ d.tiles.TunnelOrFloor j (r.location.y - 2)) ∨
            (∃ j, r.location.x ≤ j ∧ j < r.location.x + r.width ∧
              p = ⟨j, r.location.y + r.height⟩ ∧
              d.tiles.TunnelOrFloor j (r.location.y + r.height + 1)) ∨
            (∃ k, r.location.y ≤ k ∧ k < r.location.y + r.height ∧
              p = ⟨r.location.x - 1, k⟩ ∧ d.tiles.TunnelOrFloor (r.location.x - 2) k) ∨
            (∃ k, r.location.y ≤ k ∧ k < r.location.y + r.height ∧
              p = ⟨r.location.x + r.width, k⟩ ∧
              d.tiles.TunnelOrFloor (r.location.x + r.width + 1) k) := by
  have hr1 : ∀ r ∈ d.rooms, r.inMargin d.width d.height ∧ 0 ≤ r.width ∧ 0 ≤ r.height :=
    fun r h => ⟨(hr r h).1, (hr r h).2.1, (hr r h).2.2.1⟩
  refine ⟨_, identifyEdges_eq ht hr1, rfl, by simp, ?_⟩
  intro i r hi
  refine ⟨⟨r.width, r.height, r.location, r.edges ++ scannedEdges d.tiles r⟩, ?_, rfl, rfl,
    rfl, ?_⟩
  · simp [hi]
  · intro p
    show p ∈ r.edges ++ scannedEdges d.tiles r ↔ _
    have he : r.edges = [] := (hr r (List.getElem?_mem hi)).2.2.2
    simp only [he, List.nil_append, mem_scannedEdges, Grid.openAt_iff, Grid.TunnelOrFloor]
    constructor
    · rintro (⟨j, h1, h2, h3 | h3⟩ | ⟨k, h1, h2, h3 | h3⟩)
      · exact Or.inl ⟨j, h1, h2, h3⟩
      · exact Or.inr (Or.inl ⟨j, h1, h2, h3⟩)
      · exact Or.inr (Or.inr (Or.inl ⟨k, h1, h2, h3⟩))
      · exact Or.inr (Or.inr (Or.inr ⟨k, h1, h2, h3⟩))
    · rintro (⟨j, h1, h2, h3⟩ | ⟨j, h1, h2, h3⟩ | ⟨k, h1, h2, h3⟩ | ⟨k, h1, h2, h3⟩)
      · exact Or.inl ⟨j, h1, h2, Or.inl h3⟩
      · exact Or.inl ⟨j, h1, h2, Or.inr h3⟩
      · exact Or.inr ⟨k, h1, h2, Or.inl h3⟩
      · exact Or.inr ⟨k, h1, h2, Or.inr h3⟩

theorem sampleMaze_readable : sampleMaze.tiles.Readable sampleMaze.width sampleMaze.height := by
  have h : sampleMaze.tiles.Rect 8 8 := by decide
  have hw : sampleMaze.width = ((8 : Nat) : Int) := by decide
  have hh : sampleMaze.height = ((8 : Nat) : Int) := by decide
  rw [hw, hh]
  exact Grid.readable_of_rect h

/-- Witness of `identifyEdges_membership` on the 8 × 8 sample. -/
theorem identifyEdges_membership_witness :
    (∀ r ∈ sampleMaze.rooms, r.inMargin sampleMaze.width sampleMaze.height ∧ 0 ≤ r.width ∧
      0 ≤ r.height ∧ r.edges = []) ∧
    sampleMaze.rooms.length = 1 ∧
    ∃ d1, identifyEdges sampleMaze = .ok d1 ∧ d1.tiles = sampleMaze.tiles ∧
      d1.rooms.length = sampleMaze.rooms.length :=
  ⟨by decide, by decide,
    match identifyEdges_membership sampleMaze sampleMaze_readable (by decide) with
    | ⟨d1, h1, h2, h3, _⟩ => ⟨d1, h1, h2, h3⟩⟩

/-- Claim C10 (as amended): for a dungeon whose grid window can be read and whose rooms keep the
three-tile margin, `identifyEdges` completes, changes nothing but the edge sequences, and
appends to each room's edge sequence, column by column from left to right, the top edge
followed by the bottom edge of that column, and then, row by row from top to bottom, the left
edge followed by the right edge of that row. -/
theorem identifyEdges_scan_order (d : Dungeon)
    (ht : d.tiles.Readable d.width d.height)
    (hr : ∀ r ∈ d.rooms, r.inMargin d.width d.height ∧ 0 ≤ r.width ∧ 0 ≤ r.height) :
    identifyEdges d = .ok
      { tiles := d.tiles
        rooms := d.rooms.map (fun r =>
          ⟨r.width, r.height, r.location, r.edges ++
            ((intRange r.location.x (r.location.x + r.width)).flatMap (columnEdges d.tiles r) ++
             (intRange r.location.y (r.location.y + r.height)).flatMap (rowEdges d.tiles r))⟩)
        width := d.width
        height := d.height
        numRegions := d.numRegions } := by
  exact identifyEdges_eq ht hr

/-- Witness of `identifyEdges_scan_order` on the 8 × 8 sample. -/
theorem identifyEdges_scan_order_witness :
    (∀ r ∈ sampleMaze.rooms, r.inMargin sampleMaze.width sampleMaze.height ∧ 0 ≤ r.width ∧
      0 ≤ r.height) ∧
    completes (identifyEdges sampleMaze) = true :=
  ⟨by decide, by
    rw [identifyEdges_scan_order sampleMaze sampleMaze_readable (by decide)]
    rfl⟩

/-- Claim C10 (refuted as stated): in the 8 × 8 sample run the room at (3, 3) of size 2 × 2 gets
the bottom-row edge (3, 5) before the top-row edge (4, 2), and the right-column edge (5, 3)
before the left-column edge (2, 4). -/
theorem identifyEdges_interleaves :
    completes (identifyEdges sampleMaze) = true ∧
    sampleMaze.rooms = [⟨2, 2, ⟨3, 3⟩, []⟩] ∧
    sampleEdges.rooms = [⟨2, 2, ⟨3, 3⟩,
      [⟨3, 5⟩, ⟨4, 2⟩, ⟨4, 5⟩, ⟨2, 3⟩, ⟨5, 3⟩, ⟨2, 4⟩, ⟨5, 4⟩]⟩] := by
  decide

/-! ## Region connection: a room without edges -/

theorem forEachM_error_of_mem {α σ : Type} {f : α → σ → Except Err σ} {a : α}
    (hf : ∀ s, ∃ e, f a s = .error e) :
    ∀ (l : List α), a ∈ l → ∀ s, ∃ e, forEachM f l s = .error e := by
  intro l
  induction l with
  | nil => intro h; cases h
  | cons b l ih =>
    intro h s
    simp only [forEachM]
    cases hb : f b s with
    | error e => exact ⟨e, rfl⟩
    | ok s1 =>
      simp only
      rcases List.mem_cons.mp h with rfl | h1
      · obtain ⟨e, he⟩ := hf s
        rw [he] at hb; cases hb
      · exact ih h1 s1

theorem primaryStep_no_edges {room : Room} (h : room.edges = []) (s : Grid × Rng) :
    primaryStep room s = .error Err.intnNonPositive := by
  unfold primaryStep
  rw [h]
  simp [Rng.intn]

/-- Claim C8 (refuted): `connectRegions` does not tolerate a room without edges. For every
dungeon in which some room's edge sequence is empty and every random source, the primary
phase stops with a panic: at that room `rand.Intn(0)` is called, unless an earlier room
already failed. -/
theorem connectRegions_fails_without_edges (d : Dungeon) (g : Rng)
    (h : ∃ r ∈ d.rooms, r.edges = []) :
    ∃ e, connectRegions d g = .error e := by
  obtain ⟨r, hr, he⟩ := h
  obtain ⟨e, h1⟩ := forEachM_error_of_mem (f := primaryStep)
    (fun s => ⟨_, primaryStep_no_edges he s⟩) d.rooms hr (d.tiles, g)
  exact ⟨e, by unfold connectRegions; rw [h1]⟩

/-- Witness of `connectRegions_fails_without_edges`: an 11 × 11 run of the first four stages
leaves the only room, at (4, 4), without edges, and `generateDungeon` panics on it. -/
theorem connectRegions_fails_without_edges_witness :
    completes (stagesToEdges 11 11 2 1 2 (polyRng 1 4 1 7)) = true ∧
    sampleNoEdges.1.rooms = [⟨1, 1, ⟨4, 4⟩, []⟩] ∧
    (∃ e, connectRegions sampleNoEdges.1 sampleNoEdges.2 = .error e) ∧
    completes (generateDungeon 11 11 2 1 2 (polyRng 1 4 1 7)) = false :=
  ⟨by decide, by decide,
    connectRegions_fails_without_edges sampleNoEdges.1 sampleNoEdges.2
      ⟨⟨1, 1, ⟨4, 4⟩, []⟩, by decide, rfl⟩,
    by decide⟩

/-! ## Dead-end trimming -/

theorem getLast?_cons_getD {α : Type} (p d : α) (l : List α) :
    ((p :: l).getLast?).getD d = (l.getLast?).getD p := by
  cases l with
  | nil => rfl
  | cons q qs =>
    rw [List.getLast?_cons_cons]
    cases h : (q :: qs).getLast? with
    | none => simp at h
    | some r => rfl

theorem countWalls_eq {t : Grid} :
    ∀ (ps : List Point) (c : Nat) (np : Point),
      (∀ p ∈ ps, ∃ tile, t.get p.x p.y = .ok tile) →
      countWalls t ps (c, np) = .ok (c + (ps.filter t.wallAt).length, lastPassage t ps np) := by
  intro ps
  induction ps with
  | nil => intro c np _; simp [countWalls, lastPassage]
  | cons p ps ih =>
    intro c np h
    obtain ⟨tile, ht⟩ := h p (List.mem_cons_self _ _)
    have hrest := fun q hq => h q (List.mem_cons_of_mem _ hq)
    simp only [countWalls, ht]
    by_cases hw : tile.material = Material.WALL
    · have h1 : t.wallAt p = true := by simp [Grid.wallAt, ht, hw]
      have h2 : t.passageAt p = false := by simp [Grid.passageAt, ht, hw, isPassage]
      have e1 : (p :: ps).filter t.wallAt = p :: ps.filter t.wallAt := by
        simp [List.filter_cons, h1]
      have e2 : (p :: ps).filter t.passageAt = ps.filter t.passageAt := by
        simp [List.filter_cons, h2]
      rw [if_pos hw, ih _ _ hrest]
      unfold lastPassage
      rw [e1, e2, List.length_cons]
      congr 2
      omega
    · have h1 : t.wallAt p = false := by simp [Grid.wallAt, ht, hw]
      have e1 : (p :: ps).filter t.wallAt = ps.filter t.wallAt := by
        simp [List.filter_cons, h1]
      rw [if_neg hw]
      by_cases hp : isPassage tile.material = true
      · have h2 : t.passageAt p = true := by simp [Grid.passageAt, ht, hp]
        have e2 : (p :: ps).filter t.passageAt = p :: ps.filter t.passageAt := by
          simp [List.filter_cons, h2]
        rw [if_pos hp, ih _ _ hrest]
        unfold lastPassage
        rw [e1, e2, getLast?_cons_getD]
      · have h2 : t.passageAt p = false := by simp [Grid.passageAt, ht, hp]
        have e2 : (p :: ps).filter t.passageAt = ps.filter t.passageAt := by
          simp [List.filter_cons, h2]
        rw [if_neg hp, ih _ _ hrest]
        unfold lastPassage
        rw [e1, e2]

theorem filter_disjoint_length {α : Type} (p q : α → Bool) (hpq : ∀ a, p a = true → q a = false) :
    ∀ l : List α, (l.filter p).length + (l.filter q).length ≤ l.length := by
  intro l
  induction l with
  | nil => simp
  | cons a l ih =>
    rcases Bool.eq_false_or_eq_true (p a) with hp | hp
    · have hq := hpq a hp
      simp only [List.filter_cons, hp, hq, if_true, List.length_cons, Bool.false_eq_true,
        if_false]
      omega
    · rcases Bool.eq_false_or_eq_true (q a) with hq | hq
      · simp only [List.filter_cons, hp, hq, if_true, List.length_cons, Bool.false_eq_true,
          if_false]
        omega
      · simp only [List.filter_cons, hp, hq, List.length_cons, Bool.false_eq_true, if_false]
        omega

theorem wallAt_not_passageAt (t : Grid) (p : Point) (h : t.wallAt p = true) :
    t.passageAt p = false := by
  unfold Grid.wallAt at h
  unfold Grid.passageAt
  cases hg : t.get p.x p.y with
  | error e => rfl
  | ok tile =>
    rw [hg] at h
    simp only [decide_eq_true_eq] at h
    simp [h, isPassage]

/-- With three walls among the four neighbours, a passage neighbour is the recorded one. -/
theorem lastPassage_unique {t : Grid} {x y : Int} {p : Point}
    (hw : 3 ≤ wallNeighbours t x y) (hp : p ∈ around4 x y) (hpa : t.passageAt p = true)
    (dflt : Point) : lastPassage t (around4 x y) dflt = p := by
  have hlen := filter_disjoint_length t.wallAt t.passageAt (wallAt_not_passageAt t) (around4 x y)
  have h4 : (around4 x y).length = 4 := rfl
  unfold wallNeighbours at hw
  have hmem : p ∈ (around4 x y).filter t.passageAt := List.mem_filter.mpr ⟨hp, hpa⟩
  have hle : ((around4 x y).filter t.passageAt).length ≤ 1 := by omega
  unfold lastPassage
  cases hl : (around4 x y).filter t.passageAt with
  | nil => rw [hl] at hmem; cases hmem
  | cons q qs =>
    rw [hl] at hmem hle
    cases qs with
    | nil =>
      simp only [List.mem_singleton] at hmem
      simp [hmem]
    | cons r rs => simp at hle

theorem lastPassage_mem {t : Grid} {ps : List Point} {dflt : Point}
    (h : lastPassage t ps dflt ≠ dflt) :
    lastPassage t ps dflt ∈ ps ∧ t.passageAt (lastPassage t ps dflt) = true := by
  unfold lastPassage at h ⊢
  cases hl : (ps.filter t.passageAt).getLast? with
  | none => rw [hl] at h; simp at h
  | some q =>
    simp only [Option.getD_some]
    have := List.mem_of_getLast?_eq_some hl
    exact ⟨(List.mem_filter.mp this).1, (List.mem_filter.mp this).2⟩

theorem countP_set {α : Type} (p : α → Bool) :
    ∀ (l : List α) (i : Nat) (v : α) (hi : i < l.length),
      (l.set i v).countP p + (if p l[i] = true then 1 else 0) =
        l.countP p + (if p v = true then 1 else 0) := by
  intro l
  induction l with
  | nil => intro i v hi; simp at hi
  | cons a l ih =>
    intro i v hi
    cases i with
    | zero =>
      simp only [List.set_cons_zero, List.countP_cons, List.getElem_cons_zero]
      omega
    | succ i =>
      simp only [List.set_cons_succ, List.countP_cons, List.getElem_cons_succ]
      have := ih i v (by simpa using hi)
      omega

theorem sum_map_set {α : Type} (f : α → Nat) :
    ∀ (l : List α) (i : Nat) (v : α) (hi : i < l.length),
      ((l.set i v).map f).sum + f l[i] = (l.map f).sum + f v := by
  intro l
  induction l with
  | nil => intro i v hi; simp at hi
  | cons a l ih =>
    intro i v hi
    cases i with
    | zero =>
      simp only [List.set_cons_zero, List.map_cons, List.sum_cons, List.getElem_cons_zero]
      omega
    | succ i =>
      simp only [List.set_cons_succ, List.map_cons, List.sum_cons, List.getElem_cons_succ]
      have := ih i v (by simpa using hi)
      omega

theorem countPassage_trim {t t1 : Grid} {x y : Int} {tile : Tile}
    (hm : t.modify x y (fun _ => ⟨0, Material.WALL⟩) = .ok t1)
    (hg : t.get x y = .ok tile) (hp : isPassage tile.material = true) :
    countPassage t1 + 1 = countPassage t := by
  obtain ⟨_, _, row, old, hr, hc, rfl⟩ := Grid.modify_eq_ok.mp hm
  obtain ⟨_, _, row1, hr1, hc1⟩ := Grid.get_eq_ok.mp hg
  rw [hr] at hr1
  cases hr1
  rw [hc] at hc1
  cases hc1
  obtain ⟨hy, hrow⟩ := List.getElem?_eq_some_iff.mp hr
  obtain ⟨hx, hold⟩ := List.getElem?_eq_some_iff.mp hc
  unfold countPassage
  have h1 := sum_map_set (fun row => row.countP (fun tile => isPassage tile.material)) t
    y.toNat (row.set x.toNat ⟨0, Material.WALL⟩) hy
  have h2 := countP_set (fun tile => isPassage tile.material) row x.toNat
    ⟨0, Material.WALL⟩ hx
  rw [hrow] at h1
  rw [hold] at h2
  simp only [hp, if_true] at h2
  have h3 : isPassage Material.WALL = false := rfl
  simp only [h3, Bool.false_eq_true, if_false] at h2
  omega

theorem around4_symm {x y : Int} {p : Point} (h : p ∈ around4 x y) :
    (⟨x, y⟩ : Point) ∈ around4 p.x p.y := by
  simp only [around4, List.mem_cons, List.mem_singleton, List.not_mem_nil, or_false] at h ⊢
  rcases h with rfl | rfl | rfl | rfl
  · right; left; simp
  · left; simp
  · right; right; right; simp
  · right; right; left; simp

theorem wallNeighbours_congr {t t1 : Grid} {px py : Int}
    (h : ∀ q ∈ around4 px py, t1.get q.x q.y = t.get q.x q.y) :
    wallNeighbours t1 px py = wallNeighbours t px py := by
  unfold wallNeighbours
  congr 1
  apply List.filter_congr
  intro q hq
  unfold Grid.wallAt
  rw [h q hq]

theorem passageAt_iff {t : Grid} {p : Point} :
    t.passageAt p = true ↔ ∃ tile, t.get p.x p.y = .ok tile ∧ isPassage tile.material = true := by
  unfold Grid.passageAt
  cases h : t.get p.x p.y with
  | error e => simp
  | ok tile => simp

theorem trimStep_facts {t t1 : Grid} {gridWidth gridHeight x y : Int} {tile : Tile}
    (hs : t.HasSize gridWidth gridHeight) (hr : t.WallRing gridWidth gridHeight)
    (hg : t.get x y = .ok tile) (hp : isPassage tile.material = true)
    (hm : t.modify x y (fun _ => ⟨0, Material.WALL⟩) = .ok t1) :
    t1.HasSize gridWidth gridHeight ∧ t1.WallRing gridWidth gridHeight ∧
    countPassage t1 + 1 = countPassage t ∧
    ∀ px py, t1.DeadEnd px py → ¬ (px = x ∧ py = y) ∧
      (t.DeadEnd px py ∨ ((⟨px, py⟩ : Point) ∈ around4 x y ∧ t.passageAt ⟨px, py⟩ = true)) := by
  obtain ⟨old, h1, h2, h3⟩ := Grid.modify_spec hm
  refine ⟨?_, ?_, countPassage_trim hm hg hp, ?_⟩
  · intro px py
    rw [Grid.modify_defined hm px py]
    exact hs px py
  · intro px py tl hget hring
    by_cases hxy : px = x ∧ py = y
    · obtain ⟨rfl, rfl⟩ := hxy
      rw [h2] at hget
      cases hget
      rfl
    · have hne : px ≠ x ∨ py ≠ y := by
        by_cases hx : px = x
        · right; intro hy; exact hxy ⟨hx, hy⟩
        · left; exact hx
      rw [h3 px py hne] at hget
      exact hr px py tl hget hring
  · intro px py hd
    obtain ⟨hpass, hwalls⟩ := hd
    have hxy : ¬ (px = x ∧ py = y) := by
      rintro ⟨rfl, rfl⟩
      obtain ⟨tl, htl, hpl⟩ := passageAt_iff.mp hpass
      simp only at htl
      rw [h2] at htl
      cases htl
      simp [isPassage] at hpl
    have hne : px ≠ x ∨ py ≠ y := by
      by_cases hx : px = x
      · right; intro hy; exact hxy ⟨hx, hy⟩
      · left; exact hx
    have hpass0 : t.passageAt ⟨px, py⟩ = true := by
      unfold Grid.passageAt at hpass ⊢
      simp only at hpass ⊢
      rw [h3 px py hne] at hpass
      exact hpass
    refine ⟨hxy, ?_⟩
    by_cases hmem : (⟨x, y⟩ : Point) ∈ around4 px py
    · right
      exact ⟨around4_symm (p := ⟨x, y⟩) hmem, hpass0⟩
    · left
      refine ⟨hpass0, ?_⟩
      rw [← @wallNeighbours_congr t t1 px py ?_]
      · exact hwalls
      · intro q hq
        apply h3
        by_cases hx : q.x = x
        · right
          intro hy
          apply hmem
          have : q = ⟨x, y⟩ := by cases q; simp only at hx hy; simp [hx, hy]
          rw [← this]; exact hq
        · left; exact hx

theorem around4_readable {t : Grid} {gridWidth gridHeight x y : Int}
    (hs : t.HasSize gridWidth gridHeight)
    (hx1 : 1 ≤ x) (hx2 : x ≤ gridWidth - 2) (hy1 : 1 ≤ y) (hy2 : y ≤ gridHeight - 2) :
    ∀ p ∈ around4 x y, ∃ tile, t.get p.x p.y = .ok tile := by
  intro p hp
  simp only [around4, List.mem_cons, List.mem_singleton, List.not_mem_nil, or_false] at hp
  rcases hp with rfl | rfl | rfl | rfl <;>
    exact (hs _ _).mpr ⟨by simp only; omega, by simp only; omega, by simp only; omega,
      by simp only; omega⟩

theorem passage_interior {t : Grid} {gridWidth gridHeight : Int} {p : Point}
    (hs : t.HasSize gridWidth gridHeight) (hr : t.WallRing gridWidth gridHeight)
    (hp : t.passageAt p = true) :
    1 ≤ p.x ∧ p.x ≤ gridWidth - 2 ∧ 1 ≤ p.y ∧ p.y ≤ gridHeight - 2 := by
  obtain ⟨tile, hg, hpm⟩ := passageAt_iff.mp hp
  have hin := (hs p.x p.y).mp ⟨tile, hg⟩
  have hnr : ¬ (p.x = 0 ∨ p.x = gridWidth - 1 ∨ p.y = 0 ∨ p.y = gridHeight - 1) := by
    intro h
    have := hr p.x p.y tile hg h
    rw [this] at hpm
    simp [isPassage] at hpm
  omega

theorem continueTrimTunnels_spec (gridWidth gridHeight : Int) :
    ∀ (fuel : Nat) (t : Grid) (x y : Int),
      t.HasSize gridWidth gridHeight → t.WallRing gridWidth gridHeight →
      1 ≤ x → x ≤ gridWidth - 2 → 1 ≤ y → y ≤ gridHeight - 2 → countPassage t < fuel →
      ∃ t1, continueTrimTunnels fuel t x y = .ok t1 ∧
        t1.HasSize gridWidth gridHeight ∧ t1.WallRing gridWidth gridHeight ∧
        countPassage t1 ≤ countPassage t ∧
        ∀ px py, t1.DeadEnd px py → t.DeadEnd px py ∧ ¬ (px = x ∧ py = y) := by
  intro fuel
  induction fuel with
  | zero => intro t x y _ _ _ _ _ _ h; omega
  | succ fuel ih =>
    intro t x y hs hr hx1 hx2 hy1 hy2 hfuel
    obtain ⟨tile, hg⟩ := (hs x y).mpr ⟨by omega, by omega, by omega, by omega⟩
    have hmat : t.material x y = .ok tile.material := by simp [Grid.material, hg]
    simp only [continueTrimTunnels, hmat]
    by_cases hp : isPassage tile.material = true
    · rw [if_pos hp]
      have hread := around4_readable hs hx1 hx2 hy1 hy2
      rw [countWalls_eq (around4 x y) 0 ⟨0, 0⟩ hread]
      simp only [Nat.zero_add]
      generalize hnpdef : lastPassage t (around4 x y) ⟨0, 0⟩ = np
      by_cases hw : ((around4 x y).filter t.wallAt).length ≥ 3
      · rw [if_pos hw]
        obtain ⟨t1, hm⟩ := Grid.modify_of_get (fun _ => ⟨0, Material.WALL⟩) hg
        rw [hm]
        simp only
        obtain ⟨hs1, hr1, hcount, hK⟩ := trimStep_facts hs hr hg hp hm
        have hw3 : 3 ≤ wallNeighbours t x y := hw
        by_cases hnp : np.x ≠ 0 ∨ np.y ≠ 0
        · rw [if_pos hnp]
          have hne : lastPassage t (around4 x y) ⟨0, 0⟩ ≠ ⟨0, 0⟩ := by
            intro h; rw [hnpdef] at h; rw [h] at hnp; simp at hnp
          obtain ⟨hmem, hpass⟩ := lastPassage_mem hne
          rw [hnpdef] at hmem hpass
          have hpass1 : t1.passageAt np = true := by
            obtain ⟨_, _, _, h3⟩ := Grid.modify_spec hm
            unfold Grid.passageAt at hpass ⊢
            rw [h3]
            · exact hpass
            · simp only [around4, List.mem_cons, List.mem_singleton, List.not_mem_nil,
                or_false] at hmem
              rcases hmem with h | h | h | h <;> rw [h] <;> simp only <;> omega
          obtain ⟨i1, i2, i3, i4⟩ := passage_interior hs1 hr1 hpass1
          obtain ⟨t2, hrec, hs2, hr2, hc2, hd2⟩ := ih t1 _ _ hs1 hr1 i1 i2 i3 i4 (by omega)
          refine ⟨t2, hrec, hs2, hr2, by omega, ?_⟩
          intro px py hd
          obtain ⟨hd1, hnnp⟩ := hd2 px py hd
          obtain ⟨hxy, hcase⟩ := hK px py hd1
          refine ⟨?_, hxy⟩
          rcases hcase with h | ⟨h1, h2⟩
          · exact h
          · exfalso
            have := lastPassage_unique hw3 h1 h2 ⟨0, 0⟩
            rw [hnpdef] at this
            apply hnnp
            rw [this]
            exact ⟨rfl, rfl⟩
        · rw [if_neg hnp]
          refine ⟨t1, rfl, hs1, hr1, by omega, ?_⟩
          intro px py hd
          obtain ⟨hxy, hcase⟩ := hK px py hd
          refine ⟨?_, hxy⟩
          rcases hcase with h | ⟨h1, h2⟩
          · exact h
          · exfalso
            have := lastPassage_unique hw3 h1 h2 ⟨0, 0⟩
            rw [hnpdef] at this
            rw [this] at hnp
            simp only [around4, List.mem_cons, List.mem_singleton, List.not_mem_nil,
              or_false, Point.mk.injEq] at h1
            simp only at hnp
            omega
      · rw [if_neg hw]
        refine ⟨t, rfl, hs, hr, Nat.le_refl _, ?_⟩
        intro px py hd
        refine ⟨hd, ?_⟩
        rintro ⟨rfl, rfl⟩
        exact hw hd.2
    · rw [if_neg hp]
      refine ⟨t, rfl, hs, hr, Nat.le_refl _, ?_⟩
      intro px py hd
      refine ⟨hd, ?_⟩
      rintro ⟨rfl, rfl⟩
      obtain ⟨tl, h1, h2⟩ := passageAt_iff.mp hd.1
      simp only at h1
      rw [hg] at h1
      cases h1
      exact hp h2

theorem trimColumn_spec {gridWidth gridHeight : Int} {x : Int}
    (hx1 : 1 ≤ x) (hx2 : x ≤ gridWidth - 2) (S : Int → Int → Prop) (t : Grid)
    (hs : t.HasSize gridWidth gridHeight) (hr : t.WallRing gridWidth gridHeight)
    (hS : ∀ px py, S px py → ¬ t.DeadEnd px py) :
    ∃ t1, forEachM (fun y t0 => continueTrimTunnels (countPassage t0 + 1) t0 x y)
        (intRange 1 (gridHeight - 1)) t = .ok t1 ∧
      t1.HasSize gridWidth gridHeight ∧ t1.WallRing gridWidth gridHeight ∧
      ∀ px py, (S px py ∨ (px = x ∧ py ∈ intRange 1 (gridHeight - 1))) →
        ¬ t1.DeadEnd px py := by
  have key := forEachM_ok_prefix
    (f := fun y t0 => continueTrimTunnels (countPassage t0 + 1) t0 x y)
    (fun (pre : List Int) (t0 : Grid) =>
      t0.HasSize gridWidth gridHeight ∧ t0.WallRing gridWidth gridHeight ∧
      ∀ px py, (S px py ∨ (px = x ∧ py ∈ pre)) → ¬ t0.DeadEnd px py)
    (intRange 1 (gridHeight - 1))
    (by
      intro pre a post hl t0 ⟨h1, h2, h3⟩
      have ha : a ∈ intRange 1 (gridHeight - 1) := by rw [hl]; simp
      rw [mem_intRange] at ha
      obtain ⟨t1, e1, e2, e3, _, e5⟩ := continueTrimTunnels_spec gridWidth gridHeight
        (countPassage t0 + 1) t0 x a h1 h2 hx1 hx2 ha.1 (by omega) (by omega)
      refine ⟨t1, e1, e2, e3, ?_⟩
      intro px py hcase hd
      obtain ⟨hd0, hne⟩ := e5 px py hd
      rcases hcase with h | ⟨h, h'⟩
      · exact h3 px py (Or.inl h) hd0
      · rcases List.mem_append.mp h' with h'' | h''
        · exact h3 px py (Or.inr ⟨h, h''⟩) hd0
        · simp only [List.mem_singleton] at h''
          exact hne ⟨h, h''⟩)
    t ⟨hs, hr, by
      intro px py hcase
      rcases hcase with h | ⟨_, h⟩
      · exact hS px py h
      · cases h⟩
  exact key

theorem trimGrid_spec {gridWidth gridHeight : Int} (t : Grid)
    (hs : t.HasSize gridWidth gridHeight) (hr : t.WallRing gridWidth gridHeight) :
    ∃ t1, forEachM (fun x t0 =>
        forEachM (fun y t2 => continueTrimTunnels (countPassage t2 + 1) t2 x y)
          (intRange 1 (gridHeight - 1)) t0)
        (intRange 1 (gridWidth - 1)) t = .ok t1 ∧
      t1.HasSize gridWidth gridHeight ∧ t1.WallRing gridWidth gridHeight ∧
      ∀ px py, px ∈ intRange 1 (gridWidth - 1) → py ∈ intRange 1 (gridHeight - 1) →
        ¬ t1.DeadEnd px py := by
  have key := forEachM_ok_prefix
    (f := fun x t0 =>
        forEachM (fun y t2 => continueTrimTunnels (countPassage t2 + 1) t2 x y)
          (intRange 1 (gridHeight - 1)) t0)
    (fun (pre : List Int) (t0 : Grid) =>
      t0.HasSize gridWidth gridHeight ∧ t0.WallRing gridWidth gridHeight ∧
      ∀ px py, px ∈ pre → py ∈ intRange 1 (gridHeight - 1) → ¬ t0.DeadEnd px py)
    (intRange 1 (gridWidth - 1))
    (by
      intro pre a post hl t0 ⟨h1, h2, h3⟩
      have ha : a ∈ intRange 1 (gridWidth - 1) := by rw [hl]; simp
      rw [mem_intRange] at ha
      obtain ⟨t1, e1, e2, e3, e4⟩ := trimColumn_spec ha.1 (by omega)
        (fun px py => px ∈ pre ∧ py ∈ intRange 1 (gridHeight - 1)) t0 h1 h2
        (fun px py h => h3 px py h.1 h.2)
      refine ⟨t1, e1, e2, e3, ?_⟩
      intro px py hpx hpy
      rcases List.mem_append.mp hpx with h | h
      · exact e4 px py (Or.inl ⟨h, hpy⟩)
      · simp only [List.mem_singleton] at h
        exact e4 px py (Or.inr ⟨h, hpy⟩))
    t ⟨hs, hr, by intro px py h; cases h⟩
  exact key

/-- Claim C6: for every dungeon whose grid has exactly `width × height` tiles and whose
outermost ring of tiles is WALL, `trimTunnels` completes, and afterwards no TUNNEL or DOOR
tile has three or more WALL tiles among its four orthogonal neighbours. -/
theorem trimTunnels_no_dead_end (d : Dungeon)
    (hs : d.tiles.HasSize d.width d.height) (hr : d.tiles.WallRing d.width d.height) :
    ∃ d1, trimTunnels d = .ok d1 ∧
      ∀ (x y : Int) (tile : Tile), d1.tiles.get x y = .ok tile →
        (tile.material = Material.TUNNEL ∨ tile.material = Material.DOOR) →
        wallNeighbours d1.tiles x y < 3 := by
  obtain ⟨t1, h1, h2, h3, h4⟩ := trimGrid_spec d.tiles hs hr
  refine ⟨⟨t1, d.rooms, d.width, d.height, d.numRegions⟩, by unfold trimTunnels; rw [h1], ?_⟩
  intro x y tile hg hm
  simp only at hg ⊢
  have hpass : t1.passageAt ⟨x, y⟩ = true :=
    passageAt_iff.mpr ⟨tile, hg, by rcases hm with h | h <;> simp [isPassage, h]⟩
  obtain ⟨i1, i2, i3, i4⟩ := passage_interior h2 h3 hpass
  have := h4 x y (mem_intRange.mpr ⟨i1, by simp only at i2; omega⟩)
    (mem_intRange.mpr ⟨i3, by simp only at i4; omega⟩)
  unfold Grid.DeadEnd at this
  by_contra hcon
  exact this ⟨hpass, by omega⟩

theorem Grid.hasSize_of_rect {t : Grid} {w h : Nat} (hr : t.Rect w h) :
    t.HasSize (w : Int) (h : Int) := by
  intro x y
  obtain ⟨hlen, hrows⟩ := hr
  constructor
  · rintro ⟨tile, hg⟩
    obtain ⟨hx, hy, row, h1, h2⟩ := Grid.get_eq_ok.mp hg
    obtain ⟨hy1, hrow⟩ := List.getElem?_eq_some_iff.mp h1
    obtain ⟨hx1, _⟩ := List.getElem?_eq_some_iff.mp h2
    have := hrows row (List.getElem?_mem h1)
    omega
  · rintro ⟨hx0, hxw, hy0, hyh⟩
    exact Grid.readable_of_rect ⟨hlen, hrows⟩ x y hx0 hxw hy0 hyh

theorem Grid.wallRing_of_check {t : Grid} {gridWidth gridHeight : Int}
    (hs : t.HasSize gridWidth gridHeight)
    (hc : ∀ x ∈ intRange 0 gridWidth, ∀ y ∈ intRange 0 gridHeight,
      (x = 0 ∨ x = gridWidth - 1 ∨ y = 0 ∨ y = gridHeight - 1) → t.wallAt ⟨x, y⟩ = true) :
    t.WallRing gridWidth gridHeight := by
  intro x y tile hg hring
  obtain ⟨h1, h2, h3, h4⟩ := (hs x y).mp ⟨tile, hg⟩
  have := hc x (mem_intRange.mpr ⟨h1, h2⟩) y (mem_intRange.mpr ⟨h3, h4⟩) hring
  unfold Grid.wallAt at this
  simp only at this
  rw [hg] at this
  simpa using this

theorem sampleConnect_hasSize :
    sampleConnect.tiles.HasSize sampleConnect.width sampleConnect.height := by
  have h : sampleConnect.tiles.Rect 9 7 := by decide
  have hw : sampleConnect.width = ((9 : Nat) : Int) := by decide
  have hh : sampleConnect.height = ((7 : Nat) : Int) := by decide
  rw [hw, hh]
  exact Grid.hasSize_of_rect h

theorem sampleConnect_wallRing :
    sampleConnect.tiles.WallRing sampleConnect.width sampleConnect.height :=
  Grid.wallRing_of_check sampleConnect_hasSize (by decide)

/-- Witness of `trimTunnels_no_dead_end`: the 9 × 7 sample after `connectRegions`. -/
theorem trimTunnels_no_dead_end_witness :
    sampleConnect.tiles.HasSize sampleConnect.width sampleConnect.height ∧
    sampleConnect.tiles.WallRing sampleConnect.width sampleConnect.height ∧
    ∃ d1, trimTunnels sampleConnect = .ok d1 ∧
      ∀ (x y : Int) (tile : Tile), d1.tiles.get x y = .ok tile →
        (tile.material = Material.TUNNEL ∨ tile.material = Material.DOOR) →
        wallNeighbours d1.tiles x y < 3 :=
  ⟨sampleConnect_hasSize, sampleConnect_wallRing,
    trimTunnels_no_dead_end sampleConnect sampleConnect_hasSize sampleConnect_wallRing⟩

/-! ## Region labelling through the pipeline -/

theorem labelled_modify {t t1 : Grid} {rooms : List Room} {x y : Int} {f : Tile → Tile}
    (hl : t.Labelled) (ho : RoomsOpen t rooms) (hm : t.modify x y f = .ok t1)
    (hf : ∀ old, t.get x y = .ok old → (f old).Labelled ∧ (f old).material ≠ Material.WALL) :
    t1.Labelled ∧ RoomsOpen t1 rooms := by
  obtain ⟨old, h1, h2, h3⟩ := Grid.modify_spec hm
  have hcase : ∀ px py tile, t1.get px py = .ok tile →
      tile = f old ∨ t.get px py = .ok tile := by
    intro px py tile hg
    by_cases hxy : px = x ∧ py = y
    · obtain ⟨rfl, rfl⟩ := hxy
      rw [h2] at hg; cases hg; left; rfl
    · have hne : px ≠ x ∨ py ≠ y := by
        by_cases hx : px = x
        · right; intro hy; exact hxy ⟨hx, hy⟩
        · left; exact hx
      rw [h3 px py hne] at hg
      right; exact hg
  constructor
  · intro px py tile hg
    rcases hcase px py tile hg with h | h
    · rw [h]; exact (hf old h1).1
    · exact hl px py tile h
  · intro r hr px py hc tile hg
    rcases hcase px py tile hg with h | h
    · rw [h]; exact (hf old h1).2
    · exact ho r hr px py hc tile h

theorem createEmptyDungeon_labelled {width height : Int} {d : Dungeon}
    (h : createEmptyDungeon width height = .ok d) :
    d.tiles.Labelled ∧ d.numRegions = 0 := by
  obtain ⟨_, _, _, hn, ht⟩ := createEmptyDungeon_spec h
  refine ⟨?_, hn⟩
  intro x y tile hg
  rw [ht] at hg
  rw [replicate_get hg]
  exact ⟨fun _ => rfl, fun _ => Or.inl rfl⟩

theorem carveRoom_labelled {r : Room} {t t1 : Grid} {n n1 : Int} {pre : List Room}
    (hl : t.Labelled) (hn : 0 ≤ n) (ho : RoomsOpen t pre)
    (h : carveRoom r (t, n) = .ok (t1, n1)) :
    t1.Labelled ∧ 0 ≤ n1 ∧ RoomsOpen t1 (pre ++ [r]) := by
  obtain ⟨hn1, hget⟩ := carveRoom_get h
  have hcase : ∀ px py tile, t1.get px py = .ok tile →
      (r.covers px py ∧ tile = ⟨n + 1, Material.FLOOR⟩) ∨
      (¬ r.covers px py ∧ t.get px py = .ok tile) := by
    intro px py tile hg
    rw [hget] at hg
    by_cases hc : r.covers px py
    · rw [if_pos hc] at hg
      left
      refine ⟨hc, ?_⟩
      cases h0 : t.get px py with
      | error e => rw [h0] at hg; cases hg
      | ok old => rw [h0] at hg; cases hg; rfl
    · rw [if_neg hc] at hg
      exact Or.inr ⟨hc, hg⟩
  refine ⟨?_, by omega, ?_⟩
  · intro px py tile hg
    rcases hcase px py tile hg with ⟨_, h1⟩ | ⟨_, h1⟩
    · rw [h1]
      refine ⟨fun h2 => (by cases h2), fun h2 => ?_⟩
      simp only at h2
      omega
    · exact hl px py tile h1
  · intro q hq px py hc tile hg
    rcases hcase px py tile hg with ⟨_, h1⟩ | ⟨hnc, h1⟩
    · rw [h1]; simp
    · rcases List.mem_append.mp hq with h2 | h2
      · exact ho q h2 px py hc tile h1
      · simp only [List.mem_singleton] at h2
        subst h2
        exact absurd hc hnc

theorem createRooms_labelled {d : Dungeon} {minSize maxSize attempts : Int} {g : Rng}
    {res : Dungeon × Rng} (hl : d.tiles.Labelled) (hn : 0 ≤ d.numRegions)
    (h : createRooms d minSize maxSize attempts g = .ok res) :
    res.1.tiles.Labelled ∧ 0 ≤ res.1.numRegions ∧ RoomsOpen res.1.tiles res.1.rooms ∧
    res.1.width = d.width ∧ res.1.height = d.height := by
  unfold createRooms at h
  cases hp : placeRooms d.width d.height minSize maxSize attempts.toNat [] g with
  | error e => rw [hp] at h; cases h
  | ok r =>
    obtain ⟨rooms, g1⟩ := r
    rw [hp] at h
    simp only at h
    cases hc : forEachM carveRoom rooms (d.tiles, d.numRegions) with
    | error e => rw [hc] at h; cases h
    | ok s =>
      obtain ⟨t, n⟩ := s
      rw [hc] at h
      simp only [Except.ok.injEq] at h
      subst h
      simp only
      have key := forEachM_inv_prefix
        (fun (pre : List Room) (s : Grid × Int) =>
          s.1.Labelled ∧ 0 ≤ s.2 ∧ RoomsOpen s.1 pre)
        rooms
        (by
          rintro pre a post _ ⟨t0, n0⟩ ⟨t1, n1⟩ ⟨h1, h2, h3⟩ hstep
          exact carveRoom_labelled h1 h2 h3 hstep)
        (d.tiles, d.numRegions) (t, n)
        ⟨hl, hn, by intro r hr; cases hr⟩ hc
      exact ⟨key.1, key.2.1, key.2.2, trivial, trivial⟩

theorem carveTunnel_labelled {t t1 : Grid} {rooms : List Room} {p : Point} {region : Int}
    (hl : t.Labelled) (ho : RoomsOpen t rooms) (hr : region ≠ 0)
    (h : carveTunnel t p region = .ok t1) : t1.Labelled ∧ RoomsOpen t1 rooms := by
  unfold carveTunnel at h
  refine labelled_modify hl ho h ?_
  intro old _
  refine ⟨⟨fun h2 => (by cases h2), fun h2 => absurd h2 hr⟩, ?_⟩
  simp

theorem continueMaze_labelled {width height region : Int} {rooms : List Room}
    (hr : region ≠ 0) :
    ∀ (fuel : Nat) (t : Grid) (g : Rng) (x y : Int) (res : Grid × Rng),
      t.Labelled → RoomsOpen t rooms →
      continueMaze width height region fuel t g x y = .ok res →
      res.1.Labelled ∧ RoomsOpen res.1 rooms := by
  intro fuel
  induction fuel with
  | zero => intro t g x y res _ _ h; simp [continueMaze] at h
  | succ fuel ih =>
    intro t g x y res hl ho h
    simp only [continueMaze] at h
    cases hv : getValidTiles t width height x y with
    | error e => rw [hv] at h; cases h
    | ok validTiles =>
      rw [hv] at h
      simp only at h
      split at h
      · cases hi : g.intn validTiles.length with
        | error e => rw [hi] at h; cases h
        | ok r =>
          obtain ⟨i, g1⟩ := r
          rw [hi] at h
          simp only at h
          cases hp : validTiles[i.toNat]? with
          | none => rw [hp] at h; cases h
          | some point =>
            rw [hp] at h
            simp only at h
            cases hc : carveTunnel t point region with
            | error e => rw [hc] at h; cases h
            | ok t1 =>
              rw [hc] at h
              simp only at h
              obtain ⟨hl1, ho1⟩ := carveTunnel_labelled hl ho hr hc
              cases hrec : continueMaze width height region fuel t1 g1 point.x point.y with
              | error e => rw [hrec] at h; cases h
              | ok r2 =>
                obtain ⟨t2, g2⟩ := r2
                rw [hrec] at h
                simp only at h
                obtain ⟨hl2, ho2⟩ := ih t1 g1 _ _ _ hl1 ho1 hrec
                exact ih t2 g2 x y res hl2 ho2 h
      · split at h
        · cases hp : validTiles[0]? with
          | none => rw [hp] at h; cases h
          | some point =>
            rw [hp] at h
            simp only at h
            cases hc : carveTunnel t point region with
            | error e => rw [hc] at h; cases h
            | ok t1 =>
              rw [hc] at h
              simp only at h
              obtain ⟨hl1, ho1⟩ := carveTunnel_labelled hl ho hr hc
              cases hrec : continueMaze width height region fuel t1 g point.x point.y with
              | error e => rw [hrec] at h; cases h
              | ok r2 =>
                obtain ⟨t2, g2⟩ := r2
                rw [hrec] at h
                simp only at h
                obtain ⟨hl2, ho2⟩ := ih t1 g _ _ _ hl1 ho1 hrec
                exact ih t2 g2 x y res hl2 ho2 h
        · simp only [Except.ok.injEq] at h
          subst h
          exact ⟨hl, ho⟩

theorem mazeCell_labelled {width height x y : Int} {rooms : List Room}
    {s s1 : Grid × Int × Rng}
    (hl : s.1.Labelled) (hn : 0 ≤ s.2.1) (ho : RoomsOpen s.1 rooms)
    (h : mazeCell width height x y s = .ok s1) :
    s1.1.Labelled ∧ 0 ≤ s1.2.1 ∧ RoomsOpen s1.1 rooms := by
  unfold mazeCell at h
  cases ha : allWall s.1 (block3 x y) with
  | error e => rw [ha] at h; cases h
  | ok b =>
    rw [ha] at h
    cases b with
    | false =>
      simp only [Except.ok.injEq] at h
      subst h
      exact ⟨hl, hn, ho⟩
    | true =>
      simp only at h
      cases hc : continueMaze width height (s.2.1 + 1) (countWall s.1 + 1) s.1 s.2.2 x y with
      | error e => rw [hc] at h; cases h
      | ok r =>
        obtain ⟨t, g⟩ := r
        rw [hc] at h
        simp only [Except.ok.injEq] at h
        subst h
        obtain ⟨h1, h2⟩ := @continueMaze_labelled _ _ _ rooms (by omega) _ _ _ _ _ _ hl ho hc
        exact ⟨h1, by simp only; omega, h2⟩

theorem createMaze_labelled {d : Dungeon} {g : Rng} {res : Dungeon × Rng}
    (hl : d.tiles.Labelled) (hn : 0 ≤ d.numRegions) (ho : RoomsOpen d.tiles d.rooms)
    (h : createMaze d g = .ok res) :
    res.1.tiles.Labelled ∧ RoomsOpen res.1.tiles res.1.rooms := by
  unfold createMaze at h
  cases hc : forEachM (fun x s =>
      forEachM (fun y s1 => mazeCell d.width d.height x y s1)
        (intRange 1 (d.height - 1)) s)
      (intRange 1 (d.width - 1)) (d.tiles, d.numRegions, g) with
  | error e => rw [hc] at h; cases h
  | ok s =>
    obtain ⟨t, n, g1⟩ := s
    rw [hc] at h
    simp only [Except.ok.injEq] at h
    subst h
    have key := forEachM_inv
      (P := fun (s : Grid × Int × Rng) => s.1.Labelled ∧ 0 ≤ s.2.1 ∧ RoomsOpen s.1 d.rooms)
      (by
        intro x _ s s1 hP hstep
        exact forEachM_inv
          (P := fun (s : Grid × Int × Rng) =>
            s.1.Labelled ∧ 0 ≤ s.2.1 ∧ RoomsOpen s.1 d.rooms)
          (by
            intro y _ s2 s3 hP2 hstep2
            exact mazeCell_labelled hP2.1 hP2.2.1 hP2.2.2 hstep2)
          s s1 hP hstep)
      (d.tiles, d.numRegions, g) (t, n, g1) ⟨hl, hn, ho⟩ hc
    exact ⟨key.1, key.2.2⟩

theorem roomEdges_dims {t : Grid} {r r1 : Room} (h : roomEdges t r = .ok r1) :
    r1.width = r.width ∧ r1.height = r.height ∧ r1.location = r.location := by
  unfold roomEdges at h
  split at h
  · cases h
  · split at h
    · cases h
    · simp only [Except.ok.injEq] at h
      subst h
      exact ⟨rfl, rfl, rfl⟩

theorem allRoomEdges_dims {t : Grid} :
    ∀ (rooms rooms1 : List Room), allRoomEdges t rooms = .ok rooms1 →
      ∀ r1 ∈ rooms1, ∃ r ∈ rooms,
        r1.width = r.width ∧ r1.height = r.height ∧ r1.location = r.location := by
  intro rooms
  induction rooms with
  | nil =>
    intro rooms1 h r1 hr1
    simp only [allRoomEdges, Except.ok.injEq] at h
    subst h; cases hr1
  | cons r rs ih =>
    intro rooms1 h r1 hr1
    simp only [allRoomEdges] at h
    cases he : roomEdges t r with
    | error e => rw [he] at h; cases h
    | ok q =>
      rw [he] at h
      simp only at h
      cases ha : allRoomEdges t rs with
      | error e => rw [ha] at h; cases h
      | ok qs =>
        rw [ha] at h
        simp only [Except.ok.injEq] at h
        subst h
        rcases List.mem_cons.mp hr1 with rfl | h2
        · exact ⟨r, List.mem_cons_self _ _, roomEdges_dims he⟩
        · obtain ⟨r0, hr0, hd⟩ := ih qs ha r1 h2
          exact ⟨r0, List.mem_cons_of_mem _ hr0, hd⟩

theorem identifyEdges_labelled {d d1 : Dungeon}
    (hl : d.tiles.Labelled) (ho : RoomsOpen d.tiles d.rooms)
    (h : identifyEdges d = .ok d1) :
    d1.tiles.Labelled ∧ RoomsOpen d1.tiles d1.rooms := by
  unfold identifyEdges at h
  cases ha : allRoomEdges d.tiles d.rooms with
  | error e => rw [ha] at h; cases h
  | ok rooms1 =>
    rw [ha] at h
    simp only [Except.ok.injEq] at h
    subst h
    refine ⟨hl, ?_⟩
    intro r1 hr1 px py hc tile hg
    obtain ⟨r, hr, hw, hh, hloc⟩ := allRoomEdges_dims _ _ ha r1 hr1
    refine ho r hr px py ?_ tile hg
    unfold Room.covers at hc ⊢
    rw [← hw, ← hh, ← hloc]
    exact hc

theorem readTiles_mem {t : Grid} :
    ∀ (ps : List (Int × Int)) (tiles : List Tile), readTiles t ps = .ok tiles →
      ∀ tile ∈ tiles, ∃ p ∈ ps, t.get p.1 p.2 = .ok tile := by
  intro ps
  induction ps with
  | nil =>
    intro tiles h tile ht
    simp only [readTiles, Except.ok.injEq] at h
    subst h; cases ht
  | cons p ps ih =>
    intro tiles h tile ht
    obtain ⟨x, y⟩ := p
    simp only [readTiles] at h
    cases hg : t.get x y with
    | error e => rw [hg] at h; cases h
    | ok tl =>
      rw [hg] at h
      simp only at h
      cases hr : readTiles t ps with
      | error e => rw [hr] at h; cases h
      | ok tls =>
        rw [hr] at h
        simp only [Except.ok.injEq] at h
        subst h
        rcases List.mem_cons.mp ht with rfl | h2
        · exact ⟨(x, y), List.mem_cons_self _ _, hg⟩
        · obtain ⟨p, hp, hgp⟩ := ih tls hr tile h2
          exact ⟨p, List.mem_cons_of_mem _ hp, hgp⟩

theorem setDoor_labelled {t t1 : Grid} {rooms : List Room} {x y : Int}
    (hl : t.Labelled) (ho : RoomsOpen t rooms) (h : setDoor t x y = .ok t1) :
    t1.Labelled ∧ RoomsOpen t1 rooms := by
  unfold setDoor at h
  refine labelled_modify hl ho h ?_
  intro old _
  exact ⟨⟨fun h2 => (by cases h2), fun _ => Or.inr rfl⟩, by simp⟩

theorem relabelRoom_labelled {t t1 : Grid} {rooms : List Room} {room : Room} {region : Int}
    (hl : t.Labelled) (ho : RoomsOpen t rooms) (hroom : room ∈ rooms) (hr : region ≠ 0)
    (h : relabelRoom t room region = .ok t1) :
    t1.Labelled ∧ RoomsOpen t1 rooms := by
  unfold relabelRoom at h
  refine forEachM_inv (P := fun (t0 : Grid) => t0.Labelled ∧ RoomsOpen t0 rooms)
    ?_ t t1 ⟨hl, ho⟩ h
  intro x hx t0 t2 hP hstep
  refine forEachM_inv (P := fun (t0 : Grid) => t0.Labelled ∧ RoomsOpen t0 rooms)
    ?_ t0 t2 hP hstep
  intro y hy t3 t4 hP3 hstep3
  refine labelled_modify hP3.1 hP3.2 hstep3 ?_
  intro old hold
  rw [mem_intRange] at hx hy
  have hnw := hP3.2 room hroom x y ⟨hx.1, hx.2, hy.1, hy.2⟩ old hold
  exact ⟨⟨fun h2 => absurd h2 hnw, fun h2 => absurd h2 hr⟩, hnw⟩

theorem primaryStep_labelled {rooms : List Room} {room : Room} {s s1 : Grid × Rng}
    (hl : s.1.Labelled) (ho : RoomsOpen s.1 rooms) (hroom : room ∈ rooms)
    (h : primaryStep room s = .ok s1) :
    s1.1.Labelled ∧ RoomsOpen s1.1 rooms := by
  unfold primaryStep at h
  cases hi : s.2.intn room.edges.length with
  | error e => rw [hi] at h; cases h
  | ok r =>
    obtain ⟨k, g1⟩ := r
    rw [hi] at h
    simp only at h
    cases he : room.edges[k.toNat]? with
    | none => rw [he] at h; cases h
    | some edge =>
      rw [he] at h
      simp only at h
      cases hc : s.1.get room.location.x room.location.y with
      | error e => rw [hc] at h; cases h
      | ok corner =>
        rw [hc] at h
        simp only at h
        cases hrd : readTiles s.1 (around8 edge) with
        | error e => rw [hrd] at h; cases h
        | ok surroundingTiles =>
          rw [hrd] at h
          simp only at h
          cases hf : surroundingTiles.find? (qualifies corner.region) with
          | none =>
            rw [hf] at h
            simp only [Except.ok.injEq] at h
            subst h
            exact ⟨hl, ho⟩
          | some tile =>
            rw [hf] at h
            simp only at h
            cases hd : setDoor s.1 edge.x edge.y with
            | error e => rw [hd] at h; cases h
            | ok t1 =>
              rw [hd] at h
              simp only at h
              cases hrl : relabelRoom t1 room tile.region with
              | error e => rw [hrl] at h; cases h
              | ok t2 =>
                rw [hrl] at h
                simp only [Except.ok.injEq] at h
                subst h
                obtain ⟨hl1, ho1⟩ := setDoor_labelled hl ho hd
                have hmem := List.mem_of_find?_eq_some hf
                have hq := List.find?_some hf
                obtain ⟨p, _, hgp⟩ := readTiles_mem _ _ hrd tile hmem
                have hlab := hl p.1 p.2 tile hgp
                have hreg : tile.region ≠ 0 := by
                  intro h0
                  have := hlab.2 h0
                  simp only [qualifies, Bool.and_eq_true, Bool.or_eq_true,
                    decide_eq_true_eq] at hq
                  rcases this with h1 | h1 <;> rw [h1] at hq <;> simp at hq
                exact relabelRoom_labelled hl1 ho1 hroom hreg hrl


theorem labelled_modify_any {t t1 : Grid} {x y : Int} {f : Tile → Tile}
    (hl : t.Labelled) (hm : t.modify x y f = .ok t1)
    (hf : ∀ old, t.get x y = .ok old → (f old).Labelled) : t1.Labelled := by
  obtain ⟨old, h1, h2, h3⟩ := Grid.modify_spec hm
  intro px py tile hg
  by_cases hxy : px = x ∧ py = y
  · obtain ⟨rfl, rfl⟩ := hxy
    rw [h2] at hg; cases hg
    exact hf old h1
  · have hne : px ≠ x ∨ py ≠ y := by
      by_cases hx : px = x
      · right; intro hy; exact hxy ⟨hx, hy⟩
      · left; exact hx
    rw [h3 px py hne] at hg
    exact hl px py tile hg

theorem residualEdges_labelled {rooms : List Room} {room : Room} :
    ∀ (js : List Nat) (s s1 : Grid × List Int), s.1.Labelled → RoomsOpen s.1 rooms →
      residualEdges room js s = .ok s1 → s1.1.Labelled ∧ RoomsOpen s1.1 rooms := by
  intro js
  induction js with
  | nil =>
    intro s s1 hl ho h
    simp only [residualEdges, Except.ok.injEq] at h
    subst h; exact ⟨hl, ho⟩
  | cons j js ih =>
    intro s s1 hl ho h
    simp only [residualEdges] at h
    cases he : room.edges[j]? with
    | none => rw [he] at h; cases h
    | some edge =>
      rw [he] at h
      simp only at h
      cases hs : residualScan s.1 s.2 (around4 edge.x edge.y) (-1) with
      | error e => rw [hs] at h; cases h
      | ok o =>
        rw [hs] at h
        cases o with
        | none => exact ih s s1 hl ho h
        | some pr =>
          obtain ⟨region, curRegion⟩ := pr
          simp only at h
          cases hd : setDoor s.1 edge.x edge.y with
          | error e => rw [hd] at h; cases h
          | ok t1 =>
            rw [hd] at h
            simp only [Except.ok.injEq] at h
            subst h
            exact setDoor_labelled hl ho hd

theorem residualRooms_labelled {rooms all : List Room} :
    ∀ (is : List Nat) (s s1 : Grid × List Int × Rng), s.1.Labelled → RoomsOpen s.1 all →
      residualRooms rooms is s = .ok s1 → s1.1.Labelled ∧ RoomsOpen s1.1 all := by
  intro is
  induction is with
  | nil =>
    intro s s1 hl ho h
    simp only [residualRooms, Except.ok.injEq] at h
    subst h; exact ⟨hl, ho⟩
  | cons i is ih =>
    intro s s1 hl ho h
    simp only [residualRooms] at h
    cases hr : rooms[i]? with
    | none => rw [hr] at h; cases h
    | some room =>
      rw [hr] at h
      simp only at h
      cases hp : s.2.2.perm room.edges.length with
      | error e => rw [hp] at h; cases h
      | ok r =>
        obtain ⟨edgePerm, g1⟩ := r
        rw [hp] at h
        simp only at h
        cases he : residualEdges room (List.range edgePerm.length) (s.1, s.2.1) with
        | error e => rw [he] at h; cases h
        | ok r2 =>
          obtain ⟨t1, connected⟩ := r2
          rw [he] at h
          simp only at h
          obtain ⟨hl1, ho1⟩ := residualEdges_labelled _ _ _ hl ho he
          exact ih _ _ hl1 ho1 h

theorem connectRegions_labelled {d : Dungeon} {g : Rng} {res : Dungeon × Rng}
    (hl : d.tiles.Labelled) (ho : RoomsOpen d.tiles d.rooms)
    (h : connectRegions d g = .ok res) : res.1.tiles.Labelled := by
  unfold connectRegions at h
  cases hp : forEachM primaryStep d.rooms (d.tiles, g) with
  | error e => rw [hp] at h; cases h
  | ok s =>
    obtain ⟨t1, g1⟩ := s
    rw [hp] at h
    simp only at h
    have h1 := forEachM_inv
      (P := fun (s : Grid × Rng) => s.1.Labelled ∧ RoomsOpen s.1 d.rooms)
      (by
        intro room hroom s s1 hP hstep
        exact primaryStep_labelled hP.1 hP.2 hroom hstep)
      (d.tiles, g) (t1, g1) ⟨hl, ho⟩ hp
    cases hq : g1.perm d.rooms.length with
    | error e => rw [hq] at h; cases h
    | ok r =>
      obtain ⟨roomPerm, g2⟩ := r
      rw [hq] at h
      simp only at h
      cases hr : residualRooms d.rooms (List.range roomPerm.length) (t1, [], g2) with
      | error e => rw [hr] at h; cases h
      | ok r2 =>
        obtain ⟨t2, c, g3⟩ := r2
        rw [hr] at h
        simp only [Except.ok.injEq] at h
        subst h
        exact (residualRooms_labelled _ _ _ h1.1 h1.2 hr).1

theorem continueTrimTunnels_labelled :
    ∀ (fuel : Nat) (t t1 : Grid) (x y : Int), t.Labelled →
      continueTrimTunnels fuel t x y = .ok t1 → t1.Labelled := by
  intro fuel
  induction fuel with
  | zero => intro t t1 x y _ h; simp [continueTrimTunnels] at h
  | succ fuel ih =>
    intro t t1 x y hl h
    simp only [continueTrimTunnels] at h
    cases hm : t.material x y with
    | error e => rw [hm] at h; cases h
    | ok m =>
      rw [hm] at h
      simp only at h
      split at h
      · cases hc : countWalls t (around4 x y) (0, ⟨0, 0⟩) with
        | error e => rw [hc] at h; cases h
        | ok r =>
          obtain ⟨wallCount, nextPoint⟩ := r
          rw [hc] at h
          simp only at h
          split at h
          · cases hw : t.modify x y (fun _ => ⟨0, Material.WALL⟩) with
            | error e => rw [hw] at h; cases h
            | ok t2 =>
              rw [hw] at h
              simp only at h
              have hl2 : t2.Labelled :=
                (labelled_modify_any hl hw (fun _ _ => ⟨fun _ => rfl, fun _ => Or.inl rfl⟩))
              split at h
              · exact ih t2 t1 _ _ hl2 h
              · simp only [Except.ok.injEq] at h
                subst h; exact hl2
          · simp only [Except.ok.injEq] at h
            subst h; exact hl
      · simp only [Except.ok.injEq] at h
        subst h; exact hl

theorem trimTunnels_labelled {d d1 : Dungeon} (hl : d.tiles.Labelled)
    (h : trimTunnels d = .ok d1) : d1.tiles.Labelled := by
  unfold trimTunnels at h
  cases hc : forEachM (fun x t =>
      forEachM (fun y t1 => continueTrimTunnels (countPassage t1 + 1) t1 x y)
        (intRange 1 (d.height - 1)) t)
      (intRange 1 (d.width - 1)) d.tiles with
  | error e => rw [hc] at h; cases h
  | ok t =>
    rw [hc] at h
    simp only [Except.ok.injEq] at h
    subst h
    exact forEachM_inv (P := fun (t0 : Grid) => t0.Labelled)
      (by
        intro x _ t0 t2 hP hstep
        exact forEachM_inv (P := fun (t0 : Grid) => t0.Labelled)
          (by
            intro y _ t3 t4 hP3 hstep3
            exact continueTrimTunnels_labelled _ _ _ _ _ hP3 hstep3)
          t0 t2 hP hstep)
      d.tiles t hl hc

theorem generateDungeon_labelled (gridWidth gridHeight roomAttempts minRoomSize maxRoomSize : Int)
    (g : Rng) (d : Dungeon)
    (h : generateDungeon gridWidth gridHeight roomAttempts minRoomSize maxRoomSize g = .ok d) :
    ∀ (x y : Int) (tile : Tile), d.tiles.get x y = .ok tile →
      (tile.material = Material.WALL → tile.region = 0) ∧
      (tile.region = 0 → tile.material = Material.WALL ∨ tile.material = Material.DOOR) := by
  unfold generateDungeon at h
  cases h0 : createEmptyDungeon gridWidth gridHeight with
  | error e => rw [h0] at h; cases h
  | ok d0 =>
    rw [h0] at h
    simp only at h
    obtain ⟨l0, n0⟩ := createEmptyDungeon_labelled h0
    cases h1 : createRooms d0 minRoomSize maxRoomSize roomAttempts g with
    | error e => rw [h1] at h; cases h
    | ok r1 =>
      obtain ⟨d1, g1⟩ := r1
      rw [h1] at h
      simp only at h
      obtain ⟨l1, n1, o1, _, _⟩ := createRooms_labelled l0 (by omega) h1
      cases h2 : createMaze d1 g1 with
      | error e => rw [h2] at h; cases h
      | ok r2 =>
        obtain ⟨d2, g2⟩ := r2
        rw [h2] at h
        simp only at h
        obtain ⟨l2, o2⟩ := createMaze_labelled l1 n1 o1 h2
        cases h3 : identifyEdges d2 with
        | error e => rw [h3] at h; cases h
        | ok d3 =>
          rw [h3] at h
          simp only at h
          obtain ⟨l3, o3⟩ := identifyEdges_labelled l2 o2 h3
          cases h4 : connectRegions d3 g2 with
          | error e => rw [h4] at h; cases h
          | ok r4 =>
            obtain ⟨d4, g4⟩ := r4
            rw [h4] at h
            simp only at h
            have l4 := connectRegions_labelled l3 o3 h4
            exact trimTunnels_labelled l4 h

/-! ## Connectivity -/

theorem openTile_modify {t t1 : Grid} {x y : Int} {f : Tile → Tile}
    (hm : t.modify x y f = .ok t1)
    (hf : ∀ old, old.material ≠ Material.WALL → (f old).material ≠ Material.WALL)
    (p : Point) (hp : t.openTile p = true) : t1.openTile p = true := by
  obtain ⟨old, h1, h2, h3⟩ := Grid.modify_spec hm
  unfold Grid.openTile at hp ⊢
  by_cases hxy : p.x = x ∧ p.y = y
  · rw [hxy.1, hxy.2] at hp ⊢
    rw [h1] at hp
    rw [h2]
    simp only [decide_eq_true_eq] at hp ⊢
    exact hf old hp
  · have hne : p.x ≠ x ∨ p.y ≠ y := by
      by_cases hx : p.x = x
      · right; intro hy; exact hxy ⟨hx, hy⟩
      · left; exact hx
    rw [h3 p.x p.y hne]
    exact hp

theorem setDoor_open {t t1 : Grid} {x y : Int} (h : setDoor t x y = .ok t1)
    (p : Point) (hp : t.openTile p = true) : t1.openTile p = true :=
  openTile_modify h (fun _ _ => by simp) p hp

theorem relabelRoom_open {t t1 : Grid} {room : Room} {region : Int}
    (h : relabelRoom t room region = .ok t1)
    (p : Point) (hp : t.openTile p = true) : t1.openTile p = true := by
  unfold relabelRoom at h
  refine forEachM_inv (P := fun (t0 : Grid) => t0.openTile p = true) ?_ t t1 hp h
  intro x _ t0 t2 hP hstep
  refine forEachM_inv (P := fun (t0 : Grid) => t0.openTile p = true) ?_ t0 t2 hP hstep
  intro y _ t3 t4 hP3 hstep3
  exact openTile_modify hstep3 (fun _ h0 => h0) p hP3

theorem primaryStep_open {room : Room} {s s1 : Grid × Rng}
    (h : primaryStep room s = .ok s1)
    (p : Point) (hp : s.1.openTile p = true) : s1.1.openTile p = true := by
  unfold primaryStep at h
  cases hi : s.2.intn room.edges.length with
  | error e => rw [hi] at h; cases h
  | ok r =>
    obtain ⟨k, g1⟩ := r
    rw [hi] at h
    simp only at h
    cases he : room.edges[k.toNat]? with
    | none => rw [he] at h; cases h
    | some edge =>
      rw [he] at h
      simp only at h
      cases hc : s.1.get room.location.x room.location.y with
      | error e => rw [hc] at h; cases h
      | ok corner =>
        rw [hc] at h
        simp only at h
        cases hrd : readTiles s.1 (around8 edge) with
        | error e => rw [hrd] at h; cases h
        | ok surroundingTiles =>
          rw [hrd] at h
          simp only at h
          cases hf : surroundingTiles.find? (qualifies corner.region) with
          | none =>
            rw [hf] at h
            simp only [Except.ok.injEq] at h
            subst h
            exact hp
          | some tile =>
            rw [hf] at h
            simp only at h
            cases hd : setDoor s.1 edge.x edge.y with
            | error e => rw [hd] at h; cases h
            | ok t1 =>
              rw [hd] at h
              simp only at h
              cases hrl : relabelRoom t1 room tile.region with
              | error e => rw [hrl] at h; cases h
              | ok t2 =>
                rw [hrl] at h
                simp only [Except.ok.injEq] at h
                subst h
                exact relabelRoom_open hrl p (setDoor_open hd p hp)

theorem residualEdges_open {room : Room} (p : Point) :
    ∀ (js : List Nat) (s s1 : Grid × List Int), s.1.openTile p = true →
      residualEdges room js s = .ok s1 → s1.1.openTile p = true := by
  intro js
  induction js with
  | nil =>
    intro s s1 hp h
    simp only [residualEdges, Except.ok.injEq] at h
    subst h; exact hp
  | cons j js ih =>
    intro s s1 hp h
    simp only [residualEdges] at h
    cases he : room.edges[j]? with
    | none => rw [he] at h; cases h
    | some edge =>
      rw [he] at h
      simp only at h
      cases hs : residualScan s.1 s.2 (around4 edge.x edge.y) (-1) with
      | error e => rw [hs] at h; cases h
      | ok o =>
        rw [hs] at h
        cases o with
        | none => exact ih s s1 hp h
        | some pr =>
          obtain ⟨region, curRegion⟩ := pr
          simp only at h
          cases hd : setDoor s.1 edge.x edge.y with
          | error e => rw [hd] at h; cases h
          | ok t1 =>
            rw [hd] at h
            simp only [Except.ok.injEq] at h
            subst h
            exact setDoor_open hd p hp

theorem residualRooms_open {rooms : List Room} (p : Point) :
    ∀ (is : List Nat) (s s1 : Grid × List Int × Rng), s.1.openTile p = true →
      residualRooms rooms is s = .ok s1 → s1.1.openTile p = true := by
  intro is
  induction is with
  | nil =>
    intro s s1 hp h
    simp only [residualRooms, Except.ok.injEq] at h
    subst h; exact hp
  | cons i is ih =>
    intro s s1 hp h
    simp only [residualRooms] at h
    cases hr : rooms[i]? with
    | none => rw [hr] at h; cases h
    | some room =>
      rw [hr] at h
      simp only at h
      cases hq : s.2.2.perm room.edges.length with
      | error e => rw [hq] at h; cases h
      | ok r =>
        obtain ⟨edgePerm, g1⟩ := r
        rw [hq] at h
        simp only at h
        cases he : residualEdges room (List.range edgePerm.length) (s.1, s.2.1) with
        | error e => rw [he] at h; cases h
        | ok r2 =>
          obtain ⟨t1, connected⟩ := r2
          rw [he] at h
          simp only at h
          exact ih _ _ (residualEdges_open p _ _ _ hp he) h

theorem connectRegions_open {d : Dungeon} {g : Rng} {res : Dungeon × Rng}
    (h : connectRegions d g = .ok res) (p : Point) (hp : d.tiles.openTile p = true) :
    res.1.tiles.openTile p = true := by
  unfold connectRegions at h
  cases hpr : forEachM primaryStep d.rooms (d.tiles, g) with
  | error e => rw [hpr] at h; cases h
  | ok s =>
    obtain ⟨t1, g1⟩ := s
    rw [hpr] at h
    simp only at h
    have h1 := forEachM_inv (P := fun (s : Grid × Rng) => s.1.openTile p = true)
      (by
        intro room _ s s1 hP hstep
        exact primaryStep_open hstep p hP)
      (d.tiles, g) (t1, g1) hp hpr
    cases hq : g1.perm d.rooms.length with
    | error e => rw [hq] at h; cases h
    | ok r =>
      obtain ⟨roomPerm, g2⟩ := r
      rw [hq] at h
      simp only at h
      cases hr : residualRooms d.rooms (List.range roomPerm.length) (t1, [], g2) with
      | error e => rw [hr] at h; cases h
      | ok r2 =>
        obtain ⟨t2, c, g3⟩ := r2
        rw [hr] at h
        simp only [Except.ok.injEq] at h
        subst h
        exact residualRooms_open p _ _ _ h1 hr

theorem joined_keeps {d : Dungeon} {g : Rng} {res : Dungeon × Rng}
    (h : connectRegions d g = .ok res) {p q : Point} (hj : Joined d.tiles p q) :
    Joined res.1.tiles p q := by
  induction hj with
  | start hp => exact Joined.start (connectRegions_open h p hp)
  | step _ hadj hr ih => exact Joined.step ih hadj (connectRegions_open h _ hr)

theorem sampleSplit_pocket (q : Point) (h : Joined sampleSplit.tiles ⟨1, 7⟩ q) :
    q ∈ [(⟨1, 6⟩ : Point), ⟨1, 7⟩, ⟨2, 7⟩] := by
  induction h with
  | start _ => decide
  | step _ hadj hr ih =>
    have key : ∀ a ∈ [(⟨1, 6⟩ : Point), ⟨1, 7⟩, ⟨2, 7⟩], ∀ b ∈ around4 a.x a.y,
        sampleSplit.tiles.openTile b = true → b ∈ [(⟨1, 6⟩ : Point), ⟨1, 7⟩, ⟨2, 7⟩] := by
      decide
    exact key _ ih _ hadj hr

/-- Claim C3 (refuted as stated): a 9 × 9 run completes the first four stages with its only
room having two edges, `connectRegions` completes on it, and in the result the TUNNEL tile
(1, 7) and the FLOOR tile (5, 3) are not joined by any walk through orthogonally adjacent
non-WALL tiles. -/
theorem connectRegions_leaves_pocket :
    completes (stagesToEdges 9 9 1 1 2 (polyRng 3 2 0 11)) = true ∧
    sampleSplitStage.1.rooms = [⟨1, 1, ⟨5, 3⟩, [⟨5, 2⟩, ⟨6, 3⟩]⟩] ∧
    completes (connectRegions sampleSplitStage.1 sampleSplitStage.2) = true ∧
    sampleSplit.tiles.get 1 7 = .ok ⟨3, Material.TUNNEL⟩ ∧
    sampleSplit.tiles.get 5 3 = .ok ⟨2, Material.FLOOR⟩ ∧
    ¬ Joined sampleSplit.tiles ⟨1, 7⟩ ⟨5, 3⟩ :=
  ⟨by decide, by decide, by decide, by decide, by decide, fun h => by
    have := sampleSplit_pocket _ h
    revert this
    decide⟩

/-! ## The recursion budgets are sufficient -/

theorem Grid.get_fuel (t : Grid) (x y : Int) : t.get x y ≠ .error Err.outOfFuel := by
  unfold Grid.get
  split
  · simp
  · split
    · simp
    · split <;> simp

theorem Grid.modify_fuel (t : Grid) (x y : Int) (f : Tile → Tile) :
    t.modify x y f ≠ .error Err.outOfFuel := by
  unfold Grid.modify
  split
  · simp
  · split
    · simp
    · split <;> simp

theorem Grid.material_fuel (t : Grid) (x y : Int) : t.material x y ≠ .error Err.outOfFuel := by
  unfold Grid.material
  have := Grid.get_fuel t x y
  split
  · rename_i e he; intro h; injection h with h; subst h; exact this he
  · simp

theorem Rng.intn_fuel (g : Rng) (n : Int) : g.intn n ≠ .error Err.outOfFuel := by
  unfold Rng.intn
  split <;> simp

theorem forEachM_fuel {α σ : Type} {f : α → σ → Except Err σ} (P : σ → Prop)
    (hf : ∀ a s, P s → f a s ≠ .error Err.outOfFuel ∧ ∀ s1, f a s = .ok s1 → P s1) :
    ∀ (l : List α) (s : σ), P s →
      forEachM f l s ≠ .error Err.outOfFuel ∧ ∀ s1, forEachM f l s = .ok s1 → P s1 := by
  intro l
  induction l with
  | nil =>
    intro s hp
    simp only [forEachM]
    refine ⟨by simp, ?_⟩
    intro s1 h; injection h with h; subst h; exact hp
  | cons a l ih =>
    intro s hp
    simp only [forEachM]
    obtain ⟨h1, h2⟩ := hf a s hp
    cases hfa : f a s with
    | error e =>
      refine ⟨?_, by intro s1 h; cases h⟩
      intro h; injection h with h; subst h; exact h1 hfa
    | ok s1 => exact ih s1 (h2 s1 hfa)

theorem allWall_fuel (t : Grid) :
    ∀ ps : List (Int × Int), allWall t ps ≠ .error Err.outOfFuel := by
  intro ps
  induction ps with
  | nil => simp [allWall]
  | cons p ps ih =>
    obtain ⟨x, y⟩ := p
    simp only [allWall]
    have := Grid.material_fuel t x y
    cases hm : t.material x y with
    | error e => intro h; injection h with h; subst h; exact this hm
    | ok m =>
      simp only
      split
      · exact ih
      · simp

theorem tryDirection_spec {t : Grid} {bound : Bool} {px py : Int} {look : Except Err Bool}
    {acc : List Point} (hlook : look ≠ .error Err.outOfFuel)
    (hacc : ∀ p ∈ acc, ∃ tile, t.get p.x p.y = .ok tile ∧ tile.material = Material.WALL) :
    tryDirection t bound px py look acc ≠ .error Err.outOfFuel ∧
    ∀ res, tryDirection t bound px py look acc = .ok res →
      ∀ p ∈ res, ∃ tile, t.get p.x p.y = .ok tile ∧ tile.material = Material.WALL := by
  unfold tryDirection
  cases bound with
  | false =>
    simp only [Bool.false_eq_true, if_false]
    refine ⟨by simp, ?_⟩
    intro res h; injection h with h; subst h; exact hacc
  | true =>
    simp only [if_true]
    have hmf := Grid.material_fuel t px py
    cases hm : t.material px py with
    | error e =>
      refine ⟨?_, by intro res h; cases h⟩
      intro h; injection h with h; subst h; exact hmf hm
    | ok m =>
      simp only
      by_cases hw : m = Material.WALL
      · rw [if_pos hw]
        cases hl : look with
        | error e =>
          refine ⟨?_, by intro res h; cases h⟩
          intro h; injection h with h; subst h; exact hlook hl
        | ok b =>
          cases b with
          | true =>
            refine ⟨by simp, ?_⟩
            intro res h p hp
            injection h with h; subst h
            rcases List.mem_append.mp hp with h1 | h1
            · exact hacc p h1
            · simp only [List.mem_singleton] at h1
              subst h1
              obtain ⟨tile, h2, h3⟩ := Grid.material_eq_ok.mp hm
              exact ⟨tile, h2, by rw [h3, hw]⟩
          | false =>
            refine ⟨by simp, ?_⟩
            intro res h; injection h with h; subst h; exact hacc
      · rw [if_neg hw]
        refine ⟨by simp, ?_⟩
        intro res h; injection h with h; subst h; exact hacc

theorem getValidTiles_spec (t : Grid) (width height x y : Int) :
    getValidTiles t width height x y ≠ .error Err.outOfFuel ∧
    ∀ res, getValidTiles t width height x y = .ok res →
      ∀ p ∈ res, ∃ tile, t.get p.x p.y = .ok tile ∧ tile.material = Material.WALL := by
  unfold getValidTiles
  obtain ⟨a1, a2⟩ := @tryDirection_spec t (decide (x - 2 ≥ 0)) (x - 1) y
    (lookDown t x y) [] (allWall_fuel t _) (by intro p hp; cases hp)
  cases h1 : tryDirection t (decide (x - 2 ≥ 0)) (x - 1) y (lookDown t x y) [] with
  | error e =>
    refine ⟨?_, by intro res h; cases h⟩
    intro h; injection h with h; subst h; exact a1 h1
  | ok v1 =>
    simp only
    obtain ⟨b1, b2⟩ := @tryDirection_spec t (decide (x + 2 < width)) (x + 1) y
      (lookUp t x y) v1 (allWall_fuel t _) (a2 v1 h1)
    cases h2 : tryDirection t (decide (x + 2 < width)) (x + 1) y (lookUp t x y) v1 with
    | error e =>
      refine ⟨?_, by intro res h; cases h⟩
      intro h; injection h with h; subst h; exact b1 h2
    | ok v2 =>
      simp only
      obtain ⟨c1, c2⟩ := @tryDirection_spec t (decide (y - 2 ≥ 0)) x (y - 1)
        (lookLeft t x y) v2 (allWall_fuel t _) (b2 v2 h2)
      cases h3 : tryDirection t (decide (y - 2 ≥ 0)) x (y - 1) (lookLeft t x y) v2 with
      | error e =>
        refine ⟨?_, by intro res h; cases h⟩
        intro h; injection h with h; subst h; exact c1 h3
      | ok v3 =>
        simp only
        exact @tryDirection_spec t (decide (y + 2 < height)) x (y + 1)
          (lookRight t x y) v3 (allWall_fuel t _) (c2 v3 h3)


theorem countWalls_fuel (t : Grid) :
    ∀ (ps : List Point) (s : Nat × Point), countWalls t ps s ≠ .error Err.outOfFuel := by
  intro ps
  induction ps with
  | nil => intro s; simp [countWalls]
  | cons p ps ih =>
    intro s
    simp only [countWalls]
    have := Grid.get_fuel t p.x p.y
    cases hg : t.get p.x p.y with
    | error e => intro h; injection h with h; subst h; exact this hg
    | ok tile =>
      simp only
      split
      · exact ih _
      · split
        · exact ih _
        · exact ih _

theorem countWall_carve {t t1 : Grid} {p : Point} {region : Int} {tile : Tile}
    (hm : carveTunnel t p region = .ok t1)
    (hg : t.get p.x p.y = .ok tile) (hw : tile.material = Material.WALL) :
    countWall t1 + 1 = countWall t := by
  unfold carveTunnel at hm
  obtain ⟨_, _, row, old, hr, hc, rfl⟩ := Grid.modify_eq_ok.mp hm
  obtain ⟨_, _, row1, hr1, hc1⟩ := Grid.get_eq_ok.mp hg
  rw [hr] at hr1
  cases hr1
  rw [hc] at hc1
  cases hc1
  obtain ⟨hy, hrow⟩ := List.getElem?_eq_some_iff.mp hr
  obtain ⟨hx, hold⟩ := List.getElem?_eq_some_iff.mp hc
  unfold countWall
  have h1 := sum_map_set
    (fun row => row.countP (fun tile => decide (tile.material = Material.WALL))) t
    p.y.toNat (row.set p.x.toNat ⟨region, Material.TUNNEL⟩) hy
  have h2 := countP_set (fun tile => decide (tile.material = Material.WALL)) row p.x.toNat
    ⟨region, Material.TUNNEL⟩ hx
  rw [hrow] at h1
  rw [hold] at h2
  simp only [hw, decide_True, if_true] at h2
  have h3 : decide (Material.TUNNEL = Material.WALL) = false := rfl
  simp only [h3, Bool.false_eq_true, if_false] at h2
  omega

theorem continueMaze_fuel {width height region : Int} :
    ∀ (fuel : Nat) (t : Grid) (g : Rng) (x y : Int), countWall t < fuel →
      continueMaze width height region fuel t g x y ≠ .error Err.outOfFuel ∧
      ∀ res, continueMaze width height region fuel t g x y = .ok res →
        countWall res.1 ≤ countWall t := by
  intro fuel
  induction fuel with
  | zero => intro t g x y h; omega
  | succ fuel ih =>
    intro t g x y hfuel
    simp only [continueMaze]
    obtain ⟨v1, v2⟩ := getValidTiles_spec t width height x y
    cases hv : getValidTiles t width height x y with
    | error e =>
      refine ⟨?_, by intro res h; cases h⟩
      intro h; injection h with h; subst h; exact v1 hv
    | ok validTiles =>
      simp only
      have hwall := v2 validTiles hv
      have tail : ∀ (g0 : Rng) (point : Point), point ∈ validTiles →
          (match carveTunnel t point region with
            | .error e => (Except.error e : Except Err (Grid × Rng))
            | .ok t1 =>
              match continueMaze width height region fuel t1 g0 point.x point.y with
              | .error e => .error e
              | .ok (t2, g2) => continueMaze width height region fuel t2 g2 x y) ≠
            Except.error Err.outOfFuel ∧
          ∀ res,
            (match carveTunnel t point region with
            | .error e => (Except.error e : Except Err (Grid × Rng))
            | .ok t1 =>
              match continueMaze width height region fuel t1 g0 point.x point.y with
              | .error e => .error e
              | .ok (t2, g2) => continueMaze width height region fuel t2 g2 x y) = .ok res →
            countWall res.1 ≤ countWall t := by
        intro g0 point hmem
        obtain ⟨tile, hg, hw⟩ := hwall point hmem
        cases hc : carveTunnel t point region with
        | error e =>
          refine ⟨?_, by intro res h; cases h⟩
          intro h; injection h with h; subst h
          exact Grid.modify_fuel _ _ _ _ hc
        | ok t1 =>
          simp only
          have hcount := countWall_carve hc hg hw
          obtain ⟨r1, r2⟩ := ih t1 g0 point.x point.y (by omega)
          cases hrec : continueMaze width height region fuel t1 g0 point.x point.y with
          | error e =>
            refine ⟨?_, by intro res h; cases h⟩
            intro h; injection h with h; subst h; exact r1 hrec
          | ok r =>
            obtain ⟨t2, g2⟩ := r
            simp only
            have hle := r2 _ hrec
            simp only at hle
            obtain ⟨q1, q2⟩ := ih t2 g2 x y (by omega)
            refine ⟨q1, ?_⟩
            intro res h
            have := q2 res h
            omega
      split
      · have hi := Rng.intn_fuel g validTiles.length
        cases hin : g.intn validTiles.length with
        | error e =>
          refine ⟨?_, by intro res h; cases h⟩
          intro h; injection h with h; subst h; exact hi hin
        | ok r =>
          obtain ⟨i, g1⟩ := r
          simp only
          cases hp : validTiles[i.toNat]? with
          | none => exact ⟨by simp, by intro res h; cases h⟩
          | some point => exact tail g1 point (List.getElem?_mem hp)
      · split
        · cases hp : validTiles[0]? with
          | none => exact ⟨by simp, by intro res h; cases h⟩
          | some point => exact tail g point (List.getElem?_mem hp)
        · refine ⟨by simp, ?_⟩
          intro res h; injection h with h; subst h; exact Nat.le_refl _

theorem continueTrimTunnels_fuel :
    ∀ (fuel : Nat) (t : Grid) (x y : Int), countPassage t < fuel →
      continueTrimTunnels fuel t x y ≠ .error Err.outOfFuel := by
  intro fuel
  induction fuel with
  | zero => intro t x y h; omega
  | succ fuel ih =>
    intro t x y hfuel
    simp only [continueTrimTunnels]
    have hmf := Grid.material_fuel t x y
    cases hm : t.material x y with
    | error e => intro h; injection h with h; subst h; exact hmf hm
    | ok m =>
      simp only
      split
      · rename_i hp
        cases hc : countWalls t (around4 x y) (0, ⟨0, 0⟩) with
        | error e =>
          intro h; injection h with h; subst h
          exact countWalls_fuel t _ _ hc
        | ok r =>
          obtain ⟨wallCount, nextPoint⟩ := r
          simp only
          split
          · cases hw : t.modify x y (fun _ => ⟨0, Material.WALL⟩) with
            | error e =>
              intro h; injection h with h; subst h
              exact Grid.modify_fuel _ _ _ _ hw
            | ok t1 =>
              simp only
              obtain ⟨tile, hg, hmat⟩ := Grid.material_eq_ok.mp hm
              have hcount := countPassage_trim hw hg (by rw [hmat]; exact hp)
              split
              · exact ih t1 _ _ (by omega)
              · simp
          · simp
      · simp

theorem forEachM_fuel_simple {α σ : Type} {f : α → σ → Except Err σ}
    (hf : ∀ a s, f a s ≠ .error Err.outOfFuel) (l : List α) (s : σ) :
    forEachM f l s ≠ .error Err.outOfFuel :=
  (forEachM_fuel (fun _ => True) (fun a s _ => ⟨hf a s, fun _ _ => trivial⟩) l s trivial).1

theorem createEmptyDungeon_fuel (width height : Int) :
    createEmptyDungeon width height ≠ .error Err.outOfFuel := by
  unfold createEmptyDungeon
  split
  · simp
  · split <;> simp

theorem placeRooms_fuel (gridWidth gridHeight minSize maxSize : Int) :
    ∀ (n : Nat) (rooms : List Room) (g : Rng),
      placeRooms gridWidth gridHeight minSize maxSize n rooms g ≠ .error Err.outOfFuel := by
  intro n
  induction n with
  | zero => intro rooms g; simp [placeRooms]
  | succ n ih =>
    intro rooms g
    simp only [placeRooms]
    cases ha : g.intn (maxSize - minSize) with
    | error e => intro h; injection h with h; subst h; exact Rng.intn_fuel _ _ ha
    | ok r1 =>
      obtain ⟨a, g1⟩ := r1
      simp only
      cases hb : g1.intn (maxSize - minSize) with
      | error e => intro h; injection h with h; subst h; exact Rng.intn_fuel _ _ hb
      | ok r2 =>
        obtain ⟨b, g2⟩ := r2
        simp only
        cases hc : g2.intn (gridWidth - (a + minSize) - 2 - 3) with
        | error e => intro h; injection h with h; subst h; exact Rng.intn_fuel _ _ hc
        | ok r3 =>
          obtain ⟨c, g3⟩ := r3
          simp only
          cases hd : g3.intn (gridHeight - (b + minSize) - 2 - 3) with
          | error e => intro h; injection h with h; subst h; exact Rng.intn_fuel _ _ hd
          | ok r4 =>
            obtain ⟨d, g4⟩ := r4
            simp only
            split
            · exact ih _ _
            · exact ih _ _

theorem fillRect_fuel (f : Tile → Tile) (xs ys : List Int) (t : Grid) :
    forEachM (fun i t0 => forEachM (fun j t1 => Grid.modify t1 i j f) ys t0) xs t ≠
      .error Err.outOfFuel :=
  forEachM_fuel_simple
    (fun i t0 => forEachM_fuel_simple (fun j t1 => Grid.modify_fuel t1 i j f) ys t0) xs t

theorem carveRoom_fuel (r : Room) (s : Grid × Int) :
    carveRoom r s ≠ .error Err.outOfFuel := by
  unfold carveRoom
  simp only
  have := fillRect_fuel (fun _ => ⟨s.2 + 1, Material.FLOOR⟩)
    (intRange r.location.x (r.location.x + r.width))
    (intRange r.location.y (r.location.y + r.height)) s.1
  split
  · rename_i e he; intro h; injection h with h; subst h; exact this he
  · simp

theorem createRooms_fuel (d : Dungeon) (minSize maxSize attempts : Int) (g : Rng) :
    createRooms d minSize maxSize attempts g ≠ .error Err.outOfFuel := by
  unfold createRooms
  have h1 := placeRooms_fuel d.width d.height minSize maxSize attempts.toNat [] g
  split
  · rename_i e he; intro h; injection h with h; subst h; exact h1 he
  · rename_i rooms g1 _
    have h2 := forEachM_fuel_simple carveRoom_fuel rooms (d.tiles, d.numRegions)
    split
    · rename_i e he; intro h; injection h with h; subst h; exact h2 he
    · simp

theorem mazeCell_fuel (width height x y : Int) (s : Grid × Int × Rng) :
    mazeCell width height x y s ≠ .error Err.outOfFuel := by
  unfold mazeCell
  have h1 := allWall_fuel s.1 (block3 x y)
  split
  · rename_i e he; intro h; injection h with h; subst h; exact h1 he
  · simp
  · simp only
    have h2 := (@continueMaze_fuel width height (s.2.1 + 1) (countWall s.1 + 1) s.1 s.2.2 x y
      (Nat.lt_succ_self _)).1
    split
    · rename_i e he; intro h; injection h with h; subst h; exact h2 he
    · simp

theorem createMaze_fuel (d : Dungeon) (g : Rng) :
    createMaze d g ≠ .error Err.outOfFuel := by
  unfold createMaze
  have h1 := forEachM_fuel_simple
    (fun (x : Int) (s : Grid × Int × Rng) => forEachM_fuel_simple
      (fun (y : Int) (s1 : Grid × Int × Rng) => mazeCell_fuel d.width d.height x y s1)
      (intRange 1 (d.height - 1)) s)
    (intRange 1 (d.width - 1)) (d.tiles, d.numRegions, g)
  split
  · rename_i e he; intro h; injection h with h; subst h; exact h1 he
  · simp

theorem appendIfOpen_fuel (t : Grid) (px py : Int) (e : Point) (edges : List Point) :
    appendIfOpen t px py e edges ≠ .error Err.outOfFuel := by
  unfold appendIfOpen
  have h1 := Grid.material_fuel t px py
  split
  · rename_i e1 he; intro h; injection h with h; subst h; exact h1 he
  · split <;> simp

theorem scanColumn_fuel (t : Grid) (r : Room) (j : Int) (edges : List Point) :
    scanColumn t r j edges ≠ .error Err.outOfFuel := by
  unfold scanColumn
  split
  · rename_i e he; intro h; injection h with h; subst h
    exact appendIfOpen_fuel _ _ _ _ _ he
  · exact appendIfOpen_fuel _ _ _ _ _

theorem scanRow_fuel (t : Grid) (r : Room) (k : Int) (edges : List Point) :
    scanRow t r k edges ≠ .error Err.outOfFuel := by
  unfold scanRow
  split
  · rename_i e he; intro h; injection h with h; subst h
    exact appendIfOpen_fuel _ _ _ _ _ he
  · exact appendIfOpen_fuel _ _ _ _ _

theorem roomEdges_fuel (t : Grid) (r : Room) : roomEdges t r ≠ .error Err.outOfFuel := by
  unfold roomEdges
  split
  · rename_i e he; intro h; injection h with h; subst h
    exact forEachM_fuel_simple (scanColumn_fuel t r) _ _ he
  · split
    · rename_i e he; intro h; injection h with h; subst h
      exact forEachM_fuel_simple (scanRow_fuel t r) _ _ he
    · simp

theorem allRoomEdges_fuel (t : Grid) :
    ∀ rooms : List Room, allRoomEdges t rooms ≠ .error Err.outOfFuel := by
  intro rooms
  induction rooms with
  | nil => simp [allRoomEdges]
  | cons r rs ih =>
    simp only [allRoomEdges]
    split
    · rename_i e he; intro h; injection h with h; subst h; exact roomEdges_fuel t r he
    · split
      · rename_i e he; intro h; injection h with h; subst h; exact ih he
      · simp

theorem identifyEdges_fuel (d : Dungeon) : identifyEdges d ≠ .error Err.outOfFuel := by
  unfold identifyEdges
  split
  · rename_i e he; intro h; injection h with h; subst h; exact allRoomEdges_fuel _ _ he
  · simp

theorem readTiles_fuel (t : Grid) :
    ∀ ps : List (Int × Int), readTiles t ps ≠ .error Err.outOfFuel := by
  intro ps
  induction ps with
  | nil => simp [readTiles]
  | cons p ps ih =>
    obtain ⟨x, y⟩ := p
    simp only [readTiles]
    split
    · rename_i e he; intro h; injection h with h; subst h; exact Grid.get_fuel _ _ _ he
    · split
      · rename_i e he; intro h; injection h with h; subst h; exact ih he
      · simp

theorem primaryStep_fuel (room : Room) (s : Grid × Rng) :
    primaryStep room s ≠ .error Err.outOfFuel := by
  unfold primaryStep
  split
  · rename_i e he; intro h; injection h with h; subst h; exact Rng.intn_fuel _ _ he
  · split
    · simp
    · split
      · rename_i e he; intro h; injection h with h; subst h; exact Grid.get_fuel _ _ _ he
      · split
        · rename_i e he; intro h; injection h with h; subst h; exact readTiles_fuel _ _ he
        · split
          · simp
          · split
            · rename_i e he; intro h; injection h with h; subst h
              exact Grid.modify_fuel _ _ _ _ he
            · split
              · rename_i e he; intro h; injection h with h; subst h
                exact fillRect_fuel _ _ _ _ he
              · simp

theorem permLoop_fuel :
    ∀ (k i : Nat) (m : List Int) (g : Rng), permLoop k i m g ≠ .error Err.outOfFuel := by
  intro k
  induction k with
  | zero => intro i m g; simp [permLoop]
  | succ k ih =>
    intro i m g
    simp only [permLoop]
    split
    · rename_i e he; intro h; injection h with h; subst h; exact Rng.intn_fuel _ _ he
    · exact ih _ _ _

theorem residualScan_fuel (t : Grid) (connected : List Int) :
    ∀ (ps : List Point) (cur : Int), residualScan t connected ps cur ≠ .error Err.outOfFuel := by
  intro ps
  induction ps with
  | nil => intro cur; simp [residualScan]
  | cons p ps ih =>
    intro cur
    simp only [residualScan]
    split
    · rename_i e he; intro h; injection h with h; subst h; exact Grid.get_fuel _ _ _ he
    · split
      · exact ih _
      · split
        · simp
        · exact ih _

theorem residualEdges_fuel (room : Room) :
    ∀ (js : List Nat) (s : Grid × List Int), residualEdges room js s ≠ .error Err.outOfFuel := by
  intro js
  induction js with
  | nil => intro s; simp [residualEdges]
  | cons j js ih =>
    intro s
    simp only [residualEdges]
    split
    · simp
    · split
      · rename_i e he; intro h; injection h with h; subst h
        exact residualScan_fuel _ _ _ _ he
      · exact ih _
      · split
        · rename_i e he; intro h; injection h with h; subst h
          exact Grid.modify_fuel _ _ _ _ he
        · simp

theorem residualRooms_fuel (rooms : List Room) :
    ∀ (is : List Nat) (s : Grid × List Int × Rng),
      residualRooms rooms is s ≠ .error Err.outOfFuel := by
  intro is
  induction is with
  | nil => intro s; simp [residualRooms]
  | cons i is ih =>
    intro s
    simp only [residualRooms]
    split
    · simp
    · split
      · rename_i e he; intro h; injection h with h; subst h
        exact permLoop_fuel _ _ _ _ he
      · split
        · rename_i e he; intro h; injection h with h; subst h
          exact residualEdges_fuel _ _ _ he
        · exact ih _

theorem connectRegions_fuel (d : Dungeon) (g : Rng) :
    connectRegions d g ≠ .error Err.outOfFuel := by
  unfold connectRegions
  split
  · rename_i e he; intro h; injection h with h; subst h
    exact forEachM_fuel_simple primaryStep_fuel _ _ he
  · split
    · rename_i e he; intro h; injection h with h; subst h
      exact permLoop_fuel _ _ _ _ he
    · split
      · rename_i e he; intro h; injection h with h; subst h
        exact residualRooms_fuel _ _ _ he
      · simp

theorem trimTunnels_fuel (d : Dungeon) : trimTunnels d ≠ .error Err.outOfFuel := by
  unfold trimTunnels
  have h1 := forEachM_fuel_simple
    (fun (x : Int) (t : Grid) => forEachM_fuel_simple
      (fun (y : Int) (t1 : Grid) =>
        continueTrimTunnels_fuel (countPassage t1 + 1) t1 x y (Nat.lt_succ_self _))
      (intRange 1 (d.height - 1)) t)
    (intRange 1 (d.width - 1)) d.tiles
  split
  · rename_i e he; intro h; injection h with h; subst h; exact h1 he
  · simp

/-- The recursion budgets of the embedding are never exhausted: whenever `generateDungeon`
stops without a result, it is on one of the panics of the program. -/
theorem generateDungeon_fuel (gridWidth gridHeight roomAttempts minRoomSize maxRoomSize : Int)
    (g : Rng) :
    generateDungeon gridWidth gridHeight roomAttempts minRoomSize maxRoomSize g ≠
      .error Err.outOfFuel := by
  unfold generateDungeon
  split
  · rename_i e he; intro h; injection h with h; subst h
    exact createEmptyDungeon_fuel _ _ he
  · split
    · rename_i e he; intro h; injection h with h; subst h
      exact createRooms_fuel _ _ _ _ _ he
    · split
      · rename_i e he; intro h; injection h with h; subst h
        exact createMaze_fuel _ _ he
      · split
        · rename_i e he; intro h; injection h with h; subst h
          exact identifyEdges_fuel _ he
        · split
          · rename_i e he; intro h; injection h with h; subst h
            exact connectRegions_fuel _ _ he
          · exact trimTunnels_fuel _

/-! ## The empty grid and the single-attempt boundary -/

/-- Claim C13: for width and height at least 1, `createEmptyDungeon` returns a dungeon with the
given width and height whose grid has exactly `height` rows of exactly `width` tiles, every
tile WALL with region 0, an empty room list and `numRegions = 0`. -/
theorem createEmptyDungeon_all_walls (width height : Int) (hw : 1 ≤ width) (hh : 1 ≤ height) :
    ∃ d, createEmptyDungeon width height = .ok d ∧ d.width = width ∧ d.height = height ∧
      (d.tiles.length : Int) = height ∧
      (∀ row ∈ d.tiles, (row.length : Int) = width ∧
        ∀ tile ∈ row, tile = ⟨0, Material.WALL⟩) ∧
      d.rooms = [] ∧ d.numRegions = 0 := by
  have hne : ¬ height < 0 := by omega
  have hne2 : ¬ (0 < height ∧ width < 0) := by omega
  refine ⟨⟨List.replicate height.toNat (List.replicate width.toNat zeroTile), [], width,
    height, 0⟩, by simp only [createEmptyDungeon, hne, hne2, if_false], rfl, rfl, ?_, ?_,
    rfl, rfl⟩
  · simp only [List.length_replicate]
    omega
  · intro row hrow
    simp only at hrow
    rw [List.mem_replicate] at hrow
    rw [hrow.2]
    refine ⟨by simp only [List.length_replicate]; omega, ?_⟩
    intro tile htile
    rw [List.mem_replicate] at htile
    exact htile.2

/-- Witness of `createEmptyDungeon_all_walls` at width 9 and height 7. -/
theorem createEmptyDungeon_all_walls_witness :
    (1 : Int) ≤ 9 ∧ (1 : Int) ≤ 7 ∧
    ∃ d, createEmptyDungeon 9 7 = .ok d ∧ d.width = 9 ∧ d.height = 7 ∧
      (d.tiles.length : Int) = 7 ∧
      (∀ row ∈ d.tiles, (row.length : Int) = 9 ∧
        ∀ tile ∈ row, tile = ⟨0, Material.WALL⟩) ∧
      d.rooms = [] ∧ d.numRegions = 0 :=
  ⟨by decide, by decide, createEmptyDungeon_all_walls 9 7 (by decide) (by decide)⟩

theorem placeRooms_length (gridWidth gridHeight minSize maxSize : Int) :
    ∀ (n : Nat) (rooms : List Room) (g : Rng) (res : List Room × Rng),
      placeRooms gridWidth gridHeight minSize maxSize n rooms g = .ok res →
      res.1.length ≤ rooms.length + n := by
  intro n
  induction n with
  | zero =>
    intro rooms g res h
    simp only [placeRooms, Except.ok.injEq] at h
    subst h; simp
  | succ n ih =>
    intro rooms g res h
    simp only [placeRooms] at h
    split at h
    · cases h
    · split at h
      · cases h
      · split at h
        · cases h
        · split at h
          · cases h
          · split at h
            · have := ih _ _ _ h
              simp only [List.length_append, List.length_singleton] at this
              omega
            · have := ih _ _ _ h
              omega

theorem createMaze_rooms {d : Dungeon} {g : Rng} {res : Dungeon × Rng}
    (h : createMaze d g = .ok res) :
    res.1.rooms = d.rooms ∧ res.1.width = d.width ∧ res.1.height = d.height := by
  unfold createMaze at h
  split at h
  · cases h
  · simp only [Except.ok.injEq] at h
    subst h
    exact ⟨rfl, rfl, rfl⟩

theorem allRoomEdges_length {t : Grid} :
    ∀ (rooms rooms1 : List Room), allRoomEdges t rooms = .ok rooms1 →
      rooms1.length = rooms.length := by
  intro rooms
  induction rooms with
  | nil =>
    intro rooms1 h
    simp only [allRoomEdges, Except.ok.injEq] at h
    subst h; rfl
  | cons r rs ih =>
    intro rooms1 h
    simp only [allRoomEdges] at h
    split at h
    · cases h
    · split at h
      · cases h
      · rename_i q _ qs hqs
        simp only [Except.ok.injEq] at h
        subst h
        simp only [List.length_cons, ih qs hqs]

theorem connectRegions_rooms {d : Dungeon} {g : Rng} {res : Dungeon × Rng}
    (h : connectRegions d g = .ok res) :
    res.1.rooms = d.rooms ∧ res.1.width = d.width ∧ res.1.height = d.height := by
  unfold connectRegions at h
  split at h
  · cases h
  · split at h
    · cases h
    · split at h
      · cases h
      · simp only [Except.ok.injEq] at h
        subst h
        exact ⟨rfl, rfl, rfl⟩

theorem trimTunnels_rooms {d d1 : Dungeon} (h : trimTunnels d = .ok d1) :
    d1.rooms = d.rooms ∧ d1.width = d.width ∧ d1.height = d.height := by
  unfold trimTunnels at h
  split at h
  · cases h
  · simp only [Except.ok.injEq] at h
    subst h
    exact ⟨rfl, rfl, rfl⟩

/-- Rooms of a completed run: their number is bounded by the attempts and each keeps the
position and size given by `createRooms`, hence the margin. -/
theorem generateDungeon_rooms {gridWidth gridHeight roomAttempts minRoomSize maxRoomSize : Int}
    {g : Rng} {d : Dungeon}
    (h : generateDungeon gridWidth gridHeight roomAttempts minRoomSize maxRoomSize g = .ok d) :
    d.rooms.length ≤ roomAttempts.toNat ∧
    ∀ r ∈ d.rooms, r.inMargin gridWidth gridHeight := by
  unfold generateDungeon at h
  cases h0 : createEmptyDungeon gridWidth gridHeight with
  | error e => rw [h0] at h; cases h
  | ok d0 =>
    rw [h0] at h
    simp only at h
    obtain ⟨hw0, hh0, _, _, _⟩ := createEmptyDungeon_spec h0
    cases h1 : createRooms d0 minRoomSize maxRoomSize roomAttempts g with
    | error e => rw [h1] at h; cases h
    | ok r1 =>
      obtain ⟨d1, g1⟩ := r1
      rw [h1] at h
      simp only at h
      obtain ⟨g0, hp⟩ := createRooms_rooms h1
      have hlen := placeRooms_length _ _ _ _ _ _ _ _ hp
      have hmar := placeRooms_induct d0.width d0.height minRoomSize maxRoomSize
        (fun rooms => ∀ r ∈ rooms, r.inMargin d0.width d0.height)
        (by
          intro rooms r hrooms htrial q hq
          rcases List.mem_append.mp hq with hq | hq
          · exact hrooms q hq
          · simp only [List.mem_singleton] at hq
            subst hq; exact htrial.2.1)
        _ _ _ _ hp (by simp)
      simp only [List.length_nil, Nat.zero_add] at hlen hmar
      rw [hw0, hh0] at hmar
      cases h2 : createMaze d1 g1 with
      | error e => rw [h2] at h; cases h
      | ok r2 =>
        obtain ⟨d2, g2⟩ := r2
        rw [h2] at h
        simp only at h
        obtain ⟨hr2, _, _⟩ := createMaze_rooms h2
        cases h3 : identifyEdges d2 with
        | error e => rw [h3] at h; cases h
        | ok d3 =>
          rw [h3] at h
          simp only at h
          cases h4 : connectRegions d3 g2 with
          | error e => rw [h4] at h; cases h
          | ok r4 =>
            obtain ⟨d4, g4⟩ := r4
            rw [h4] at h
            simp only at h
            obtain ⟨hr4, _, _⟩ := connectRegions_rooms h4
            obtain ⟨hr5, _, _⟩ := trimTunnels_rooms h
            simp only at hr2 hr4
            unfold identifyEdges at h3
            cases ha : allRoomEdges d2.tiles d2.rooms with
            | error e => rw [ha] at h3; cases h3
            | ok rooms3 =>
              rw [ha] at h3
              simp only [Except.ok.injEq] at h3
              subst h3
              simp only at hr4
              rw [hr5, hr4]
              refine ⟨?_, ?_⟩
              · rw [allRoomEdges_length _ _ ha, hr2]
                exact hlen
              · intro r hr
                obtain ⟨r0, hr0, hw, hh, hloc⟩ := allRoomEdges_dims _ _ ha r hr
                rw [hr2] at hr0
                have := hmar r0 hr0
                unfold Room.inMargin at this ⊢
                rw [hw, hh, hloc]
                exact this

/-- Claim C12 (as amended): whenever `generateDungeon` with `roomAttempts = 1` completes, the
dungeon it returns has at most one room, and that room keeps three tiles to every edge of
the grid. -/
theorem generateDungeon_single_attempt (gridWidth gridHeight minRoomSize maxRoomSize : Int)
    (g : Rng) (d : Dungeon)
    (h : generateDungeon gridWidth gridHeight 1 minRoomSize maxRoomSize g = .ok d) :
    d.rooms.length ≤ 1 ∧
    ∀ r ∈ d.rooms, 3 ≤ r.location.x ∧ 3 ≤ r.location.y ∧
      r.location.x + r.width ≤ gridWidth - 3 ∧ r.location.y + r.height ≤ gridHeight - 3 := by
  obtain ⟨h1, h2⟩ := generateDungeon_rooms h
  exact ⟨h1, h2⟩

/-- Witness of `generateDungeon_single_attempt`: an 8 × 8 run with one attempt, ending with
one room. -/
theorem generateDungeon_single_attempt_witness :
    completes (generateDungeon 8 8 1 2 3 zeroRng) = true ∧
    sampleOneAttempt.rooms.length = 1 ∧
    ∀ r ∈ sampleOneAttempt.rooms, 3 ≤ r.location.x ∧ 3 ≤ r.location.y ∧
      r.location.x + r.width ≤ 8 - 3 ∧ r.location.y + r.height ≤ 8 - 3 :=
  ⟨by decide, by decide,
    (generateDungeon_single_attempt 8 8 2 3 zeroRng sampleOneAttempt
      (eq_ok_okOr _ (by decide))).2⟩

theorem generateDungeon_20_19_fails (g : Rng) :
    generateDungeon 20 20 1 19 20 g = .error Err.intnNonPositive := by
  have h1 : ∀ k : Nat, ((k : Int) % (20 - 19)) = 0 := by intro k; omega
  simp [generateDungeon, createEmptyDungeon, createRooms, placeRooms, Rng.intn, h1]

/-- Claim C12 (refuted as stated): `generateDungeon` with gridWidth = gridHeight = 20,
roomAttempts = 1, minRoomSize = 19 and maxRoomSize = 20 completes for no sequence of random
draws: the room width is 19, so `rand.Intn(maxX - 3)` is `rand.Intn(-4)`. -/
theorem generateDungeon_boundary_never_completes :
    generateDungeon 20 20 1 19 20 zeroRng = .error Err.intnNonPositive ∧
    ¬ ∃ g : Rng, completes (generateDungeon 20 20 1 19 20 g) = true :=
  ⟨generateDungeon_20_19_fails zeroRng, fun ⟨g, hg⟩ => by
    rw [generateDungeon_20_19_fails g] at hg
    cases hg⟩

/-! ## Input validation -/

theorem parseIntOption_cases (atoi : String → Option Int) (option : List String)
    (defaultValue min max : Int) :
    parseIntOption atoi option defaultValue min max = defaultValue ∨
    (min ≤ parseIntOption atoi option defaultValue min max ∧
      parseIntOption atoi option defaultValue min max ≤ max) := by
  unfold parseIntOption
  split
  · left; rfl
  · split
    · left; rfl
    · split
      · left; rfl
      · right; omega

/-- What the handler does guarantee about the room sizes: the minimum lies in
`[1, min(width, height) - 2]`, and the maximum is either a supplied value in
`[minRoomSize, min(width, height) - 2]` or the default `minRoomSize + 1`. -/
theorem handlerConfig_bounds (atoi : String → Option Int) (q : Query) :
    20 ≤ (handlerConfig atoi q).width ∧ (handlerConfig atoi q).width ≤ 1000 ∧
    20 ≤ (handlerConfig atoi q).height ∧ (handlerConfig atoi q).height ≤ 1000 ∧
    1 ≤ (handlerConfig atoi q).minRoomSize ∧
    (handlerConfig atoi q).minRoomSize ≤
      min (handlerConfig atoi q).width (handlerConfig atoi q).height - 2 ∧
    (handlerConfig atoi q).minRoomSize ≤ (handlerConfig atoi q).maxRoomSize ∧
    (handlerConfig atoi q).maxRoomSize ≤
      min (handlerConfig atoi q).width (handlerConfig atoi q).height - 1 := by
  simp only [handlerConfig]
  have hw := parseIntOption_cases atoi q.dungeonWidth 50 20 1000
  have hh := parseIntOption_cases atoi q.dungeonHeight 50 20 1000
  generalize parseIntOption atoi q.dungeonWidth 50 20 1000 = w at *
  generalize parseIntOption atoi q.dungeonHeight 50 20 1000 = h at *
  have hmin := parseIntOption_cases atoi q.minRoomSize 5 1 (min (w - 2) (h - 2))
  generalize parseIntOption atoi q.minRoomSize 5 1 (min (w - 2) (h - 2)) = mn at *
  have hmax := parseIntOption_cases atoi q.maxRoomSize (mn + 1) mn (min (w - 2) (h - 2))
  generalize parseIntOption atoi q.maxRoomSize (mn + 1) mn (min (w - 2) (h - 2)) = mx at *
  omega

theorem generateDungeon_equal_sizes_fails (g : Rng) :
    generateDungeon 50 50 200 5 5 g = .error Err.intnNonPositive := by
  simp [generateDungeon, createEmptyDungeon, createRooms, placeRooms, Rng.intn]

/-- Claim C14 (refuted on the code): for the query `maxRoomSize=5` the handler yields
minRoomSize = 5 and maxRoomSize = 5, below `minRoomSize + 1`, and `generateDungeon` then panics
on `rand.Intn(0)`; for `dungeonWidth=20&dungeonHeight=20&minRoomSize=18` it yields
maxRoomSize = 19, above `min(width, height) - 2 = 18`. -/
theorem handlerConfig_maxRoomSize_escapes :
    handlerConfig decimalAtoi queryEqualSizes = ⟨50, 50, 200, 5, 5, 10⟩ ∧
    generateDungeon 50 50 200 5 5 zeroRng = .error Err.intnNonPositive ∧
    handlerConfig decimalAtoi queryLargeMin = ⟨20, 20, 200, 18, 19, 10⟩ :=
  ⟨by decide, generateDungeon_equal_sizes_fails zeroRng, by decide⟩

/-! ## The order of the residual phase -/

theorem permLoop_length :
    ∀ (k i : Nat) (m : List Int) (g : Rng) (res : List Int × Rng),
      permLoop k i m g = .ok res → res.1.length = m.length := by
  intro k
  induction k with
  | zero =>
    intro i m g res h
    simp only [permLoop, Except.ok.injEq] at h
    subst h; rfl
  | succ k ih =>
    intro i m g res h
    simp only [permLoop] at h
    split at h
    · cases h
    · have := ih _ _ _ _ h
      simpa using this

/-- The permutation drawn by `rand.Perm n` has `n` entries, so a loop ranging over it runs
with the indices `0, ..., n - 1`. -/
theorem Rng.perm_length {g : Rng} {n : Nat} {res : List Int × Rng}
    (h : g.perm n = .ok res) : List.range res.1.length = List.range n := by
  unfold Rng.perm at h
  rw [permLoop_length _ _ _ _ _ h, List.length_replicate]

/-- Claim C16 (refuted on the code): in a 9 × 7 run with two rooms the room permutation drawn
in the residual phase is [1, 0], yet `connectRegions` visits room 0 first and makes its door
at (5, 2), an edge of room 0, leaving (2, 3) WALL; visiting the rooms and edges in the order
of the permutation values makes the door at (2, 3), an edge of room 1, and leaves (5, 2) WALL. -/
theorem connectRegions_ignores_permutation :
    completes (stagesToEdges 9 7 2 1 2 (polyRng 2 0 0 3)) = true ∧
    sampleOrderStage.1.rooms.map (fun r => r.location) = [⟨5, 3⟩, ⟨3, 3⟩] ∧
    (okOr (sampleOrderPrimary.2.perm 2) ([], zeroRng)).1 = [1, 0] ∧
    completes (connectRegions sampleOrderStage.1 sampleOrderStage.2) = true ∧
    sampleOrderCode.tiles.material 5 2 = .ok Material.DOOR ∧
    sampleOrderCode.tiles.material 2 3 = .ok Material.WALL ∧
    completes (connectRegionsInPermOrder sampleOrderStage.1 sampleOrderStage.2) = true ∧
    sampleOrderSpec.tiles.material 5 2 = .ok Material.WALL ∧
    sampleOrderSpec.tiles.material 2 3 = .ok Material.DOOR := by
  decide

/-! ## The primary phase on one room -/

theorem readTiles_ok {t : Grid} :
    ∀ (ps : List (Int × Int)), (∀ p ∈ ps, ∃ tile, t.get p.1 p.2 = .ok tile) →
      ∃ ns, readTiles t ps = .ok ns := by
  intro ps
  induction ps with
  | nil => intro _; exact ⟨[], rfl⟩
  | cons p ps ih =>
    intro h
    obtain ⟨x, y⟩ := p
    obtain ⟨tile, ht⟩ := h (x, y) (List.mem_cons_self _ _)
    obtain ⟨ns, hns⟩ := ih (fun q hq => h q (List.mem_cons_of_mem _ hq))
    simp only at ht
    exact ⟨tile :: ns, by simp only [readTiles, ht, hns]⟩

theorem fillColumn_ok {f : Tile → Tile} {i : Int} :
    ∀ (ys : List Int) (t : Grid), (∀ py ∈ ys, ∃ tile, t.get i py = .ok tile) →
      ∃ t1, forEachM (fun j t0 => Grid.modify t0 i j f) ys t = .ok t1 := by
  intro ys
  induction ys with
  | nil => intro t _; exact ⟨t, rfl⟩
  | cons j ys ih =>
    intro t h
    obtain ⟨tile, ht⟩ := h j (List.mem_cons_self _ _)
    obtain ⟨t2, hm⟩ := Grid.modify_of_get f ht
    obtain ⟨t1, h1⟩ := ih t2 (fun py hpy =>
      (Grid.modify_defined hm i py).mpr (h py (List.mem_cons_of_mem _ hpy)))
    exact ⟨t1, by simp only [forEachM, hm, h1]⟩

theorem fillRect_ok {f : Tile → Tile} {ys : List Int} :
    ∀ (xs : List Int) (t : Grid), (∀ px ∈ xs, ∀ py ∈ ys, ∃ tile, t.get px py = .ok tile) →
      ∃ t1, forEachM (fun i t0 => forEachM (fun j t2 => Grid.modify t2 i j f) ys t0) xs t =
        .ok t1 := by
  intro xs
  induction xs with
  | nil => intro t _; exact ⟨t, rfl⟩
  | cons i xs ih =>
    intro t h
    obtain ⟨t2, hc⟩ := fillColumn_ok (f := f) ys t (h i (List.mem_cons_self _ _))
    obtain ⟨c1, _⟩ := fillColumn_defined hc
    obtain ⟨t1, h1⟩ := ih t2 (fun px hpx py hpy =>
      (c1 px py).mpr (h px (List.mem_cons_of_mem _ hpx) py hpy))
    exact ⟨t1, by simp only [forEachM, hc, h1]⟩

theorem around8_readable {t : Grid} {gridWidth gridHeight : Int} {e : Point}
    (hs : t.HasSize gridWidth gridHeight)
    (he : 1 ≤ e.x ∧ e.x ≤ gridWidth - 2 ∧ 1 ≤ e.y ∧ e.y ≤ gridHeight - 2) :
    ∀ p ∈ around8 e, ∃ tile, t.get p.1 p.2 = .ok tile := by
  intro p hp
  simp only [around8, List.mem_cons, List.mem_singleton, List.not_mem_nil, or_false] at hp
  rcases hp with rfl | rfl | rfl | rfl | rfl | rfl | rfl | rfl <;>
    exact (hs _ _).mpr ⟨by simp only; omega, by simp only; omega, by simp only; omega,
      by simp only; omega⟩

/-- Claim C15: in the primary phase of `connectRegions`, for a room inside the grid and its
drawn edge `e` not on the grid border, let `ns` be the tiles of the eight neighbours of `e`
in the order NW, N, NE, W, E, SW, S, SE. If some tile of `ns` is FLOOR or TUNNEL with a
region different from the region read at the room's top-left tile, then with `n` the first
such tile, the material of `e` becomes DOOR, every tile of the room's footprint takes the
region of `n`, and nothing else changes; if no neighbour qualifies, the grid is unchanged. -/
theorem primaryStep_effect (room : Room) (t : Grid) (g : Rng) (gridWidth gridHeight : Int)
    (draw : Int × Rng) (e : Point) (corner : Tile)
    (hs : t.HasSize gridWidth gridHeight)
    (hroom : 0 ≤ room.location.x ∧ room.location.x + room.width ≤ gridWidth ∧
      0 ≤ room.location.y ∧ room.location.y + room.height ≤ gridHeight)
    (hdraw : g.intn room.edges.length = .ok draw)
    (hedge : room.edges[draw.1.toNat]? = some e)
    (he : 1 ≤ e.x ∧ e.x ≤ gridWidth - 2 ∧ 1 ≤ e.y ∧ e.y ≤ gridHeight - 2)
    (hcorner : t.get room.location.x room.location.y = .ok corner) :
    ∃ t1 ns, primaryStep room (t, g) = .ok (t1, draw.2) ∧
      readTiles t (around8 e) = .ok ns ∧
      ((∀ n ∈ ns, qualifies corner.region n = false) → t1 = t) ∧
      (∀ n, ns.find? (qualifies corner.region) = some n →
        ∀ (px py : Int) (tile : Tile), t.get px py = .ok tile →
          t1.get px py = .ok
            ⟨if room.covers px py then n.region else tile.region,
             if px = e.x ∧ py = e.y then Material.DOOR else tile.material⟩) := by
  obtain ⟨k, g1⟩ := draw
  simp only at hedge
  obtain ⟨ns, hns⟩ := readTiles_ok (around8 e) (around8_readable hs he)
  cases hf : ns.find? (qualifies corner.region) with
  | none =>
    refine ⟨t, ns, ?_, hns, fun _ => rfl, fun n hn => by rw [hf] at hn; cases hn⟩
    simp only [primaryStep, hdraw, hedge, hcorner, hns, hf]
  | some n =>
    obtain ⟨old, hold⟩ := (hs e.x e.y).mpr ⟨by omega, by omega, by omega, by omega⟩
    obtain ⟨td, hd⟩ := Grid.modify_of_get (fun tile => ⟨tile.region, Material.DOOR⟩) hold
    have hread : ∀ px ∈ intRange room.location.x (room.location.x + room.width),
        ∀ py ∈ intRange room.location.y (room.location.y + room.height),
        ∃ tile, td.get px py = .ok tile := by
      intro px hpx py hpy
      rw [mem_intRange] at hpx hpy
      rw [Grid.modify_defined hd px py]
      exact (hs px py).mpr ⟨by omega, by omega, by omega, by omega⟩
    obtain ⟨t1, h1⟩ := fillRect_ok (f := fun tile => ⟨n.region, tile.material⟩) _ td hread
    refine ⟨t1, ns, ?_, hns, ?_, ?_⟩
    · simp only [primaryStep, hdraw, hedge, hcorner, hns, hf, setDoor, hd, relabelRoom, h1]
    · intro hall
      have := List.find?_some hf
      rw [hall n (List.mem_of_find?_eq_some hf)] at this
      cases this
    · intro n1 hn1 px py tile hget
      rw [hf] at hn1
      injection hn1 with hn1
      subst hn1
      rw [fillRect_get (intRange_nodup _ _) (intRange_nodup _ _) h1 px py, Grid.get_modify hd]
      simp only [mem_intRange, hold]
      have hcov : (room.location.x ≤ px ∧ px < room.location.x + room.width) ∧
          (room.location.y ≤ py ∧ py < room.location.y + room.height) ↔ room.covers px py := by
        unfold Room.covers
        constructor
        · rintro ⟨⟨a, b⟩, c, d⟩; exact ⟨a, b, c, d⟩
        · rintro ⟨a, b, c, d⟩; exact ⟨⟨a, b⟩, c, d⟩
      by_cases hc : room.covers px py
      · rw [if_pos (hcov.mpr hc), if_pos hc]
        by_cases hxy : px = e.x ∧ py = e.y
        · rw [if_pos hxy, if_pos hxy]
          obtain ⟨rfl, rfl⟩ := hxy
          rfl
        · rw [if_neg hxy, if_neg hxy, hget]
          rfl
      · rw [if_neg (fun h => hc (hcov.mp h)), if_neg hc]
        by_cases hxy : px = e.x ∧ py = e.y
        · rw [if_pos hxy, if_pos hxy]
          obtain ⟨rfl, rfl⟩ := hxy
          rw [hold] at hget
          cases hget
          rfl
        · rw [if_neg hxy, if_neg hxy, hget]

theorem sampleOrder_hasSize : sampleOrderStage.1.tiles.HasSize 9 7 :=
  Grid.hasSize_of_rect (w := 9) (h := 7) (by decide)

/-- Witness of `primaryStep_effect`: the first room of a 9 × 7 run, whose drawn edge (4, 3)
has the other room's tile (3, 3) as first qualifying neighbour. -/
theorem primaryStep_effect_witness :
    sampleOrderStage.1.rooms[0]? = some sampleOrderRoom ∧
    sampleOrderStage.2.intn sampleOrderRoom.edges.length = .ok sampleOrderDraw ∧
    sampleOrderRoom.edges[sampleOrderDraw.1.toNat]? = some ⟨4, 3⟩ ∧
    sampleOrderStage.1.tiles.get 5 3 = .ok ⟨1, Material.FLOOR⟩ ∧
    ∃ t1 ns, primaryStep sampleOrderRoom (sampleOrderStage.1.tiles, sampleOrderStage.2) =
        .ok (t1, sampleOrderDraw.2) ∧
      readTiles sampleOrderStage.1.tiles (around8 ⟨4, 3⟩) = .ok ns ∧
      ((∀ n ∈ ns, qualifies 1 n = false) → t1 = sampleOrderStage.1.tiles) ∧
      (∀ n, ns.find? (qualifies 1) = some n →
        ∀ (px py : Int) (tile : Tile), sampleOrderStage.1.tiles.get px py = .ok tile →
          t1.get px py = .ok
            ⟨if sampleOrderRoom.covers px py then n.region else tile.region,
             if px = 4 ∧ py = 3 then Material.DOOR else tile.material⟩) :=
  ⟨by decide, eq_ok_okOr _ (by decide), by decide, by decide,
    primaryStep_effect sampleOrderRoom sampleOrderStage.1.tiles sampleOrderStage.2 9 7
      sampleOrderDraw ⟨4, 3⟩ ⟨1, Material.FLOOR⟩ sampleOrder_hasSize (by decide)
      (eq_ok_okOr _ (by decide)) (by decide) (by decide) (by decide)⟩

/-! ## Candidates of a maze cell -/

theorem allWall_eq {t : Grid} :
    ∀ (ps : List (Int × Int)), (∀ q ∈ ps, ∃ tile, t.get q.1 q.2 = .ok tile) →
      allWall t ps = .ok (ps.all t.wallXY) := by
  intro ps
  induction ps with
  | nil => intro _; rfl
  | cons q ps ih =>
    intro h
    obtain ⟨x, y⟩ := q
    obtain ⟨tile, ht⟩ := h (x, y) (List.mem_cons_self _ _)
    simp only at ht
    have hm : t.material x y = .ok tile.material := by simp [Grid.material, ht]
    simp only [allWall, hm, List.all_cons]
    by_cases hw : tile.material = Material.WALL
    · have h1 : t.wallXY (x, y) = true := by simp [Grid.wallXY, Grid.wallAt, ht, hw]
      rw [if_pos hw, ih (fun q hq => h q (List.mem_cons_of_mem _ hq)), h1, Bool.true_and]
    · have h1 : t.wallXY (x, y) = false := by simp [Grid.wallXY, Grid.wallAt, ht, hw]
      rw [if_neg hw, h1, Bool.false_and]

theorem tryDirection_eq {t : Grid} {bound : Bool} {px py : Int} {look : Except Err Bool}
    {lk : Bool} (acc : List Point)
    (hread : bound = true → ∃ tile, t.get px py = .ok tile)
    (hlook : bound = true → look = .ok lk) :
    tryDirection t bound px py look acc =
      .ok (acc ++ if (bound && t.wallAt ⟨px, py⟩ && lk) = true then [⟨px, py⟩] else []) := by
  unfold tryDirection
  cases bound with
  | false => simp
  | true =>
    obtain ⟨tile, ht⟩ := hread rfl
    have hm : t.material px py = .ok tile.material := by simp [Grid.material, ht]
    rw [hlook rfl]
    simp only [if_true, hm, Bool.true_and]
    by_cases hw : tile.material = Material.WALL
    · have h1 : t.wallAt ⟨px, py⟩ = true := by simp [Grid.wallAt, ht, hw]
      rw [if_pos hw, h1, Bool.true_and]
      cases lk <;> simp
    · have h1 : t.wallAt ⟨px, py⟩ = false := by simp [Grid.wallAt, ht, hw]
      rw [if_neg hw, h1]
      simp

theorem getValidTiles_eq {t : Grid} {width height x y : Int}
    (hs : t.HasSize width height)
    (hx1 : 1 ≤ x) (hx2 : x ≤ width - 2) (hy1 : 1 ≤ y) (hy2 : y ≤ height - 2) :
    getValidTiles t width height x y = .ok (candidates t width height x y) := by
  have rd : ∀ a b : Int, 0 ≤ a → a < width → 0 ≤ b → b < height →
      ∃ tile, t.get a b = .ok tile := fun a b h1 h2 h3 h4 => (hs a b).mpr ⟨h1, h2, h3, h4⟩
  unfold getValidTiles
  rw [@tryDirection_eq t (decide (x - 2 ≥ 0)) (x - 1) y (lookDown t x y)
    ((lookDownCells x y).all t.wallXY) []
    (fun hb => rd _ _ (by simp at hb; omega) (by omega) (by omega) (by omega))
    (fun hb => allWall_eq _ (by
      have hb' : x - 2 ≥ 0 := by simpa using hb
      intro q hq
      simp only [lookDownCells, List.mem_cons, List.mem_singleton, List.not_mem_nil,
        or_false] at hq
      rcases hq with rfl | rfl | rfl | rfl | rfl <;>
        exact rd _ _ (by simp only; omega) (by simp only; omega) (by simp only; omega)
          (by simp only; omega)))]
  simp only
  rw [@tryDirection_eq t (decide (x + 2 < width)) (x + 1) y (lookUp t x y)
    ((lookUpCells x y).all t.wallXY) _
    (fun hb => rd _ _ (by omega) (by simp at hb; omega) (by omega) (by omega))
    (fun hb => allWall_eq _ (by
      have hb' : x + 2 < width := by simpa using hb
      intro q hq
      simp only [lookUpCells, List.mem_cons, List.mem_singleton, List.not_mem_nil,
        or_false] at hq
      rcases hq with rfl | rfl | rfl | rfl | rfl <;>
        exact rd _ _ (by simp only; omega) (by simp only; omega) (by simp only; omega)
          (by simp only; omega)))]
  simp only
  rw [@tryDirection_eq t (decide (y - 2 ≥ 0)) x (y - 1) (lookLeft t x y)
    ((lookLeftCells x y).all t.wallXY) _
    (fun hb => rd _ _ (by omega) (by omega) (by simp at hb; omega) (by omega))
    (fun hb => allWall_eq _ (by
      have hb' : y - 2 ≥ 0 := by simpa using hb
      intro q hq
      simp only [lookLeftCells, List.mem_cons, List.mem_singleton, List.not_mem_nil,
        or_false] at hq
      rcases hq with rfl | rfl | rfl | rfl | rfl <;>
        exact rd _ _ (by simp only; omega) (by simp only; omega) (by simp only; omega)
          (by simp only; omega)))]
  simp only
  rw [@tryDirection_eq t (decide (y + 2 < height)) x (y + 1) (lookRight t x y)
    ((lookRightCells x y).all t.wallXY) _
    (fun hb => rd _ _ (by omega) (by omega) (by omega) (by simp at hb; omega))
    (fun hb => allWall_eq _ (by
      have hb' : y + 2 < height := by simpa using hb
      intro q hq
      simp only [lookRightCells, List.mem_cons, List.mem_singleton, List.not_mem_nil,
        or_false] at hq
      rcases hq with rfl | rfl | rfl | rfl | rfl <;>
        exact rd _ _ (by simp only; omega) (by simp only; omega) (by simp only; omega)
          (by simp only; omega)))]
  simp only [candidates, leftOk, rightOk, upOk, downOk, List.nil_append]

theorem wallAt_iff {t : Grid} {p : Point} :
    t.wallAt p = true ↔ ∃ tile, t.get p.x p.y = .ok tile ∧ tile.material = Material.WALL := by
  unfold Grid.wallAt
  cases h : t.get p.x p.y with
  | error e => simp
  | ok tile => simp

theorem mem_candidates {t : Grid} {width height x y : Int} {p : Point} :
    p ∈ candidates t width height x y ↔
      (p = ⟨x - 1, y⟩ ∧ leftOk t x y = true) ∨ (p = ⟨x + 1, y⟩ ∧ rightOk t width x y = true) ∨
      (p = ⟨x, y - 1⟩ ∧ upOk t x y = true) ∨ (p = ⟨x, y + 1⟩ ∧ downOk t height x y = true) := by
  unfold candidates
  simp only [List.mem_append]
  constructor
  · rintro (((h | h) | h) | h)
    · split at h
      · simp only [List.mem_singleton] at h; exact Or.inl ⟨h, by assumption⟩
      · cases h
    · split at h
      · simp only [List.mem_singleton] at h; exact Or.inr (Or.inl ⟨h, by assumption⟩)
      · cases h
    · split at h
      · simp only [List.mem_singleton] at h; exact Or.inr (Or.inr (Or.inl ⟨h, by assumption⟩))
      · cases h
    · split at h
      · simp only [List.mem_singleton] at h; exact Or.inr (Or.inr (Or.inr ⟨h, by assumption⟩))
      · cases h
  · rintro (⟨h1, h2⟩ | ⟨h1, h2⟩ | ⟨h1, h2⟩ | ⟨h1, h2⟩)
    · left; left; left; simp [h1, h2]
    · left; left; right; simp [h1, h2]
    · left; right; simp [h1, h2]
    · right; simp [h1, h2]

theorem leftOk_iff {t : Grid} {x y : Int} :
    leftOk t x y = true ↔ x - 2 ≥ 0 ∧ t.wallAt ⟨x - 1, y⟩ = true ∧
      ∀ q ∈ lookDownCells x y, t.wallXY q = true := by
  simp only [leftOk, Bool.and_eq_true, decide_eq_true_eq, List.all_eq_true, and_assoc]

theorem rightOk_iff {t : Grid} {width x y : Int} :
    rightOk t width x y = true ↔ x + 2 < width ∧ t.wallAt ⟨x + 1, y⟩ = true ∧
      ∀ q ∈ lookUpCells x y, t.wallXY q = true := by
  simp only [rightOk, Bool.and_eq_true, decide_eq_true_eq, List.all_eq_true, and_assoc]

theorem upOk_iff {t : Grid} {x y : Int} :
    upOk t x y = true ↔ y - 2 ≥ 0 ∧ t.wallAt ⟨x, y - 1⟩ = true ∧
      ∀ q ∈ lookLeftCells x y, t.wallXY q = true := by
  simp only [upOk, Bool.and_eq_true, decide_eq_true_eq, List.all_eq_true, and_assoc]

theorem downOk_iff {t : Grid} {height x y : Int} :
    downOk t height x y = true ↔ y + 2 < height ∧ t.wallAt ⟨x, y + 1⟩ = true ∧
      ∀ q ∈ lookRightCells x y, t.wallXY q = true := by
  simp only [downOk, Bool.and_eq_true, decide_eq_true_eq, List.all_eq_true, and_assoc]

/-- A candidate of `(x, y)` is an orthogonal neighbour that is WALL, and its eight neighbours
are WALL except possibly `(x, y)` and the two neighbours of `(x, y)` across the direction of
travel. -/
theorem candidate_walled {t : Grid} {width height x y : Int} {p : Point}
    (hp : p ∈ candidates t width height x y) :
    p ∈ around4 x y ∧ t.wallAt p = true ∧
    ∀ q ∈ around8 p, q ≠ (x, y) → q ≠ (x + (p.y - y), y + (p.x - x)) →
      q ≠ (x - (p.y - y), y - (p.x - x)) → t.wallXY q = true := by
  rcases mem_candidates.mp hp with ⟨rfl, h⟩ | ⟨rfl, h⟩ | ⟨rfl, h⟩ | ⟨rfl, h⟩
  · obtain ⟨_, hw, hl⟩ := leftOk_iff.mp h
    refine ⟨by simp [around4], hw, ?_⟩
    intro q hq h1 h2 h3
    dsimp only at h2 h3
    simp only [around8, List.mem_cons, List.mem_singleton, List.not_mem_nil, or_false] at hq
    rcases hq with rfl | rfl | rfl | rfl | rfl | rfl | rfl | rfl <;>
      first
      | (refine hl _ ?_
         simp only [lookDownCells, List.mem_cons, List.mem_singleton, Prod.mk.injEq,
           List.not_mem_nil, or_false, and_true, true_and, or_true, true_or] <;> omega)
      | (exfalso; apply h1; simp only [Prod.mk.injEq, and_true, true_and]; omega)
      | (exfalso; apply h2; simp only [Prod.mk.injEq, and_true, true_and]; omega)
      | (exfalso; apply h3; simp only [Prod.mk.injEq, and_true, true_and]; omega)
  · obtain ⟨_, hw, hl⟩ := rightOk_iff.mp h
    refine ⟨by simp [around4], hw, ?_⟩
    intro q hq h1 h2 h3
    dsimp only at h2 h3
    simp only [around8, List.mem_cons, List.mem_singleton, List.not_mem_nil, or_false] at hq
    rcases hq with rfl | rfl | rfl | rfl | rfl | rfl | rfl | rfl <;>
      first
      | (refine hl _ ?_
         simp only [lookUpCells, List.mem_cons, List.mem_singleton, Prod.mk.injEq,
           List.not_mem_nil, or_false, and_true, true_and, or_true, true_or] <;> omega)
      | (exfalso; apply h1; simp only [Prod.mk.injEq, and_true, true_and]; omega)
      | (exfalso; apply h2; simp only [Prod.mk.injEq, and_true, true_and]; omega)
      | (exfalso; apply h3; simp only [Prod.mk.injEq, and_true, true_and]; omega)
  · obtain ⟨_, hw, hl⟩ := upOk_iff.mp h
    refine ⟨by simp [around4], hw, ?_⟩
    intro q hq h1 h2 h3
    dsimp only at h2 h3
    simp only [around8, List.mem_cons, List.mem_singleton, List.not_mem_nil, or_false] at hq
    rcases hq with rfl | rfl | rfl | rfl | rfl | rfl | rfl | rfl <;>
      first
      | (refine hl _ ?_
         simp only [lookLeftCells, List.mem_cons, List.mem_singleton, Prod.mk.injEq,
           List.not_mem_nil, or_false, and_true, true_and, or_true, true_or] <;> omega)
      | (exfalso; apply h1; simp only [Prod.mk.injEq, and_true, true_and]; omega)
      | (exfalso; apply h2; simp only [Prod.mk.injEq, and_true, true_and]; omega)
      | (exfalso; apply h3; simp only [Prod.mk.injEq, and_true, true_and]; omega)
  · obtain ⟨_, hw, hl⟩ := downOk_iff.mp h
    refine ⟨by simp [around4], hw, ?_⟩
    intro q hq h1 h2 h3
    dsimp only at h2 h3
    simp only [around8, List.mem_cons, List.mem_singleton, List.not_mem_nil, or_false] at hq
    rcases hq with rfl | rfl | rfl | rfl | rfl | rfl | rfl | rfl <;>
      first
      | (refine hl _ ?_
         simp only [lookRightCells, List.mem_cons, List.mem_singleton, Prod.mk.injEq,
           List.not_mem_nil, or_false, and_true, true_and, or_true, true_or] <;> omega)
      | (exfalso; apply h1; simp only [Prod.mk.injEq, and_true, true_and]; omega)
      | (exfalso; apply h2; simp only [Prod.mk.injEq, and_true, true_and]; omega)
      | (exfalso; apply h3; simp only [Prod.mk.injEq, and_true, true_and]; omega)

theorem candidate_orthogonal_walled {t : Grid} {width height x y : Int} {p : Point}
    (hp : p ∈ candidates t width height x y) :
    ∀ q ∈ around4 p.x p.y, q ≠ ⟨x, y⟩ → t.wallAt q = true := by
  obtain ⟨hadj, _, hall⟩ := candidate_walled hp
  intro q hq hne
  have hq8 : (q.x, q.y) ∈ around8 p := by
    simp only [around4, List.mem_cons, List.mem_singleton, List.not_mem_nil, or_false] at hq
    simp only [around8, List.mem_cons, List.mem_singleton, Prod.mk.injEq, List.not_mem_nil,
      or_false]
    rcases hq with rfl | rfl | rfl | rfl <;> simp
  have hne' : q.x ≠ x ∨ q.y ≠ y := by
    by_cases hx : q.x = x
    · right
      intro hy
      apply hne
      cases q
      simp only at hx hy
      rw [hx, hy]
    · left; exact hx
  simp only [around4, List.mem_cons, List.mem_singleton, List.not_mem_nil, or_false] at hadj hq
  have key := hall (q.x, q.y) hq8
    (by simp only [ne_eq, Prod.mk.injEq]; omega)
    (by
      simp only [ne_eq, Prod.mk.injEq]
      rcases hadj with rfl | rfl | rfl | rfl <;> rcases hq with rfl | rfl | rfl | rfl <;>
        simp only <;> omega)
    (by
      simp only [ne_eq, Prod.mk.injEq]
      rcases hadj with rfl | rfl | rfl | rfl <;> rcases hq with rfl | rfl | rfl | rfl <;>
        simp only <;> omega)
  exact key

/-- Claim C17: for a grid of `width × height` tiles and an interior cell `(x, y)`,
`getValidTiles` returns, and every point `p` it returns is a WALL tile orthogonally adjacent
to `(x, y)`; each of the eight neighbours of `p` other than `(x, y)` and the two neighbours
of `(x, y)` across the direction of travel is WALL; hence every orthogonal neighbour of `p`
other than `(x, y)` is WALL. -/
theorem getValidTiles_walled (t : Grid) (width height x y : Int)
    (hs : t.HasSize width height)
    (hx1 : 1 ≤ x) (hx2 : x ≤ width - 2) (hy1 : 1 ≤ y) (hy2 : y ≤ height - 2) :
    ∃ res, getValidTiles t width height x y = .ok res ∧
      ∀ p ∈ res,
        p ∈ around4 x y ∧
        (∃ tile, t.get p.x p.y = .ok tile ∧ tile.material = Material.WALL) ∧
        (∀ q ∈ around8 p, q ≠ (x, y) → q ≠ (x + (p.y - y), y + (p.x - x)) →
          q ≠ (x - (p.y - y), y - (p.x - x)) →
          ∃ tile, t.get q.1 q.2 = .ok tile ∧ tile.material = Material.WALL) ∧
        (∀ q ∈ around4 p.x p.y, q ≠ ⟨x, y⟩ →
          ∃ tile, t.get q.x q.y = .ok tile ∧ tile.material = Material.WALL) := by
  refine ⟨_, getValidTiles_eq hs hx1 hx2 hy1 hy2, ?_⟩
  intro p hp
  obtain ⟨h1, h2, h3⟩ := candidate_walled hp
  refine ⟨h1, wallAt_iff.mp h2, ?_, ?_⟩
  · intro q hq a b c
    exact wallAt_iff.mp (h3 q hq a b c)
  · intro q hq a
    exact wallAt_iff.mp (candidate_orthogonal_walled hp q hq a)

/-! ## Maze carving: termination and effect -/

theorem candidate_interior {t : Grid} {width height x y : Int} {p : Point}
    (hp : p ∈ candidates t width height x y)
    (hx1 : 1 ≤ x) (hx2 : x ≤ width - 2) (hy1 : 1 ≤ y) (hy2 : y ≤ height - 2) :
    1 ≤ p.x ∧ p.x ≤ width - 2 ∧ 1 ≤ p.y ∧ p.y ≤ height - 2 := by
  rcases mem_candidates.mp hp with ⟨rfl, h⟩ | ⟨rfl, h⟩ | ⟨rfl, h⟩ | ⟨rfl, h⟩
  · have := (leftOk_iff.mp h).1
    simp only; omega
  · have := (rightOk_iff.mp h).1
    simp only; omega
  · have := (upOk_iff.mp h).1
    simp only; omega
  · have := (downOk_iff.mp h).1
    simp only; omega

theorem candidate_carve {t : Grid} {width height x y : Int} {p : Point} (region : Int)
    (hs : t.HasSize width height) (hp : p ∈ candidates t width height x y) :
    ∃ t1, carveTunnel t p region = .ok t1 ∧ t1.HasSize width height ∧
      countWall t1 + 1 = countWall t := by
  obtain ⟨tile, hg, hw⟩ := wallAt_iff.mp (candidate_walled hp).2.1
  obtain ⟨t1, hm⟩ := Grid.modify_of_get (fun _ => ⟨region, Material.TUNNEL⟩) hg
  refine ⟨t1, hm, ?_, countWall_carve hm hg hw⟩
  intro a b
  rw [Grid.modify_defined hm a b]
  exact hs a b

theorem continueMaze_run {width height region : Int} :
    ∀ (fuel : Nat) (t : Grid) (g : Rng) (x y : Int),
      t.HasSize width height → 1 ≤ x → x ≤ width - 2 → 1 ≤ y → y ≤ height - 2 →
      countWall t < fuel →
      ∃ res, continueMaze width height region fuel t g x y = .ok res ∧
        MazeRun width height region t x y res.1 ∧ res.1.HasSize width height ∧
        countWall res.1 ≤ countWall t := by
  intro fuel
  induction fuel with
  | zero => intro t g x y _ _ _ _ _ h; omega
  | succ fuel ih =>
    intro t g x y hs hx1 hx2 hy1 hy2 hfuel
    have hv := getValidTiles_eq hs hx1 hx2 hy1 hy2
    have tail : ∀ (g0 : Rng) (p : Point), p ∈ candidates t width height x y →
        ∃ res,
          (match carveTunnel t p region with
            | .error e => (Except.error e : Except Err (Grid × Rng))
            | .ok t1 =>
              match continueMaze width height region fuel t1 g0 p.x p.y with
              | .error e => .error e
              | .ok (t2, g2) => continueMaze width height region fuel t2 g2 x y) = .ok res ∧
          MazeRun width height region t x y res.1 ∧ res.1.HasSize width height ∧
          countWall res.1 ≤ countWall t := by
      intro g0 p hp
      obtain ⟨t1, hc, hs1, hcount⟩ := candidate_carve region hs hp
      obtain ⟨i1, i2, i3, i4⟩ := candidate_interior hp hx1 hx2 hy1 hy2
      obtain ⟨r1, e1, run1, hs2, c2⟩ := ih t1 g0 p.x p.y hs1 i1 i2 i3 i4 (by omega)
      obtain ⟨t2, g2⟩ := r1
      simp only at run1 hs2 c2
      obtain ⟨r2, e2, run2, hs3, c3⟩ := ih t2 g2 x y hs2 hx1 hx2 hy1 hy2 (by omega)
      refine ⟨r2, ?_, MazeRun.branch hp hc run1 run2, hs3, by omega⟩
      simp only [hc, e1, e2]
    simp only [continueMaze, hv]
    by_cases hlen : (candidates t width height x y).length > 1
    · rw [if_pos hlen]
      have hpos : ((candidates t width height x y).length : Int) > 0 := by omega
      cases hi : g.intn (candidates t width height x y).length with
      | error e =>
        exfalso
        unfold Rng.intn at hi
        rw [if_neg (by omega)] at hi
        cases hi
      | ok r =>
        obtain ⟨i, g1⟩ := r
        obtain ⟨_, hi0, hi1⟩ := Rng.intn_spec hi
        have hlt : i.toNat < (candidates t width height x y).length := by omega
        simp only [List.getElem?_eq_getElem hlt]
        exact tail g1 _ (List.getElem_mem _)
    · rw [if_neg hlen]
      by_cases hone : (candidates t width height x y).length = 1
      · rw [if_pos hone]
        have hlt : 0 < (candidates t width height x y).length := by omega
        simp only [List.getElem?_eq_getElem hlt]
        exact tail g _ (List.getElem_mem _)
      · rw [if_neg hone]
        have hnil : candidates t width height x y = [] := by
          apply List.eq_nil_of_length_eq_zero
          omega
        exact ⟨(t, g), rfl, MazeRun.stop hnil, hs, Nat.le_refl _⟩


theorem continueMaze_step (width height region : Int) (fuel : Nat) (t : Grid) (g : Rng)
    (x y : Int) :
    continueMaze width height region (fuel + 1) t g x y =
      match getValidTiles t width height x y with
      | .error e => .error e
      | .ok validTiles =>
        if validTiles.length > 1 then
          match g.intn validTiles.length with
          | .error e => .error e
          | .ok (i, g1) =>
            match validTiles[i.toNat]? with
            | none => .error Err.indexOutOfRange
            | some point =>
              match carveTunnel t point region with
              | .error e => .error e
              | .ok t1 =>
                match continueMaze width height region fuel t1 g1 point.x point.y with
                | .error e => .error e
                | .ok (t2, g2) => continueMaze width height region fuel t2 g2 x y
        else if validTiles.length = 1 then
          match validTiles[0]? with
          | none => .error Err.indexOutOfRange
          | some point =>
            match carveTunnel t point region with
            | .error e => .error e
            | .ok t1 =>
              match continueMaze width height region fuel t1 g point.x point.y with
              | .error e => .error e
              | .ok (t2, g2) => continueMaze width height region fuel t2 g2 x y
        else .ok (t, g) := rfl

theorem continueMaze_succ {width height region : Int} :
    ∀ (fuel : Nat) (t : Grid) (g : Rng) (x y : Int) (res : Grid × Rng),
      continueMaze width height region fuel t g x y = .ok res →
      continueMaze width height region (fuel + 1) t g x y = .ok res := by
  intro fuel
  induction fuel with
  | zero => intro t g x y res h; simp [continueMaze] at h
  | succ fuel ih =>
    intro t g x y res h
    have tail : ∀ (g0 : Rng) (p : Point),
        (match carveTunnel t p region with
          | .error e => (Except.error e : Except Err (Grid × Rng))
          | .ok t1 =>
            match continueMaze width height region fuel t1 g0 p.x p.y with
            | .error e => .error e
            | .ok (t2, g2) => continueMaze width height region fuel t2 g2 x y) = .ok res →
        (match carveTunnel t p region with
          | .error e => (Except.error e : Except Err (Grid × Rng))
          | .ok t1 =>
            match continueMaze width height region (fuel + 1) t1 g0 p.x p.y with
            | .error e => .error e
            | .ok (t2, g2) => continueMaze width height region (fuel + 1) t2 g2 x y) = .ok res := by
      intro g0 p h0
      cases hc : carveTunnel t p region with
      | error e => rw [hc] at h0; cases h0
      | ok t1 =>
        simp only [hc] at h0 ⊢
        cases h1 : continueMaze width height region fuel t1 g0 p.x p.y with
        | error e => rw [h1] at h0; cases h0
        | ok r =>
          obtain ⟨t2, g2⟩ := r
          simp only [h1] at h0
          rw [ih _ _ _ _ _ h1]
          exact ih _ _ _ _ _ h0
    rw [continueMaze_step] at h ⊢
    cases hv : getValidTiles t width height x y with
    | error e => rw [hv] at h; cases h
    | ok v =>
      simp only [hv] at h ⊢
      by_cases hlen : v.length > 1
      · rw [if_pos hlen] at h ⊢
        cases hi : g.intn v.length with
        | error e => rw [hi] at h; cases h
        | ok r =>
          obtain ⟨i, g1⟩ := r
          simp only [hi] at h ⊢
          cases hp : v[i.toNat]? with
          | none => rw [hp] at h; cases h
          | some p =>
            simp only [hp] at h ⊢
            exact tail g1 p h
      · rw [if_neg hlen] at h ⊢
        by_cases hone : v.length = 1
        · rw [if_pos hone] at h ⊢
          cases hp : v[0]? with
          | none => rw [hp] at h; cases h
          | some p =>
            simp only [hp] at h ⊢
            exact tail g p h
        · rw [if_neg hone] at h ⊢
          exact h

theorem continueMaze_mono {width height region : Int} {fuel : Nat} {t : Grid} {g : Rng}
    {x y : Int} {res : Grid × Rng}
    (h : continueMaze width height region fuel t g x y = .ok res) :
    ∀ k, continueMaze width height region (fuel + k) t g x y = .ok res := by
  intro k
  induction k with
  | zero => exact h
  | succ k ih => exact continueMaze_succ _ _ _ _ _ _ ih

theorem continueMaze_budget {width height region : Int} {t : Grid} {g : Rng} {x y : Int}
    (hs : t.HasSize width height)
    (hx1 : 1 ≤ x) (hx2 : x ≤ width - 2) (hy1 : 1 ≤ y) (hy2 : y ≤ height - 2)
    (f1 f2 : Nat) (h1 : countWall t < f1) (h2 : countWall t < f2) :
    continueMaze width height region f1 t g x y =
      continueMaze width height region f2 t g x y := by
  obtain ⟨r1, e1, _⟩ := @continueMaze_run width height region f1 t g x y hs hx1 hx2 hy1 hy2 h1
  obtain ⟨r2, e2, _⟩ := @continueMaze_run width height region f2 t g x y hs hx1 hx2 hy1 hy2 h2
  have a1 := continueMaze_mono e1 f2
  have a2 := continueMaze_mono e2 f1
  rw [Nat.add_comm] at a2
  rw [a1] at a2
  rw [e1, e2]
  exact a2

theorem Grid.carved_refl (width height : Int) (t : Grid) : t.Carved width height t :=
  fun _ _ => Or.inl rfl

theorem Grid.carved_trans {width height : Int} {t t1 t2 : Grid}
    (h1 : t.Carved width height t1) (h2 : t1.Carved width height t2) :
    t.Carved width height t2 := by
  intro x y
  rcases h2 x y with e2 | ⟨a1, a2, a3, a4, old2, new2, g1, m1, g2, m2⟩
  · rcases h1 x y with e1 | h
    · exact Or.inl (e2.trans e1)
    · right
      rw [e2]
      exact h
  · rcases h1 x y with e1 | ⟨_, _, _, _, old1, new1, g0, m0, g3, m3⟩
    · right
      rw [← e1]
      exact ⟨a1, a2, a3, a4, old2, new2, g1, m1, g2, m2⟩
    · exfalso
      rw [g1] at g3
      cases g3
      rw [m1] at m3
      cases m3

theorem Grid.carved_hasSize {width height : Int} {t t1 : Grid}
    (h : t.Carved width height t1) (hs : t.HasSize width height) :
    t1.HasSize width height := by
  intro x y
  rcases h x y with e | ⟨_, _, _, _, old, new, g0, _, g1, _⟩
  · rw [e]
    exact hs x y
  · exact ⟨fun _ => (hs x y).mp ⟨old, g0⟩, fun _ => ⟨new, g1⟩⟩

theorem Grid.carved_wallAt {width height : Int} {t t1 : Grid}
    (h : t.Carved width height t1) {q : Point} (hw : t1.wallAt q = true) :
    t.wallAt q = true := by
  rcases h q.x q.y with e | ⟨_, _, _, _, old, new, g0, m0, g1, m1⟩
  · unfold Grid.wallAt at hw ⊢
    rw [← e]
    exact hw
  · obtain ⟨tile, hg, hm⟩ := wallAt_iff.mp hw
    rw [g1] at hg
    cases hg
    rw [m1] at hm
    cases hm

theorem Grid.carved_floorAt {width height : Int} {t t1 : Grid}
    (h : t.Carved width height t1) (x y : Int) : t1.floorAt x y = t.floorAt x y := by
  rcases h x y with e | ⟨_, _, _, _, old, new, g0, m0, g1, m1⟩
  · unfold Grid.floorAt
    rw [e]
  · unfold Grid.floorAt
    rw [g0, g1]
    simp [m0, m1]

theorem Grid.carved_keep {width height : Int} {t t1 : Grid}
    (h : t.Carved width height t1) {x y : Int} {tile : Tile}
    (hg : t.get x y = .ok tile) (hm : tile.material ≠ Material.WALL) :
    t1.get x y = .ok tile := by
  rcases h x y with e | ⟨_, _, _, _, old, new, g0, m0, g1, m1⟩
  · rw [e]
    exact hg
  · rw [g0] at hg
    cases hg
    exact absurd m0 hm

theorem carveTunnel_carved {width height region : Int} {t t1 : Grid} {p : Point}
    (hp : 1 ≤ p.x ∧ p.x ≤ width - 2 ∧ 1 ≤ p.y ∧ p.y ≤ height - 2)
    (hw : t.wallAt p = true) (hc : carveTunnel t p region = .ok t1) :
    t.Carved width height t1 := by
  obtain ⟨old, h1, h2, h3⟩ := Grid.modify_spec hc
  obtain ⟨tile, hg, hm⟩ := wallAt_iff.mp hw
  intro x y
  by_cases hxy : x = p.x ∧ y = p.y
  · obtain ⟨rfl, rfl⟩ := hxy
    right
    rw [h1] at hg
    cases hg
    exact ⟨hp.1, hp.2.1, hp.2.2.1, hp.2.2.2, old, _, h1, hm, h2, rfl⟩
  · left
    exact h3 x y (not_and_or.mp hxy)

theorem candidates_of_carved {width height : Int} {t t1 : Grid}
    (h : t.Carved width height t1) {x y : Int} {p : Point}
    (hp : p ∈ candidates t1 width height x y) : p ∈ candidates t width height x y := by
  have hw : ∀ q : Int × Int, t1.wallXY q = true → t.wallXY q = true :=
    fun q hq => Grid.carved_wallAt h hq
  rw [mem_candidates] at hp ⊢
  rcases hp with ⟨e, h1⟩ | ⟨e, h1⟩ | ⟨e, h1⟩ | ⟨e, h1⟩
  · obtain ⟨a, b, c⟩ := leftOk_iff.mp h1
    exact Or.inl ⟨e, leftOk_iff.mpr ⟨a, Grid.carved_wallAt h b, fun q hq => hw q (c q hq)⟩⟩
  · obtain ⟨a, b, c⟩ := rightOk_iff.mp h1
    exact Or.inr (Or.inl
      ⟨e, rightOk_iff.mpr ⟨a, Grid.carved_wallAt h b, fun q hq => hw q (c q hq)⟩⟩)
  · obtain ⟨a, b, c⟩ := upOk_iff.mp h1
    exact Or.inr (Or.inr (Or.inl
      ⟨e, upOk_iff.mpr ⟨a, Grid.carved_wallAt h b, fun q hq => hw q (c q hq)⟩⟩))
  · obtain ⟨a, b, c⟩ := downOk_iff.mp h1
    exact Or.inr (Or.inr (Or.inr
      ⟨e, downOk_iff.mpr ⟨a, Grid.carved_wallAt h b, fun q hq => hw q (c q hq)⟩⟩))

theorem MazeRun.carved {width height region : Int} {t t1 : Grid} {x y : Int}
    (h : MazeRun width height region t x y t1) :
    t.HasSize width height → 1 ≤ x → x ≤ width - 2 → 1 ≤ y → y ≤ height - 2 →
    t.Carved width height t1 := by
  induction h with
  | stop _ => intro _ _ _ _ _; exact Grid.carved_refl _ _ _
  | branch hp hc _ _ ih1 ih2 =>
    intro hs hx1 hx2 hy1 hy2
    have hpi := candidate_interior hp hx1 hx2 hy1 hy2
    have hcv := @carveTunnel_carved width height _ _ _ _ hpi (candidate_walled hp).2.1 hc
    have hs1 := Grid.carved_hasSize hcv hs
    have hcv1 := ih1 hs1 hpi.1 hpi.2.1 hpi.2.2.1 hpi.2.2.2
    have hs2 := Grid.carved_hasSize hcv1 hs1
    exact Grid.carved_trans (Grid.carved_trans hcv hcv1) (ih2 hs2 hx1 hx2 hy1 hy2)

theorem MazeRun.exhausted {width height region : Int} {t t1 : Grid} {x y : Int}
    (h : MazeRun width height region t x y t1) : candidates t1 width height x y = [] := by
  induction h with
  | stop h0 => exact h0
  | branch _ _ _ _ _ ih2 => exact ih2

theorem floorAt_of_wallAt {t : Grid} {a b : Int} (h : t.wallAt ⟨a, b⟩ = true) :
    t.floorAt a b = false := by
  obtain ⟨tile, hg, hm⟩ := wallAt_iff.mp h
  simp only at hg
  unfold Grid.floorAt
  rw [hg]
  simp [hm]

theorem candidate_noFloorNear {t : Grid} {width height x y : Int} {p : Point}
    (hp : p ∈ candidates t width height x y) (hn : NoFloorNear t x y) :
    NoFloorNear t p.x p.y := by
  obtain ⟨hadj, hw, hall⟩ := candidate_walled hp
  simp only [around4, List.mem_cons, List.mem_singleton, List.not_mem_nil, or_false] at hadj
  intro q hq
  by_cases h0 : q = (p.x, p.y)
  · subst h0
    exact floorAt_of_wallAt hw
  by_cases h1 : q = (x, y)
  · subst h1
    exact hn _ (by simp [block3])
  by_cases h2 : q = (x + (p.y - y), y + (p.x - x))
  · subst h2
    refine hn _ ?_
    rcases hadj with rfl | rfl | rfl | rfl <;>
      simp only [block3, List.mem_cons, List.mem_singleton, Prod.mk.injEq, List.not_mem_nil,
        or_false] <;> omega
  by_cases h3 : q = (x - (p.y - y), y - (p.x - x))
  · subst h3
    refine hn _ ?_
    rcases hadj with rfl | rfl | rfl | rfl <;>
      simp only [block3, List.mem_cons, List.mem_singleton, Prod.mk.injEq, List.not_mem_nil,
        or_false] <;> omega
  have hq8 : q ∈ around8 p := by
    simp only [block3, List.mem_cons, List.mem_singleton, List.not_mem_nil, or_false] at hq
    rcases hq with rfl | rfl | rfl | rfl | rfl | rfl | rfl | rfl | rfl <;>
      first
      | exact absurd rfl h0
      | simp [around8]
  exact floorAt_of_wallAt (hall q hq8 h1 h2 h3)

theorem carved_noFloorNear {width height : Int} {t t1 : Grid}
    (hc : t.Carved width height t1) {x y : Int} (hn : NoFloorNear t x y) :
    NoFloorNear t1 x y := by
  intro q hq
  rw [Grid.carved_floorAt hc]
  exact hn q hq

theorem carveTunnel_tunnelsClear {width height region : Int} {t t1 : Grid} {p : Point}
    (hcv : t.Carved width height t1) (hc : carveTunnel t p region = .ok t1)
    (htc : TunnelsClear t) (hn : NoFloorNear t p.x p.y) : TunnelsClear t1 := by
  obtain ⟨old, h1, h2, h3⟩ := Grid.modify_spec hc
  intro a b tile hg hm
  apply carved_noFloorNear hcv
  by_cases hab : a = p.x ∧ b = p.y
  · obtain ⟨rfl, rfl⟩ := hab
    exact hn
  · rw [h3 a b (not_and_or.mp hab)] at hg
    exact htc a b tile hg hm

theorem MazeRun.tunnelsClear {width height region : Int} {t t1 : Grid} {x y : Int}
    (h : MazeRun width height region t x y t1) :
    t.HasSize width height → 1 ≤ x → x ≤ width - 2 → 1 ≤ y → y ≤ height - 2 →
    TunnelsClear t → NoFloorNear t x y → TunnelsClear t1 := by
  induction h with
  | stop _ => intro _ _ _ _ _ h0 _; exact h0
  | branch hp hc run1 _ ih1 ih2 =>
    intro hs hx1 hx2 hy1 hy2 htc hn
    have hpi := candidate_interior hp hx1 hx2 hy1 hy2
    have hcv := @carveTunnel_carved width height _ _ _ _ hpi (candidate_walled hp).2.1 hc
    have hs1 := Grid.carved_hasSize hcv hs
    have hnp := candidate_noFloorNear hp hn
    have htc1 := carveTunnel_tunnelsClear hcv hc htc hnp
    have htc2 := ih1 hs1 hpi.1 hpi.2.1 hpi.2.2.1 hpi.2.2.2 htc1 (carved_noFloorNear hcv hnp)
    have hcv1 := run1.carved hs1 hpi.1 hpi.2.1 hpi.2.2.1 hpi.2.2.2
    exact ih2 (Grid.carved_hasSize hcv1 hs1) hx1 hx2 hy1 hy2 htc2
      (carved_noFloorNear hcv1 (carved_noFloorNear hcv hn))


/-! ## Maze carving: counting, single candidates and termination -/

theorem countTunnel_carve {t t1 : Grid} {p : Point} {region : Int} {tile : Tile}
    (hm : carveTunnel t p region = .ok t1)
    (hg : t.get p.x p.y = .ok tile) (hw : tile.material = Material.WALL) :
    countTunnel t1 = countTunnel t + 1 := by
  unfold carveTunnel at hm
  obtain ⟨_, _, row, old, hr, hc, rfl⟩ := Grid.modify_eq_ok.mp hm
  obtain ⟨_, _, row1, hr1, hc1⟩ := Grid.get_eq_ok.mp hg
  rw [hr] at hr1
  cases hr1
  rw [hc] at hc1
  cases hc1
  obtain ⟨hy, hrow⟩ := List.getElem?_eq_some_iff.mp hr
  obtain ⟨hx, hold⟩ := List.getElem?_eq_some_iff.mp hc
  unfold countTunnel
  have h1 := sum_map_set
    (fun row => row.countP (fun tile => decide (tile.material = Material.TUNNEL))) t
    p.y.toNat (row.set p.x.toNat ⟨region, Material.TUNNEL⟩) hy
  have h2 := countP_set (fun tile => decide (tile.material = Material.TUNNEL)) row p.x.toNat
    ⟨region, Material.TUNNEL⟩ hx
  rw [hrow] at h1
  rw [hold] at h2
  have h3 : decide (Material.WALL = Material.TUNNEL) = false := rfl
  simp only [hw, h3, decide_True, if_true, Bool.false_eq_true, if_false] at h2
  omega

theorem MazeRun.count {width height region : Int} {t t1 : Grid} {x y : Int}
    (h : MazeRun width height region t x y t1) :
    countTunnel t1 + countWall t1 = countTunnel t + countWall t := by
  induction h with
  | stop _ => rfl
  | branch hp hc _ _ ih1 ih2 =>
    obtain ⟨tile, hg, hw⟩ := wallAt_iff.mp (candidate_walled hp).2.1
    have a := countWall_carve hc hg hw
    have b := countTunnel_carve hc hg hw
    omega

/-- Claim C19: for a grid of `width × height` tiles and an interior start cell `(x, y)`,
`continueMaze` returns for every recursion budget above the number of WALL tiles, with the
result of the budget used by `createMaze`. The result differs from the entry grid only at
interior WALL tiles turned into TUNNEL, and the TUNNEL tiles gained are the WALL tiles lost,
so at most the number of WALL tiles at entry are carved. Every candidate `p` is again an
interior cell, carving it leaves strictly fewer WALL tiles, and the call from `p` returns a
grid that also has strictly fewer WALL tiles than the entry grid, on which `(x, y)` is
entered again. -/
theorem continueMaze_terminates (width height region : Int) (t : Grid) (g : Rng) (x y : Int)
    (fuel : Nat) (hs : t.HasSize width height)
    (hx1 : 1 ≤ x) (hx2 : x ≤ width - 2) (hy1 : 1 ≤ y) (hy2 : y ≤ height - 2)
    (hfuel : countWall t < fuel) :
    ∃ res v, continueMaze width height region fuel t g x y = .ok res ∧
      continueMaze width height region (countWall t + 1) t g x y = .ok res ∧
      t.Carved width height res.1 ∧
      countTunnel res.1 + countWall res.1 = countTunnel t + countWall t ∧
      getValidTiles t width height x y = .ok v ∧
      ∀ p ∈ v, (1 ≤ p.x ∧ p.x ≤ width - 2 ∧ 1 ≤ p.y ∧ p.y ≤ height - 2) ∧
        ∃ t1, carveTunnel t p region = .ok t1 ∧ countWall t1 < countWall t ∧
          ∀ (g1 : Rng) (fuel1 : Nat), countWall t1 < fuel1 →
            ∃ res1, continueMaze width height region fuel1 t1 g1 p.x p.y = .ok res1 ∧
              countWall res1.1 < countWall t := by
  obtain ⟨res, e, run, _, _⟩ :=
    @continueMaze_run width height region fuel t g x y hs hx1 hx2 hy1 hy2 hfuel
  refine ⟨res, candidates t width height x y, e, ?_, run.carved hs hx1 hx2 hy1 hy2, run.count,
    getValidTiles_eq hs hx1 hx2 hy1 hy2, ?_⟩
  · rw [← e]
    exact continueMaze_budget hs hx1 hx2 hy1 hy2 _ _ (Nat.lt_succ_self _) hfuel
  · intro p hp
    have hpi := candidate_interior hp hx1 hx2 hy1 hy2
    obtain ⟨t1, hc, hs1, hcount⟩ := candidate_carve region hs hp
    refine ⟨hpi, t1, hc, by omega, ?_⟩
    intro g1 fuel1 hf1
    obtain ⟨res1, e1, _, _, c1⟩ := @continueMaze_run width height region fuel1 t1 g1 p.x p.y
      hs1 hpi.1 hpi.2.1 hpi.2.2.1 hpi.2.2.2 hf1
    exact ⟨res1, e1, by omega⟩

theorem walls97_hasSize : walls97.tiles.HasSize 9 7 :=
  @Grid.hasSize_of_rect walls97.tiles 9 7 (by decide)

/-- Witness of `continueMaze_terminates`: the start cell `(1, 1)` of the 9 × 7 grid of walls
with region id 1 and the budget of 64 calls. -/
theorem continueMaze_terminates_witness :
    walls97.tiles.HasSize 9 7 ∧ countWall walls97.tiles < 64 ∧
    ∃ res v, continueMaze 9 7 1 64 walls97.tiles sampleRng 1 1 = .ok res ∧
      continueMaze 9 7 1 (countWall walls97.tiles + 1) walls97.tiles sampleRng 1 1 = .ok res ∧
      walls97.tiles.Carved 9 7 res.1 ∧
      countTunnel res.1 + countWall res.1 =
        countTunnel walls97.tiles + countWall walls97.tiles ∧
      getValidTiles walls97.tiles 9 7 1 1 = .ok v ∧
      ∀ p ∈ v, (1 ≤ p.x ∧ p.x ≤ 9 - 2 ∧ 1 ≤ p.y ∧ p.y ≤ 7 - 2) ∧
        ∃ t1, carveTunnel walls97.tiles p 1 = .ok t1 ∧
          countWall t1 < countWall walls97.tiles ∧
          ∀ (g1 : Rng) (fuel1 : Nat), countWall t1 < fuel1 →
            ∃ res1, continueMaze 9 7 1 fuel1 t1 g1 p.x p.y = .ok res1 ∧
              countWall res1.1 < countWall walls97.tiles :=
  ⟨walls97_hasSize, by decide,
    continueMaze_terminates 9 7 1 walls97.tiles sampleRng 1 1 64 walls97_hasSize
      (by decide) (by decide) (by decide) (by decide) (by decide)⟩

/-- Witness of `getValidTiles_walled`: the cell `(1, 1)` of the 9 × 7 grid of walls. -/
theorem getValidTiles_walled_witness :
    walls97.tiles.HasSize 9 7 ∧
    ∃ res, getValidTiles walls97.tiles 9 7 1 1 = .ok res ∧
      ∀ p ∈ res,
        p ∈ around4 1 1 ∧
        (∃ tile, walls97.tiles.get p.x p.y = .ok tile ∧ tile.material = Material.WALL) ∧
        (∀ q ∈ around8 p, q ≠ (1, 1) → q ≠ (1 + (p.y - 1), 1 + (p.x - 1)) →
          q ≠ (1 - (p.y - 1), 1 - (p.x - 1)) →
          ∃ tile, walls97.tiles.get q.1 q.2 = .ok tile ∧ tile.material = Material.WALL) ∧
        (∀ q ∈ around4 p.x p.y, q ≠ ⟨1, 1⟩ →
          ∃ tile, walls97.tiles.get q.x q.y = .ok tile ∧ tile.material = Material.WALL) :=
  ⟨walls97_hasSize,
    getValidTiles_walled walls97.tiles 9 7 1 1 walls97_hasSize
      (by decide) (by decide) (by decide) (by decide)⟩

/-- Claim C18: for a grid of `width × height` tiles and an interior cell `(x, y)` for which
`getValidTiles` returns exactly one point `p`, marking `p` TUNNEL with the region id succeeds,
and for all sufficient recursion budgets `continueMaze` from `(x, y)` returns exactly what
`continueMaze` from `p` returns on the marked grid, random source included; on that result
`getValidTiles` finds no candidate for `(x, y)`, so the second recursive call on `(x, y)`
returns its input unchanged. -/
theorem continueMaze_single_candidate (width height region : Int) (t : Grid) (g : Rng)
    (x y : Int) (p : Point) (hs : t.HasSize width height)
    (hx1 : 1 ≤ x) (hx2 : x ≤ width - 2) (hy1 : 1 ≤ y) (hy2 : y ≤ height - 2)
    (hv : getValidTiles t width height x y = .ok [p]) :
    ∃ t1, carveTunnel t p region = .ok t1 ∧
      ∀ f1 f2 : Nat, countWall t < f1 → countWall t1 < f2 →
        ∃ res, continueMaze width height region f2 t1 g p.x p.y = .ok res ∧
          continueMaze width height region f1 t g x y = .ok res ∧
          getValidTiles res.1 width height x y = .ok [] ∧
          continueMaze width height region f1 res.1 res.2 x y = .ok res := by
  have hcand : candidates t width height x y = [p] := by
    have := getValidTiles_eq hs hx1 hx2 hy1 hy2
    rw [hv] at this
    injection this with this
    exact this.symm
  have hp : p ∈ candidates t width height x y := by rw [hcand]; exact List.mem_singleton.mpr rfl
  have hpi := candidate_interior hp hx1 hx2 hy1 hy2
  have hpw := (candidate_walled hp).2.1
  obtain ⟨t1, hc, hs1, hcount⟩ := candidate_carve region hs hp
  have hcv := @carveTunnel_carved width height _ _ _ _ hpi hpw hc
  refine ⟨t1, hc, ?_⟩
  intro f1 f2 hf1 hf2
  obtain ⟨res, e, run, hs2, _⟩ := @continueMaze_run width height region f2 t1 g p.x p.y
    hs1 hpi.1 hpi.2.1 hpi.2.2.1 hpi.2.2.2 hf2
  have hcv1 := run.carved hs1 hpi.1 hpi.2.1 hpi.2.2.1 hpi.2.2.2
  have hnil : candidates res.1 width height x y = [] := by
    apply List.eq_nil_iff_forall_not_mem.mpr
    intro q hq
    have hq0 := candidates_of_carved (Grid.carved_trans hcv hcv1) hq
    rw [hcand] at hq0
    have hqp : q = p := List.mem_singleton.mp hq0
    subst hqp
    obtain ⟨tile, hg, hm⟩ := wallAt_iff.mp (candidate_walled hq).2.1
    obtain ⟨old, _, h2, _⟩ := Grid.modify_spec hc
    have hk := Grid.carved_keep hcv1 h2 (by simp)
    rw [hk] at hg
    cases hg
    cases hm
  have hv2 : getValidTiles res.1 width height x y = .ok [] := by
    rw [getValidTiles_eq hs2 hx1 hx2 hy1 hy2, hnil]
  have hstop : ∀ k : Nat, continueMaze width height region (k + 1) res.1 res.2 x y = .ok res := by
    intro k
    rw [continueMaze_step]
    simp [hv2]
  obtain ⟨k, rfl⟩ : ∃ k, f1 = k + 1 := ⟨f1 - 1, by omega⟩
  obtain ⟨j, rfl⟩ : ∃ j, k = j + 1 := ⟨k - 1, by omega⟩
  refine ⟨res, e, ?_, hv2, hstop _⟩
  rw [continueMaze_step]
  have e1 : continueMaze width height region (j + 1) t1 g p.x p.y = .ok res := by
    rw [← e]
    exact continueMaze_budget hs1 hpi.1 hpi.2.1 hpi.2.2.1 hpi.2.2.2 _ _ (by omega) hf2
  simp only [hv, List.length_singleton, gt_iff_lt, lt_self_iff_false, if_false, if_true,
    List.getElem?_cons_zero, hc, e1]
  exact hstop j

theorem walls53_hasSize : walls53.tiles.HasSize 5 3 :=
  @Grid.hasSize_of_rect walls53.tiles 5 3 (by decide)

/-- Witness of `continueMaze_single_candidate`: in the 5 × 3 grid of walls the cell `(1, 1)`
has the single candidate `(2, 1)`. -/
theorem continueMaze_single_candidate_witness :
    walls53.tiles.HasSize 5 3 ∧ getValidTiles walls53.tiles 5 3 1 1 = .ok [⟨2, 1⟩] ∧
    ∃ t1, carveTunnel walls53.tiles ⟨2, 1⟩ 1 = .ok t1 ∧
      ∀ f1 f2 : Nat, countWall walls53.tiles < f1 → countWall t1 < f2 →
        ∃ res, continueMaze 5 3 1 f2 t1 zeroRng 2 1 = .ok res ∧
          continueMaze 5 3 1 f1 walls53.tiles zeroRng 1 1 = .ok res ∧
          getValidTiles res.1 5 3 1 1 = .ok [] ∧
          continueMaze 5 3 1 f1 res.1 res.2 1 1 = .ok res :=
  ⟨walls53_hasSize, by decide,
    continueMaze_single_candidate 5 3 1 walls53.tiles zeroRng 1 1 ⟨2, 1⟩ walls53_hasSize
      (by decide) (by decide) (by decide) (by decide) (by decide)⟩


/-! ## Maze carving over the whole grid -/

theorem forEachM_ok_inv {α σ : Type} {f : α → σ → Except Err σ} (P : σ → Prop) (l : List α)
    (hstep : ∀ a ∈ l, ∀ s, P s → ∃ s1, f a s = .ok s1 ∧ P s1) :
    ∀ s, P s → ∃ s1, forEachM f l s = .ok s1 ∧ P s1 :=
  forEachM_ok_prefix (fun _ s => P s) l
    (fun pre a post hl s hp => hstep a (by rw [hl]; simp) s hp)

theorem block3_readable {t : Grid} {width height x y : Int} (hs : t.HasSize width height)
    (hx1 : 1 ≤ x) (hx2 : x ≤ width - 2) (hy1 : 1 ≤ y) (hy2 : y ≤ height - 2) :
    ∀ q ∈ block3 x y, ∃ tile, t.get q.1 q.2 = .ok tile := by
  intro q hq
  apply (hs q.1 q.2).mpr
  simp only [block3, List.mem_cons, List.mem_singleton, List.not_mem_nil, or_false] at hq
  rcases hq with rfl | rfl | rfl | rfl | rfl | rfl | rfl | rfl | rfl <;>
    (simp only; omega)

theorem mazeCell_spec {width height x y : Int} (t0 : Grid) {s : Grid × Int × Rng}
    (hx1 : 1 ≤ x) (hx2 : x ≤ width - 2) (hy1 : 1 ≤ y) (hy2 : y ≤ height - 2)
    (hs : s.1.HasSize width height) (hcv : t0.Carved width height s.1)
    (htc : TunnelsClear s.1) :
    ∃ s1, mazeCell width height x y s = .ok s1 ∧ s1.1.HasSize width height ∧
      t0.Carved width height s1.1 ∧ TunnelsClear s1.1 := by
  unfold mazeCell
  rw [allWall_eq _ (block3_readable hs hx1 hx2 hy1 hy2)]
  cases hall : (block3 x y).all s.1.wallXY with
  | false => exact ⟨s, rfl, hs, hcv, htc⟩
  | true =>
    simp only
    have hn : NoFloorNear s.1 x y := by
      intro q hq
      exact floorAt_of_wallAt (List.all_eq_true.mp hall q hq)
    obtain ⟨res, e, run, hs1, _⟩ := @continueMaze_run width height (s.2.1 + 1)
      (countWall s.1 + 1) s.1 s.2.2 x y hs hx1 hx2 hy1 hy2 (Nat.lt_succ_self _)
    rw [e]
    exact ⟨_, rfl, hs1, Grid.carved_trans hcv (run.carved hs hx1 hx2 hy1 hy2),
      run.tunnelsClear hs hx1 hx2 hy1 hy2 htc hn⟩

theorem createMaze_spec (d : Dungeon) (g : Rng)
    (hs : d.tiles.HasSize d.width d.height) (htc : TunnelsClear d.tiles) :
    ∃ res, createMaze d g = .ok res ∧ res.1.tiles.HasSize d.width d.height ∧
      d.tiles.Carved d.width d.height res.1.tiles ∧ TunnelsClear res.1.tiles ∧
      res.1.rooms = d.rooms ∧ res.1.width = d.width ∧ res.1.height = d.height := by
  have key := forEachM_ok_inv
    (f := fun x s =>
      forEachM (fun y s1 => mazeCell d.width d.height x y s1) (intRange 1 (d.height - 1)) s)
    (fun s : Grid × Int × Rng => s.1.HasSize d.width d.height ∧
      d.tiles.Carved d.width d.height s.1 ∧ TunnelsClear s.1)
    (intRange 1 (d.width - 1))
    (by
      intro x hx s hp
      obtain ⟨hx1, hx2⟩ := mem_intRange.mp hx
      exact forEachM_ok_inv
        (f := fun y s1 => mazeCell d.width d.height x y s1)
        (fun s : Grid × Int × Rng => s.1.HasSize d.width d.height ∧
          d.tiles.Carved d.width d.height s.1 ∧ TunnelsClear s.1)
        (intRange 1 (d.height - 1))
        (by
          intro y hy s1 hp1
          obtain ⟨hy1, hy2⟩ := mem_intRange.mp hy
          exact mazeCell_spec d.tiles hx1 (by omega) hy1 (by omega) hp1.1 hp1.2.1 hp1.2.2)
        s hp)
    (d.tiles, d.numRegions, g) ⟨hs, Grid.carved_refl _ _ _, htc⟩
  obtain ⟨s1, e, h1, h2, h3⟩ := key
  obtain ⟨t, n, g1⟩ := s1
  refine ⟨(⟨t, d.rooms, d.width, d.height, n⟩, g1), ?_, h1, h2, h3, rfl, rfl, rfl⟩
  unfold createMaze
  rw [e]

theorem Grid.forall_of_check {t : Grid} {P : Tile → Prop}
    (h : ∀ row ∈ t, ∀ tile ∈ row, P tile) :
    ∀ (x y : Int) (tile : Tile), t.get x y = .ok tile → P tile := by
  intro x y tile hg
  obtain ⟨_, _, row, h1, h2⟩ := Grid.get_eq_ok.mp hg
  exact h row (List.getElem?_mem h1) tile (List.getElem?_mem h2)

theorem Room.enclosed_iff {r : Room} {t : Grid} :
    r.enclosed t = true ↔ 1 ≤ r.width ∧ 1 ≤ r.height ∧
      ∀ px py : Int, r.location.x - 1 ≤ px → px ≤ r.location.x + r.width →
        r.location.y - 1 ≤ py → py ≤ r.location.y + r.height →
        (if r.covers px py then t.floorAt px py else t.wallAt ⟨px, py⟩) = true := by
  unfold Room.enclosed
  simp only [Bool.and_eq_true, decide_eq_true_eq, List.all_eq_true, mem_intRange, and_assoc]
  constructor
  · rintro ⟨h1, h2, h3⟩
    exact ⟨h1, h2, fun px py a b c d => h3 px ⟨a, by omega⟩ py ⟨c, by omega⟩⟩
  · rintro ⟨h1, h2, h3⟩
    exact ⟨h1, h2, fun px hx py hy => h3 px py hx.1 (by omega) hy.1 (by omega)⟩

theorem Room.enclosed_near_floor {r : Room} {t : Grid} (h : r.enclosed t = true)
    {px py : Int} (hx1 : r.location.x - 1 ≤ px) (hx2 : px ≤ r.location.x + r.width)
    (hy1 : r.location.y - 1 ≤ py) (hy2 : py ≤ r.location.y + r.height) :
    ∃ q ∈ block3 px py, t.floorAt q.1 q.2 = true := by
  obtain ⟨hw, hh, hall⟩ := Room.enclosed_iff.mp h
  have key : ∀ qx qy : Int, r.location.x ≤ qx → qx < r.location.x + r.width →
      r.location.y ≤ qy → qy < r.location.y + r.height → t.floorAt qx qy = true := by
    intro qx qy a b c d
    have := hall qx qy (by omega) (by omega) (by omega) (by omega)
    rw [if_pos ⟨a, b, c, d⟩] at this
    exact this
  have hx : ∃ qx, r.location.x ≤ qx ∧ qx < r.location.x + r.width ∧
      (qx = px - 1 ∨ qx = px ∨ qx = px + 1) := by
    by_cases a : px = r.location.x - 1
    · exact ⟨px + 1, by omega, by omega, by omega⟩
    · by_cases b : px = r.location.x + r.width
      · exact ⟨px - 1, by omega, by omega, by omega⟩
      · exact ⟨px, by omega, by omega, by omega⟩
  have hy : ∃ qy, r.location.y ≤ qy ∧ qy < r.location.y + r.height ∧
      (qy = py - 1 ∨ qy = py ∨ qy = py + 1) := by
    by_cases a : py = r.location.y - 1
    · exact ⟨py + 1, by omega, by omega, by omega⟩
    · by_cases b : py = r.location.y + r.height
      · exact ⟨py - 1, by omega, by omega, by omega⟩
      · exact ⟨py, by omega, by omega, by omega⟩
  obtain ⟨qx, a1, a2, a3⟩ := hx
  obtain ⟨qy, b1, b2, b3⟩ := hy
  refine ⟨(qx, qy), ?_, key qx qy a1 a2 b1 b2⟩
  rcases a3 with rfl | rfl | rfl <;> rcases b3 with rfl | rfl | rfl <;> simp [block3]

theorem Room.enclosed_of_near {r : Room} {t t1 : Grid} (h : r.enclosed t = true)
    (hfloor : ∀ x y : Int, t1.floorAt x y = t.floorAt x y)
    (hnear : ∀ (x y : Int) (tile : Tile), t.get x y = .ok tile →
      (∃ q ∈ block3 x y, t.floorAt q.1 q.2 = true) → t1.get x y = .ok tile) :
    r.enclosed t1 = true := by
  obtain ⟨hw, hh, hall⟩ := Room.enclosed_iff.mp h
  refine Room.enclosed_iff.mpr ⟨hw, hh, ?_⟩
  intro px py a b c d
  have h0 := hall px py a b c d
  by_cases hc : r.covers px py
  · rw [if_pos hc] at h0 ⊢
    rw [hfloor]
    exact h0
  · rw [if_neg hc] at h0 ⊢
    obtain ⟨tile, hg, hm⟩ := wallAt_iff.mp h0
    exact wallAt_iff.mpr ⟨tile, hnear px py tile hg (Room.enclosed_near_floor h a b c d), hm⟩

theorem Room.enclosed_edges {r : Room} {t : Grid} (h : r.enclosed t = true) :
    ∀ e ∈ scannedEdges t r, t.wallAt e = true := by
  obtain ⟨hw, hh, hall⟩ := Room.enclosed_iff.mp h
  have key : ∀ px py : Int, r.location.x - 1 ≤ px → px ≤ r.location.x + r.width →
      r.location.y - 1 ≤ py → py ≤ r.location.y + r.height → ¬ r.covers px py →
      t.wallAt ⟨px, py⟩ = true := by
    intro px py a b c d hc
    have := hall px py a b c d
    rw [if_neg hc] at this
    exact this
  intro e he
  rcases mem_scannedEdges.mp he with ⟨j, h1, h2, (⟨rfl, _⟩ | ⟨rfl, _⟩)⟩ |
    ⟨k, h1, h2, (⟨rfl, _⟩ | ⟨rfl, _⟩)⟩
  · exact key _ _ (by omega) (by omega) (by omega) (by omega)
      (by unfold Room.covers; omega)
  · exact key _ _ (by omega) (by omega) (by omega) (by omega)
      (by unfold Room.covers; omega)
  · exact key _ _ (by omega) (by omega) (by omega) (by omega)
      (by unfold Room.covers; omega)
  · exact key _ _ (by omega) (by omega) (by omega) (by omega)
      (by unfold Room.covers; omega)

theorem identifyEdges_enclosed {d : Dungeon} (hs : d.tiles.HasSize d.width d.height)
    (hr : ∀ r ∈ d.rooms, r.enclosed d.tiles = true ∧ r.inMargin d.width d.height ∧
      r.edges = []) :
    ∃ d1, identifyEdges d = .ok d1 ∧
      ∀ r1 ∈ d1.rooms, ∀ e ∈ r1.edges, d1.tiles.wallAt e = true := by
  have ht : d.tiles.Readable d.width d.height :=
    fun x y a b c e => (hs x y).mpr ⟨a, b, c, e⟩
  have hr1 : ∀ r ∈ d.rooms, r.inMargin d.width d.height ∧ 0 ≤ r.width ∧ 0 ≤ r.height := by
    intro r hmem
    obtain ⟨h1, h2, _⟩ := hr r hmem
    obtain ⟨hw, hh, _⟩ := Room.enclosed_iff.mp h1
    exact ⟨h2, by omega, by omega⟩
  refine ⟨_, identifyEdges_eq ht hr1, ?_⟩
  intro r1 hr1mem e he
  simp only [List.mem_map] at hr1mem
  obtain ⟨r, hmem, rfl⟩ := hr1mem
  obtain ⟨h1, _, h3⟩ := hr r hmem
  simp only [h3, List.nil_append] at he
  exact Room.enclosed_edges h1 e he

/-- Claim C20: for every dungeon whose grid has exactly `width × height` tiles, all of them
WALL or FLOOR, `createMaze` completes, and afterwards no TUNNEL tile has a FLOOR tile at its
own position or among its eight neighbours, every FLOOR tile is unchanged, no tile has
become FLOOR, and every tile that had a FLOOR tile among its eight neighbours is unchanged.
Hence every room that was enclosed by WALL tiles is still enclosed, and when the rooms are
enclosed, keep the three-tile margin and have no edges yet, `identifyEdges` completes on the
result and every edge position it records is a WALL tile. -/
theorem createMaze_tunnels_clear_of_floor (d : Dungeon) (g : Rng)
    (hs : d.tiles.HasSize d.width d.height)
    (hm : ∀ (x y : Int) (tile : Tile), d.tiles.get x y = .ok tile →
      tile.material = Material.WALL ∨ tile.material = Material.FLOOR) :
    ∃ res, createMaze d g = .ok res ∧
      TunnelsClear res.1.tiles ∧
      (∀ (x y : Int) (tile : Tile), d.tiles.get x y = .ok tile →
        tile.material = Material.FLOOR → res.1.tiles.get x y = .ok tile) ∧
      (∀ (x y : Int) (tile : Tile), res.1.tiles.get x y = .ok tile →
        tile.material = Material.FLOOR → d.tiles.get x y = .ok tile) ∧
      (∀ (x y : Int) (tile : Tile), d.tiles.get x y = .ok tile →
        (∃ q ∈ block3 x y, d.tiles.floorAt q.1 q.2 = true) →
        res.1.tiles.get x y = .ok tile) ∧
      (∀ r ∈ d.rooms, r.enclosed d.tiles = true → r.enclosed res.1.tiles = true) ∧
      ((∀ r ∈ d.rooms, r.enclosed d.tiles = true ∧ r.inMargin d.width d.height ∧
          r.edges = []) →
        ∃ d1, identifyEdges res.1 = .ok d1 ∧
          ∀ r1 ∈ d1.rooms, ∀ e ∈ r1.edges, d1.tiles.wallAt e = true) := by
  have htc : TunnelsClear d.tiles := by
    intro x y tile hg ht
    rcases hm x y tile hg with h | h <;> rw [h] at ht <;> cases ht
  obtain ⟨res, e, hs1, hcv, htc1, hrooms, hw1, hh1⟩ := createMaze_spec d g hs htc
  have hnear : ∀ (x y : Int) (tile : Tile), d.tiles.get x y = .ok tile →
      (∃ q ∈ block3 x y, d.tiles.floorAt q.1 q.2 = true) →
      res.1.tiles.get x y = .ok tile := by
    intro x y tile hg hq
    obtain ⟨q, hq1, hq2⟩ := hq
    rcases hcv x y with h | ⟨_, _, _, _, old, new, _, _, g1, m1⟩
    · rw [h]
      exact hg
    · exfalso
      have := htc1 x y new g1 m1 q hq1
      rw [Grid.carved_floorAt hcv, hq2] at this
      cases this
  have hencl : ∀ r ∈ d.rooms, r.enclosed d.tiles = true → r.enclosed res.1.tiles = true :=
    fun r _ h => Room.enclosed_of_near h (Grid.carved_floorAt hcv) hnear
  refine ⟨res, e, htc1, ?_, ?_, hnear, hencl, ?_⟩
  · intro x y tile hg hf
    exact Grid.carved_keep hcv hg (by rw [hf]; simp)
  · intro x y tile hg hf
    rcases hcv x y with h | ⟨_, _, _, _, old, new, _, _, g1, m1⟩
    · rw [← h]
      exact hg
    · rw [g1] at hg
      cases hg
      rw [m1] at hf
      cases hf
  · intro hr
    apply identifyEdges_enclosed
    · rw [hw1, hh1]
      exact hs1
    · intro r hmem
      rw [hrooms] at hmem
      obtain ⟨h1, h2, h3⟩ := hr r hmem
      rw [hw1, hh1]
      exact ⟨hencl r hmem h1, h2, h3⟩

theorem sampleRooms_hasSize :
    sampleRooms.1.tiles.HasSize sampleRooms.1.width sampleRooms.1.height := by
  have h : sampleRooms.1.tiles.Rect 9 7 := by decide
  have hw : sampleRooms.1.width = ((9 : Nat) : Int) := by decide
  have hh : sampleRooms.1.height = ((7 : Nat) : Int) := by decide
  rw [hw, hh]
  exact Grid.hasSize_of_rect h

/-- Witness of `createMaze_tunnels_clear_of_floor`: the 9 × 7 grid with two rooms of one
tile, both enclosed by WALL tiles and within the three-tile margin. -/
theorem createMaze_tunnels_clear_of_floor_witness :
    sampleRooms.1.tiles.HasSize sampleRooms.1.width sampleRooms.1.height ∧
    (∀ (x y : Int) (tile : Tile), sampleRooms.1.tiles.get x y = .ok tile →
      tile.material = Material.WALL ∨ tile.material = Material.FLOOR) ∧
    sampleRooms.1.tiles.get 3 3 = .ok ⟨1, Material.FLOOR⟩ ∧
    sampleRooms.1.rooms.length = 2 ∧
    (∀ r ∈ sampleRooms.1.rooms, r.enclosed sampleRooms.1.tiles = true ∧
      r.inMargin sampleRooms.1.width sampleRooms.1.height ∧ r.edges = []) ∧
    ∃ res, createMaze sampleRooms.1 sampleRooms.2 = .ok res ∧
      TunnelsClear res.1.tiles ∧
      (∀ (x y : Int) (tile : Tile), sampleRooms.1.tiles.get x y = .ok tile →
        tile.material = Material.FLOOR → res.1.tiles.get x y = .ok tile) ∧
      (∀ (x y : Int) (tile : Tile), res.1.tiles.get x y = .ok tile →
        tile.material = Material.FLOOR → sampleRooms.1.tiles.get x y = .ok tile) ∧
      (∀ (x y : Int) (tile : Tile), sampleRooms.1.tiles.get x y = .ok tile →
        (∃ q ∈ block3 x y, sampleRooms.1.tiles.floorAt q.1 q.2 = true) →
        res.1.tiles.get x y = .ok tile) ∧
      (∀ r ∈ sampleRooms.1.rooms, r.enclosed sampleRooms.1.tiles = true →
        r.enclosed res.1.tiles = true) ∧
      ((∀ r ∈ sampleRooms.1.rooms, r.enclosed sampleRooms.1.tiles = true ∧
          r.inMargin sampleRooms.1.width sampleRooms.1.height ∧ r.edges = []) →
        ∃ d1, identifyEdges res.1 = .ok d1 ∧
          ∀ r1 ∈ d1.rooms, ∀ e ∈ r1.edges, d1.tiles.wallAt e = true) :=
  ⟨sampleRooms_hasSize, Grid.forall_of_check (by decide), by decide, by decide, by decide,
    createMaze_tunnels_clear_of_floor sampleRooms.1 sampleRooms.2 sampleRooms_hasSize
      (Grid.forall_of_check (by decide))⟩

/-! ## A run without rooms -/

theorem continueTrimTunnels_tiles (P : Tile → Prop) (h0 : P ⟨0, Material.WALL⟩) :
    ∀ (fuel : Nat) (t t1 : Grid) (x y : Int),
      (∀ (a b : Int) (tile : Tile), t.get a b = .ok tile → P tile) →
      continueTrimTunnels fuel t x y = .ok t1 →
      ∀ (a b : Int) (tile : Tile), t1.get a b = .ok tile → P tile := by
  intro fuel
  induction fuel with
  | zero => intro t t1 x y _ h; simp [continueTrimTunnels] at h
  | succ fuel ih =>
    intro t t1 x y hl h
    simp only [continueTrimTunnels] at h
    cases hm : t.material x y with
    | error e => rw [hm] at h; cases h
    | ok m =>
      rw [hm] at h
      simp only at h
      split at h
      · cases hc : countWalls t (around4 x y) (0, ⟨0, 0⟩) with
        | error e => rw [hc] at h; cases h
        | ok r =>
          obtain ⟨wallCount, nextPoint⟩ := r
          rw [hc] at h
          simp only at h
          split at h
          · cases hw : t.modify x y (fun _ => ⟨0, Material.WALL⟩) with
            | error e => rw [hw] at h; cases h
            | ok t2 =>
              rw [hw] at h
              simp only at h
              have hl2 : ∀ (a b : Int) (tile : Tile), t2.get a b = .ok tile → P tile := by
                intro a b tile hg
                obtain ⟨old, _, h2, h3⟩ := Grid.modify_spec hw
                by_cases hab : a = x ∧ b = y
                · obtain ⟨rfl, rfl⟩ := hab
                  rw [h2] at hg
                  cases hg
                  exact h0
                · rw [h3 a b (not_and_or.mp hab)] at hg
                  exact hl a b tile hg
              split at h
              · exact ih t2 t1 _ _ hl2 h
              · simp only [Except.ok.injEq] at h
                subst h; exact hl2
          · simp only [Except.ok.injEq] at h
            subst h; exact hl
      · simp only [Except.ok.injEq] at h
        subst h; exact hl

theorem trimGrid_tiles (P : Tile → Prop) (h0 : P ⟨0, Material.WALL⟩)
    {gridWidth gridHeight : Int} {t t1 : Grid}
    (hl : ∀ (a b : Int) (tile : Tile), t.get a b = .ok tile → P tile)
    (h : forEachM (fun x t0 =>
        forEachM (fun y t2 => continueTrimTunnels (countPassage t2 + 1) t2 x y)
          (intRange 1 (gridHeight - 1)) t0)
        (intRange 1 (gridWidth - 1)) t = .ok t1) :
    ∀ (a b : Int) (tile : Tile), t1.get a b = .ok tile → P tile :=
  forEachM_inv (fun t => ∀ (a b : Int) (tile : Tile), t.get a b = .ok tile → P tile)
    (fun x _ s s1 hp hx =>
      forEachM_inv (fun t => ∀ (a b : Int) (tile : Tile), t.get a b = .ok tile → P tile)
        (fun y _ s2 s3 hp2 hy => continueTrimTunnels_tiles P h0 _ s2 s3 x y hp2 hy)
        s s1 hp hx)
    t t1 hl h

/-- Claim C11: for every width and height of at least 1, every pair of room sizes and every
sequence of random draws, `generateDungeon` with `roomAttempts = 0` completes, and the
dungeon it returns has an empty room list and no FLOOR or DOOR tile. -/
theorem generateDungeon_without_rooms (width height minRoomSize maxRoomSize : Int) (g : Rng)
    (hw : 1 ≤ width) (hh : 1 ≤ height) :
    ∃ d, generateDungeon width height 0 minRoomSize maxRoomSize g = .ok d ∧ d.rooms = [] ∧
      ∀ (x y : Int) (tile : Tile), d.tiles.get x y = .ok tile →
        tile.material ≠ Material.FLOOR ∧ tile.material ≠ Material.DOOR := by
  have e0 : createEmptyDungeon width height = .ok
      ⟨List.replicate height.toNat (List.replicate width.toNat zeroTile), [], width, height,
        0⟩ := by
    unfold createEmptyDungeon
    rw [if_neg (by omega), if_neg (by omega)]
  have e1 : createRooms
      ⟨List.replicate height.toNat (List.replicate width.toNat zeroTile), [], width, height, 0⟩
      minRoomSize maxRoomSize 0 g = .ok
      (⟨List.replicate height.toNat (List.replicate width.toNat zeroTile), [], width, height,
        0⟩, g) := by
    simp [createRooms, placeRooms, forEachM]
  have hrect : Grid.Rect (List.replicate height.toNat (List.replicate width.toNat zeroTile))
      width.toNat height.toNat := by
    refine ⟨List.length_replicate _ _, ?_⟩
    intro row hrow
    rw [(List.mem_replicate.mp hrow).2]
    exact List.length_replicate _ _
  have hs0 : Grid.HasSize (List.replicate height.toNat (List.replicate width.toNat zeroTile))
      width height := by
    have := Grid.hasSize_of_rect hrect
    rw [Int.toNat_of_nonneg (by omega), Int.toNat_of_nonneg (by omega)] at this
    exact this
  have hwall : ∀ (x y : Int) (tile : Tile),
      Grid.get (List.replicate height.toNat (List.replicate width.toNat zeroTile)) x y =
        .ok tile → tile = zeroTile := by
    intro x y tile hg
    exact replicate_get hg
  have htc : TunnelsClear (List.replicate height.toNat (List.replicate width.toNat zeroTile)) := by
    intro x y tile hg ht
    rw [hwall x y tile hg] at ht
    cases ht
  obtain ⟨res, e2, hs2, hcv, _, hrooms, hw2, hh2⟩ := createMaze_spec
    ⟨List.replicate height.toNat (List.replicate width.toNat zeroTile), [], width, height, 0⟩
    g hs0 htc
  obtain ⟨⟨t2, rooms2, w2, h2, n2⟩, g2⟩ := res
  simp only at hs2 hcv hrooms hw2 hh2
  subst rooms2 w2 h2
  have hmat : ∀ (x y : Int) (tile : Tile), t2.get x y = .ok tile →
      tile.material ≠ Material.FLOOR ∧ tile.material ≠ Material.DOOR := by
    intro x y tile hg
    rcases hcv x y with h | ⟨_, _, _, _, old, new, _, _, g1, m1⟩
    · rw [h] at hg
      rw [hwall x y tile hg]
      exact ⟨by decide, by decide⟩
    · rw [g1] at hg
      cases hg
      rw [m1]
      exact ⟨by decide, by decide⟩
  have hring : t2.WallRing width height := by
    intro x y tile hg hr
    rcases hcv x y with h | ⟨a1, a2, a3, a4, _⟩
    · rw [h] at hg
      rw [hwall x y tile hg]
      rfl
    · omega
  obtain ⟨t3, e5, _, _, _⟩ := trimGrid_spec t2 hs2 hring
  have hfinal := trimGrid_tiles
    (fun tile => tile.material ≠ Material.FLOOR ∧ tile.material ≠ Material.DOOR)
    ⟨by decide, by decide⟩ hmat e5
  have e3 : identifyEdges ⟨t2, [], width, height, n2⟩ = .ok ⟨t2, [], width, height, n2⟩ := by
    simp [identifyEdges, allRoomEdges]
  have e4 : connectRegions ⟨t2, [], width, height, n2⟩ g2 =
      .ok (⟨t2, [], width, height, n2⟩, g2) := by
    simp [connectRegions, forEachM, Rng.perm, permLoop, residualRooms]
  refine ⟨⟨t3, [], width, height, n2⟩, ?_, rfl, hfinal⟩
  unfold generateDungeon
  rw [e0]
  simp only
  rw [e1]
  simp only
  rw [e2]
  simp only
  rw [e3]
  simp only
  rw [e4]
  simp only
  unfold trimTunnels
  simp only
  rw [e5]

/-- Witness of `generateDungeon_without_rooms`: a 9 × 7 grid. -/
theorem generateDungeon_without_rooms_witness :
    ∃ d, generateDungeon 9 7 0 5 6 sampleRng = .ok d ∧ d.rooms = [] ∧
      ∀ (x y : Int) (tile : Tile), d.tiles.get x y = .ok tile →
        tile.material ≠ Material.FLOOR ∧ tile.material ≠ Material.DOOR :=
  generateDungeon_without_rooms 9 7 5 6 sampleRng (by decide) (by decide)


/-! ## What `connectRegions` may change -/

theorem Grid.doorFrame_refl (rooms : List Room) (t : Grid) : t.DoorFrame rooms t := by
  intro x y
  refine ⟨Iff.rfl, ?_⟩
  intro old new h1 h2
  rw [h1] at h2
  cases h2
  exact ⟨Or.inl rfl, Or.inl rfl⟩

theorem Grid.doorFrame_trans {rooms : List Room} {t t1 t2 : Grid}
    (h1 : t.DoorFrame rooms t1) (h2 : t1.DoorFrame rooms t2) : t.DoorFrame rooms t2 := by
  intro x y
  obtain ⟨a1, b1⟩ := h1 x y
  obtain ⟨a2, b2⟩ := h2 x y
  refine ⟨a2.trans a1, ?_⟩
  intro old new g0 g2
  obtain ⟨mid, g1⟩ := a1.mpr ⟨old, g0⟩
  obtain ⟨m1, r1⟩ := b1 old mid g0 g1
  obtain ⟨m2, r2⟩ := b2 mid new g1 g2
  constructor
  · rcases m2 with m2 | m2
    · rcases m1 with m1 | m1
      · exact Or.inl (m2.trans m1)
      · exact Or.inr ⟨m2.trans m1.1, m1.2⟩
    · exact Or.inr m2
  · rcases r2 with r2 | r2
    · rcases r1 with r1 | r1
      · exact Or.inl (r2.trans r1)
      · exact Or.inr r1
    · exact Or.inr r2

theorem Grid.doorFrame_mono {rooms rooms1 : List Room} {t t1 : Grid}
    (hsub : ∀ r ∈ rooms, r ∈ rooms1) (h : t.DoorFrame rooms t1) : t.DoorFrame rooms1 t1 := by
  intro x y
  obtain ⟨a, b⟩ := h x y
  refine ⟨a, ?_⟩
  intro old new g0 g1
  obtain ⟨m, r⟩ := b old new g0 g1
  constructor
  · rcases m with m | ⟨m, q, hq, he⟩
    · exact Or.inl m
    · exact Or.inr ⟨m, q, hsub q hq, he⟩
  · rcases r with r | ⟨q, hq, hc⟩
    · exact Or.inl r
    · exact Or.inr ⟨q, hsub q hq, hc⟩

theorem Grid.doorFrame_hasSize {rooms : List Room} {t t1 : Grid} {gridWidth gridHeight : Int}
    (h : t.DoorFrame rooms t1) (hs : t.HasSize gridWidth gridHeight) :
    t1.HasSize gridWidth gridHeight :=
  fun x y => ((h x y).1).trans (hs x y)

theorem setDoor_doorFrame {rooms : List Room} {room : Room} {e : Point} {t t1 : Grid}
    (hr : room ∈ rooms) (he : e ∈ room.edges) (h : setDoor t e.x e.y = .ok t1) :
    t.DoorFrame rooms t1 := by
  obtain ⟨old0, h1, h2, h3⟩ := Grid.modify_spec h
  intro x y
  refine ⟨Grid.modify_defined h x y, ?_⟩
  intro old new g0 g1
  by_cases hxy : x = e.x ∧ y = e.y
  · obtain ⟨rfl, rfl⟩ := hxy
    rw [h1] at g0
    cases g0
    rw [h2] at g1
    cases g1
    exact ⟨Or.inr ⟨rfl, room, hr, he⟩, Or.inl rfl⟩
  · rw [h3 x y (not_and_or.mp hxy), g0] at g1
    cases g1
    exact ⟨Or.inl rfl, Or.inl rfl⟩

theorem relabelRoom_get {room : Room} {region : Int} {t t1 : Grid}
    (h : relabelRoom t room region = .ok t1) (px py : Int) :
    t1.get px py =
      if room.covers px py then Except.map (fun tile => ⟨region, tile.material⟩) (t.get px py)
      else t.get px py := by
  unfold relabelRoom at h
  rw [fillRect_get (intRange_nodup _ _) (intRange_nodup _ _) h px py]
  simp only [mem_intRange]
  by_cases hc : (room.location.x ≤ px ∧ px < room.location.x + room.width) ∧
      room.location.y ≤ py ∧ py < room.location.y + room.height
  · have hc2 : room.covers px py := ⟨hc.1.1, hc.1.2, hc.2.1, hc.2.2⟩
    rw [if_pos hc, if_pos hc2]
  · have hc2 : ¬ room.covers px py := by
      rintro ⟨a, b, c, d⟩; exact hc ⟨⟨a, b⟩, c, d⟩
    rw [if_neg hc, if_neg hc2]

theorem relabelRoom_doorFrame {rooms : List Room} {room : Room} {region : Int} {t t1 : Grid}
    (hr : room ∈ rooms) (h : relabelRoom t room region = .ok t1) :
    t.DoorFrame rooms t1 := by
  intro x y
  have hd : (∃ tile, t1.get x y = .ok tile) ↔ (∃ tile, t.get x y = .ok tile) := by
    unfold relabelRoom at h
    exact (fillRect_defined h).1 x y
  refine ⟨hd, ?_⟩
  intro old new g0 g1
  rw [relabelRoom_get h x y, g0] at g1
  by_cases hc : room.covers x y
  · rw [if_pos hc] at g1
    cases g1
    exact ⟨Or.inl rfl, Or.inr ⟨room, hr, hc⟩⟩
  · rw [if_neg hc] at g1
    cases g1
    exact ⟨Or.inl rfl, Or.inl rfl⟩

theorem primaryStep_doorFrame {rooms : List Room} {room : Room} {s s1 : Grid × Rng}
    (hr : room ∈ rooms) (h : primaryStep room s = .ok s1) : s.1.DoorFrame rooms s1.1 := by
  unfold primaryStep at h
  cases hi : s.2.intn room.edges.length with
  | error e => rw [hi] at h; cases h
  | ok r =>
    obtain ⟨k, g1⟩ := r
    rw [hi] at h
    simp only at h
    cases he : room.edges[k.toNat]? with
    | none => rw [he] at h; cases h
    | some edge =>
      rw [he] at h
      simp only at h
      cases hc : s.1.get room.location.x room.location.y with
      | error e => rw [hc] at h; cases h
      | ok corner =>
        rw [hc] at h
        simp only at h
        cases hrd : readTiles s.1 (around8 edge) with
        | error e => rw [hrd] at h; cases h
        | ok surroundingTiles =>
          rw [hrd] at h
          simp only at h
          cases hf : surroundingTiles.find? (qualifies corner.region) with
          | none =>
            rw [hf] at h
            simp only [Except.ok.injEq] at h
            subst h
            exact Grid.doorFrame_refl _ _
          | some tile =>
            rw [hf] at h
            simp only at h
            cases hd : setDoor s.1 edge.x edge.y with
            | error e => rw [hd] at h; cases h
            | ok t1 =>
              rw [hd] at h
              simp only at h
              cases hrl : relabelRoom t1 room tile.region with
              | error e => rw [hrl] at h; cases h
              | ok t2 =>
                rw [hrl] at h
                simp only [Except.ok.injEq] at h
                subst h
                exact Grid.doorFrame_trans
                  (setDoor_doorFrame hr (List.getElem?_mem he) hd)
                  (relabelRoom_doorFrame hr hrl)

theorem primaryLoop_doorFrame {rooms : List Room} :
    ∀ (l : List Room) (s s1 : Grid × Rng), (∀ r ∈ l, r ∈ rooms) →
      forEachM primaryStep l s = .ok s1 → s.1.DoorFrame rooms s1.1 := by
  intro l
  induction l with
  | nil =>
    intro s s1 _ h
    simp only [forEachM, Except.ok.injEq] at h
    subst h
    exact Grid.doorFrame_refl _ _
  | cons a l ih =>
    intro s s1 hsub h
    simp only [forEachM] at h
    cases hp : primaryStep a s with
    | error e => rw [hp] at h; cases h
    | ok s2 =>
      rw [hp] at h
      exact Grid.doorFrame_trans (primaryStep_doorFrame (hsub a (List.mem_cons_self _ _)) hp)
        (ih s2 s1 (fun r hr => hsub r (List.mem_cons_of_mem _ hr)) h)

theorem residualEdges_doorFrame {rooms : List Room} {room : Room} (hr : room ∈ rooms) :
    ∀ (js : List Nat) (s s1 : Grid × List Int),
      residualEdges room js s = .ok s1 → s.1.DoorFrame rooms s1.1 := by
  intro js
  induction js with
  | nil =>
    intro s s1 h
    simp only [residualEdges, Except.ok.injEq] at h
    subst h
    exact Grid.doorFrame_refl _ _
  | cons j js ih =>
    intro s s1 h
    simp only [residualEdges] at h
    cases he : room.edges[j]? with
    | none => rw [he] at h; cases h
    | some edge =>
      rw [he] at h
      simp only at h
      cases hs : residualScan s.1 s.2 (around4 edge.x edge.y) (-1) with
      | error e => rw [hs] at h; cases h
      | ok o =>
        rw [hs] at h
        cases o with
        | none => exact ih s s1 h
        | some pr =>
          obtain ⟨region, curRegion⟩ := pr
          simp only at h
          cases hd : setDoor s.1 edge.x edge.y with
          | error e => rw [hd] at h; cases h
          | ok t1 =>
            rw [hd] at h
            simp only [Except.ok.injEq] at h
            subst h
            exact setDoor_doorFrame hr (List.getElem?_mem he) hd

theorem residualRooms_doorFrame {rooms : List Room} :
    ∀ (is : List Nat) (s s1 : Grid × List Int × Rng),
      residualRooms rooms is s = .ok s1 → s.1.DoorFrame rooms s1.1 := by
  intro is
  induction is with
  | nil =>
    intro s s1 h
    simp only [residualRooms, Except.ok.injEq] at h
    subst h
    exact Grid.doorFrame_refl _ _
  | cons i is ih =>
    intro s s1 h
    simp only [residualRooms] at h
    cases hr : rooms[i]? with
    | none => rw [hr] at h; cases h
    | some room =>
      rw [hr] at h
      simp only at h
      cases hq : s.2.2.perm room.edges.length with
      | error e => rw [hq] at h; cases h
      | ok r =>
        obtain ⟨edgePerm, g1⟩ := r
        rw [hq] at h
        simp only at h
        cases he : residualEdges room (List.range edgePerm.length) (s.1, s.2.1) with
        | error e => rw [he] at h; cases h
        | ok r2 =>
          obtain ⟨t1, connected⟩ := r2
          rw [he] at h
          simp only at h
          exact Grid.doorFrame_trans
            (residualEdges_doorFrame (List.getElem?_mem hr) _ _ _ he) (ih _ _ h)

theorem connectRegions_doorFrame {d : Dungeon} {g : Rng} {res : Dungeon × Rng}
    (h : connectRegions d g = .ok res) :
    d.tiles.DoorFrame d.rooms res.1.tiles ∧ res.1.rooms = d.rooms ∧
      res.1.width = d.width ∧ res.1.height = d.height := by
  unfold connectRegions at h
  cases hpr : forEachM primaryStep d.rooms (d.tiles, g) with
  | error e => rw [hpr] at h; cases h
  | ok s =>
    obtain ⟨t1, g1⟩ := s
    rw [hpr] at h
    simp only at h
    cases hq : g1.perm d.rooms.length with
    | error e => rw [hq] at h; cases h
    | ok r =>
      obtain ⟨roomPerm, g2⟩ := r
      rw [hq] at h
      simp only at h
      cases hr : residualRooms d.rooms (List.range roomPerm.length) (t1, [], g2) with
      | error e => rw [hr] at h; cases h
      | ok r2 =>
        obtain ⟨t2, c, g3⟩ := r2
        rw [hr] at h
        simp only [Except.ok.injEq] at h
        subst h
        exact ⟨Grid.doorFrame_trans (primaryLoop_doorFrame _ _ _ (fun r hr => hr) hpr)
          (residualRooms_doorFrame _ _ _ hr), rfl, rfl, rfl⟩

/-! ## The dungeon that reaches `connectRegions` -/

theorem placeRooms_sizes (gridWidth gridHeight minSize maxSize : Int) :
    ∀ (n : Nat) (rooms : List Room) (g : Rng) (res : List Room × Rng),
      placeRooms gridWidth gridHeight minSize maxSize n rooms g = .ok res →
      (∀ r ∈ rooms, minSize ≤ r.width ∧ minSize ≤ r.height ∧ r.edges = []) →
      ∀ r ∈ res.1, minSize ≤ r.width ∧ minSize ≤ r.height ∧ r.edges = [] := by
  intro n
  induction n with
  | zero =>
    intro rooms g res h hp
    simp only [placeRooms, Except.ok.injEq] at h
    subst h; exact hp
  | succ n ih =>
    intro rooms g res h hp
    simp only [placeRooms] at h
    cases ha : g.intn (maxSize - minSize) with
    | error e => rw [ha] at h; cases h
    | ok r1 =>
      obtain ⟨a, g1⟩ := r1
      rw [ha] at h
      simp only at h
      cases hb : g1.intn (maxSize - minSize) with
      | error e => rw [hb] at h; cases h
      | ok r2 =>
        obtain ⟨b, g2⟩ := r2
        rw [hb] at h
        simp only at h
        cases hc : g2.intn (gridWidth - (a + minSize) - 2 - 3) with
        | error e => rw [hc] at h; cases h
        | ok r3 =>
          obtain ⟨c, g3⟩ := r3
          rw [hc] at h
          simp only at h
          cases hd : g3.intn (gridHeight - (b + minSize) - 2 - 3) with
          | error e => rw [hd] at h; cases h
          | ok r4 =>
            obtain ⟨d, g4⟩ := r4
            rw [hd] at h
            simp only at h
            by_cases hall : rooms.all (clearOf (c + 3) (d + 3) (a + minSize) (b + minSize)) = true
            · rw [if_pos hall] at h
              refine ih _ _ _ h ?_
              intro r hr
              rcases List.mem_append.mp hr with hr | hr
              · exact hp r hr
              · simp only [List.mem_singleton] at hr
                subst hr
                have h1 := Rng.intn_spec ha
                have h2 := Rng.intn_spec hb
                simp only
                exact ⟨by omega, by omega, trivial⟩
            · rw [if_neg hall] at h
              exact ih _ _ _ h hp

theorem createRooms_tiles {width height minSize maxSize attempts : Int} {g : Rng}
    {d0 : Dungeon} {res : Dungeon × Rng}
    (h0 : createEmptyDungeon width height = .ok d0)
    (h : createRooms d0 minSize maxSize attempts g = .ok res) :
    res.1.numRegions = res.1.rooms.length ∧
    (∀ (k : Nat) (r : Room), res.1.rooms[k]? = some r → ∀ px py, r.covers px py →
      res.1.tiles.get px py = .ok ⟨(k : Int) + 1, Material.FLOOR⟩) ∧
    (∀ px py tile, res.1.tiles.get px py = .ok tile →
      (∀ r ∈ res.1.rooms, ¬ r.covers px py) → tile = ⟨0, Material.WALL⟩) ∧
    (∀ px py, (∃ tile, res.1.tiles.get px py = .ok tile) ↔
      (∃ tile, d0.tiles.get px py = .ok tile)) := by
  have hpw := createRooms_pairwise h
  obtain ⟨_, _, _, hn0, ht0⟩ := createEmptyDungeon_spec h0
  unfold createRooms at h
  cases hp : placeRooms d0.width d0.height minSize maxSize attempts.toNat [] g with
  | error e => rw [hp] at h; cases h
  | ok r =>
    obtain ⟨rooms, g1⟩ := r
    rw [hp] at h
    simp only at h
    cases hc : forEachM carveRoom rooms (d0.tiles, d0.numRegions) with
    | error e => rw [hc] at h; cases h
    | ok s =>
      obtain ⟨t, n⟩ := s
      rw [hc] at h
      simp only [Except.ok.injEq] at h
      subst h
      simp only at hpw ⊢
      have key := forEachM_inv_prefix
        (fun (pre : List Room) (s : Grid × Int) =>
          s.2 = pre.length ∧
          (∀ (k : Nat) (r : Room), pre[k]? = some r → ∀ px py, r.covers px py →
            s.1.get px py = .ok ⟨(k : Int) + 1, Material.FLOOR⟩) ∧
          (∀ px py tile, s.1.get px py = .ok tile →
            (∀ r ∈ pre, ¬ r.covers px py) → tile = zeroTile) ∧
          (∀ px py, (∃ tile, s.1.get px py = .ok tile) ↔
            (∃ tile, d0.tiles.get px py = .ok tile)))
        rooms
        (by
          rintro pre a post hl ⟨t0, n0⟩ ⟨t1, n1⟩ ⟨hn, hcov, hout, hdef⟩ hstep
          simp only at hn hcov hout hdef
          obtain ⟨hn1, hget⟩ := carveRoom_get hstep
          have hpa : ∀ q ∈ pre, Room.apart q a := by
            rw [hl, List.pairwise_append] at hpw
            intro q hq
            exact hpw.2.2 q hq a (List.mem_cons_self _ _)
          refine ⟨?_, ?_, ?_, ?_⟩
          · simp only [List.length_append, List.length_singleton, Nat.cast_add, Nat.cast_one]
            omega
          · intro k r hk px py hr
            rcases Nat.lt_or_ge k pre.length with hlt | hge
            · rw [List.getElem?_append_left hlt] at hk
              have hmem := List.getElem?_mem hk
              have hna : ¬ a.covers px py := Room.apart_not_covers (hpa r hmem) hr
              simp only
              rw [hget, if_neg hna]
              exact hcov k r hk px py hr
            · rw [List.getElem?_append_right hge] at hk
              have hk0 : k - pre.length = 0 := by
                rcases Nat.eq_zero_or_pos (k - pre.length) with h0 | h0
                · exact h0
                · rw [List.getElem?_eq_none (by simp only [List.length_singleton]; omega)] at hk
                  cases hk
              rw [hk0] at hk
              simp only [List.getElem?_cons_zero, Option.some.injEq] at hk
              subst hk
              have := carveRoom_covered hstep hr
              simp only
              rw [this]
              have : (k : Int) = n0 := by omega
              rw [this]
          · intro px py tile hg hnot
            have hna : ¬ a.covers px py := hnot a (by simp)
            simp only at hg
            rw [hget, if_neg hna] at hg
            exact hout px py tile hg (fun r hr => hnot r (by simp [hr]))
          · intro px py
            simp only
            refine Iff.trans ?_ (hdef px py)
            rw [hget]
            by_cases hcv : a.covers px py
            · rw [if_pos hcv]
              cases t0.get px py <;> simp [Except.map]
            · rw [if_neg hcv])
        (d0.tiles, d0.numRegions) (t, n)
        (by
          refine ⟨by simp [hn0], by simp, ?_, fun _ _ => Iff.rfl⟩
          intro px py tile hg _
          simp only at hg
          rw [ht0] at hg
          exact replicate_get hg)
        hc
      exact key

theorem createEmptyDungeon_hasSize {width height : Int} {d0 : Dungeon}
    (h0 : createEmptyDungeon width height = .ok d0) : d0.tiles.HasSize width height := by
  obtain ⟨_, _, _, _, ht⟩ := createEmptyDungeon_spec h0
  have hb : ¬ height < 0 ∧ ¬ (0 < height ∧ width < 0) := by
    unfold createEmptyDungeon at h0
    constructor
    · intro hc
      rw [if_pos hc] at h0
      cases h0
    · intro hc
      rw [if_neg (by omega), if_pos hc] at h0
      cases h0
  have hrect : Grid.Rect (List.replicate height.toNat (List.replicate width.toNat zeroTile))
      width.toNat height.toNat := by
    refine ⟨List.length_replicate _ _, ?_⟩
    intro row hrow
    rw [(List.mem_replicate.mp hrow).2]
    exact List.length_replicate _ _
  have hsz := Grid.hasSize_of_rect hrect
  rw [ht]
  intro x y
  rw [hsz x y]
  constructor
  · rintro ⟨a, b, c, d⟩
    omega
  · rintro ⟨a, b, c, d⟩
    omega

theorem Room.apart_box_not_covers {a b : Room} (h : Room.apart a b ∨ Room.apart b a)
    {px py : Int} (hx1 : a.location.x - 1 ≤ px) (hx2 : px ≤ a.location.x + a.width)
    (hy1 : a.location.y - 1 ≤ py) (hy2 : py ≤ a.location.y + a.height) :
    ¬ b.covers px py := by
  unfold Room.apart at h
  unfold Room.covers
  omega

theorem pairwise_apart_mem {rooms : List Room} (hp : rooms.Pairwise Room.apart)
    {a b : Room} (ha : a ∈ rooms) (hb : b ∈ rooms) : a = b ∨ Room.apart a b := by
  by_cases hab : a = b
  · exact Or.inl hab
  · exact Or.inr (hp.forall (fun _ _ h => Room.apart_symm h) ha hb hab)

theorem createRooms_furnished {width height minSize maxSize attempts : Int} {g : Rng}
    {d0 : Dungeon} {res : Dungeon × Rng} (hmin : 1 ≤ minSize)
    (h0 : createEmptyDungeon width height = .ok d0)
    (h : createRooms d0 minSize maxSize attempts g = .ok res) :
    res.1.Furnished ∧ res.1.width = width ∧ res.1.height = height ∧
    (∀ r ∈ res.1.rooms, r.edges = []) ∧
    (∀ (x y : Int) (tile : Tile), res.1.tiles.get x y = .ok tile →
      tile.material ≠ Material.TUNNEL) ∧
    res.1.numRegions = res.1.rooms.length := by
  obtain ⟨hn, hcov, hout, hdef⟩ := createRooms_tiles h0 h
  have hpw := createRooms_pairwise h
  obtain ⟨hw0, hh0, _, _, _⟩ := createEmptyDungeon_spec h0
  obtain ⟨_, _, _, hw1, hh1⟩ := createRooms_labelled (createEmptyDungeon_labelled h0).1
    (by rw [(createEmptyDungeon_labelled h0).2]) h
  rw [hw0] at hw1
  rw [hh0] at hh1
  obtain ⟨g0, hp⟩ := createRooms_rooms h
  have hsz := placeRooms_sizes d0.width d0.height minSize maxSize _ _ _ _ hp
    (by intro r hr; cases hr)
  have hmar := placeRooms_induct d0.width d0.height minSize maxSize
    (fun rooms => ∀ r ∈ rooms, r.inMargin d0.width d0.height)
    (by
      intro rooms r hrooms htrial q hq
      rcases List.mem_append.mp hq with hq | hq
      · exact hrooms q hq
      · simp only [List.mem_singleton] at hq
        subst hq; exact htrial.2.1)
    _ _ _ _ hp (by simp)
  simp only at hsz hmar
  rw [hw0, hh0] at hmar
  have hs : res.1.tiles.HasSize width height := by
    intro x y
    exact (hdef x y).trans (createEmptyDungeon_hasSize h0 x y)
  have htile : ∀ (x y : Int) (tile : Tile), res.1.tiles.get x y = .ok tile →
      tile = ⟨0, Material.WALL⟩ ∨
      (tile.material = Material.FLOOR ∧ 1 ≤ tile.region ∧ tile.region ≤ res.1.rooms.length) := by
    intro x y tile hg
    by_cases hc : ∃ r ∈ res.1.rooms, r.covers x y
    · obtain ⟨r, hr, hcv⟩ := hc
      obtain ⟨k, hk⟩ := List.getElem?_of_mem hr
      have := hcov k r hk x y hcv
      rw [this] at hg
      cases hg
      have hlt : k < res.1.rooms.length := by
        rcases Nat.lt_or_ge k res.1.rooms.length with h1 | h1
        · exact h1
        · rw [List.getElem?_eq_none h1] at hk; cases hk
      right
      simp only
      exact ⟨trivial, by omega, by omega⟩
    · left
      exact hout x y tile hg (fun r hr hcv => hc ⟨r, hr, hcv⟩)
  refine ⟨⟨?_, hpw, ?_, ?_⟩, hw1, hh1, fun r hr => (hsz r hr).2.2, ?_, hn⟩
  · rw [hw1, hh1]
    exact hs
  · intro r hr
    rw [hw1, hh1]
    refine ⟨hmar r hr, ?_⟩
    obtain ⟨s1, s2, _⟩ := hsz r hr
    have hm := hmar r hr
    unfold Room.inMargin at hm
    refine Room.enclosed_iff.mpr ⟨by omega, by omega, ?_⟩
    intro px py a b c d
    obtain ⟨tile, hg⟩ := (hs px py).mpr ⟨by omega, by omega, by omega, by omega⟩
    by_cases hc : r.covers px py
    · rw [if_pos hc]
      obtain ⟨k, hk⟩ := List.getElem?_of_mem hr
      unfold Grid.floorAt
      rw [hcov k r hk px py hc]
      rfl
    · rw [if_neg hc]
      have := hout px py tile hg (by
        intro q hq
        rcases pairwise_apart_mem hpw hr hq with rfl | hap
        · exact hc
        · exact Room.apart_box_not_covers (Or.inl hap) a b c d)
      exact wallAt_iff.mpr ⟨tile, hg, by rw [this]⟩
  · intro x y tile hg
    rcases htile x y tile hg with h1 | h1
    · exact Or.inl h1
    · exact Or.inr (Or.inl h1)
  · intro x y tile hg
    rcases htile x y tile hg with h1 | h1
    · rw [h1]; simp
    · rw [h1.1]; simp


theorem MazeRun.tiles {width height region : Int} {t t1 : Grid} {x y : Int}
    (h : MazeRun width height region t x y t1) (P : Tile → Prop)
    (hP : P ⟨region, Material.TUNNEL⟩) :
    (∀ (a b : Int) (tile : Tile), t.get a b = .ok tile → P tile) →
    ∀ (a b : Int) (tile : Tile), t1.get a b = .ok tile → P tile := by
  induction h with
  | stop _ => exact fun h0 => h0
  | @branch t0 t2 t3 t4 x0 y0 p _ hc _ _ ih1 ih2 =>
    intro h0
    apply ih2
    apply ih1
    intro a b tile hg
    obtain ⟨old, _, h2, h3⟩ := Grid.modify_spec hc
    by_cases hab : a = p.x ∧ b = p.y
    · obtain ⟨rfl, rfl⟩ := hab
      rw [h2] at hg
      cases hg
      exact hP
    · rw [h3 a b (not_and_or.mp hab)] at hg
      exact h0 a b tile hg

theorem mazeCell_regions {width height x y n0 : Int} {s s1 : Grid × Int × Rng}
    (hx1 : 1 ≤ x) (hx2 : x ≤ width - 2) (hy1 : 1 ≤ y) (hy2 : y ≤ height - 2)
    (hs : s.1.HasSize width height)
    (hn : n0 ≤ s.2.1)
    (ht : ∀ (a b : Int) (tile : Tile), s.1.get a b = .ok tile →
      tile.material = Material.TUNNEL → n0 < tile.region ∧ tile.region ≤ s.2.1)
    (h : mazeCell width height x y s = .ok s1) :
    s1.1.HasSize width height ∧ n0 ≤ s1.2.1 ∧
    ∀ (a b : Int) (tile : Tile), s1.1.get a b = .ok tile →
      tile.material = Material.TUNNEL → n0 < tile.region ∧ tile.region ≤ s1.2.1 := by
  unfold mazeCell at h
  rw [allWall_eq _ (block3_readable hs hx1 hx2 hy1 hy2)] at h
  cases hall : (block3 x y).all s.1.wallXY with
  | false =>
    rw [hall] at h
    simp only [Except.ok.injEq] at h
    subst h
    exact ⟨hs, hn, ht⟩
  | true =>
    rw [hall] at h
    simp only at h
    obtain ⟨res, e, run, hs1, _⟩ := @continueMaze_run width height (s.2.1 + 1)
      (countWall s.1 + 1) s.1 s.2.2 x y hs hx1 hx2 hy1 hy2 (Nat.lt_succ_self _)
    rw [e] at h
    simp only [Except.ok.injEq] at h
    subst h
    refine ⟨hs1, by simp only; omega, ?_⟩
    simp only
    exact run.tiles
      (fun tile => tile.material = Material.TUNNEL → n0 < tile.region ∧ tile.region ≤ s.2.1 + 1)
      (fun _ => ⟨by simp only; omega, by simp only; omega⟩)
      (fun a b tile hg hm => ⟨(ht a b tile hg hm).1, by have := (ht a b tile hg hm).2; omega⟩)

theorem createMaze_regions {d : Dungeon} {g : Rng} {res : Dungeon × Rng}
    (hs : d.tiles.HasSize d.width d.height)
    (hno : ∀ (a b : Int) (tile : Tile), d.tiles.get a b = .ok tile →
      tile.material ≠ Material.TUNNEL)
    (h : createMaze d g = .ok res) :
    ∀ (a b : Int) (tile : Tile), res.1.tiles.get a b = .ok tile →
      tile.material = Material.TUNNEL → d.numRegions < tile.region := by
  unfold createMaze at h
  cases hc : forEachM (fun x s =>
      forEachM (fun y s1 => mazeCell d.width d.height x y s1)
        (intRange 1 (d.height - 1)) s)
      (intRange 1 (d.width - 1)) (d.tiles, d.numRegions, g) with
  | error e => rw [hc] at h; cases h
  | ok s =>
    obtain ⟨t, n, g1⟩ := s
    rw [hc] at h
    simp only [Except.ok.injEq] at h
    subst h
    have key := forEachM_inv
      (P := fun (s : Grid × Int × Rng) => s.1.HasSize d.width d.height ∧ d.numRegions ≤ s.2.1 ∧
        ∀ (a b : Int) (tile : Tile), s.1.get a b = .ok tile →
          tile.material = Material.TUNNEL → d.numRegions < tile.region ∧ tile.region ≤ s.2.1)
      (by
        intro x hx s s1 hP hstep
        obtain ⟨hx1, hx2⟩ := mem_intRange.mp hx
        exact forEachM_inv
          (P := fun (s : Grid × Int × Rng) => s.1.HasSize d.width d.height ∧
            d.numRegions ≤ s.2.1 ∧
            ∀ (a b : Int) (tile : Tile), s.1.get a b = .ok tile →
              tile.material = Material.TUNNEL →
              d.numRegions < tile.region ∧ tile.region ≤ s.2.1)
          (by
            intro y hy s2 s3 hP2 hstep2
            obtain ⟨hy1, hy2⟩ := mem_intRange.mp hy
            exact mazeCell_regions hx1 (by omega) hy1 (by omega) hP2.1 hP2.2.1 hP2.2.2 hstep2)
          s s1 hP hstep)
      (d.tiles, d.numRegions, g) (t, n, g1)
      ⟨hs, Int.le_refl _, fun a b tile hg hm => absurd hm (hno a b tile hg)⟩ hc
    intro a b tile hg hm
    exact (key.2.2 a b tile hg hm).1

theorem createMaze_furnished {d : Dungeon} {g : Rng} {res : Dungeon × Rng}
    (hf : d.Furnished)
    (hno : ∀ (a b : Int) (tile : Tile), d.tiles.get a b = .ok tile →
      tile.material ≠ Material.TUNNEL)
    (hn : d.numRegions = d.rooms.length)
    (h : createMaze d g = .ok res) :
    res.1.Furnished ∧ res.1.rooms = d.rooms ∧ res.1.width = d.width ∧
      res.1.height = d.height := by
  obtain ⟨hs, hpw, hrooms, htiles⟩ := hf
  have htc : TunnelsClear d.tiles := fun x y tile hg ht => absurd ht (hno x y tile hg)
  obtain ⟨res0, e, hs1, hcv, htc1, hr1, hw1, hh1⟩ := createMaze_spec d g hs htc
  rw [h] at e
  cases e
  have hreg := createMaze_regions hs hno h
  have hnear : ∀ (x y : Int) (tile : Tile), d.tiles.get x y = .ok tile →
      (∃ q ∈ block3 x y, d.tiles.floorAt q.1 q.2 = true) →
      res.1.tiles.get x y = .ok tile := by
    intro x y tile hg hq
    obtain ⟨q, hq1, hq2⟩ := hq
    rcases hcv x y with h1 | ⟨_, _, _, _, old, new, _, _, g1, m1⟩
    · rw [h1]
      exact hg
    · exfalso
      have := htc1 x y new g1 m1 q hq1
      rw [Grid.carved_floorAt hcv, hq2] at this
      cases this
  refine ⟨⟨?_, ?_, ?_, ?_⟩, hr1, hw1, hh1⟩
  · rw [hw1, hh1]
    exact hs1
  · rw [hr1]
    exact hpw
  · intro r hr
    rw [hr1] at hr
    rw [hw1, hh1]
    exact ⟨(hrooms r hr).1,
      Room.enclosed_of_near (hrooms r hr).2 (Grid.carved_floorAt hcv) hnear⟩
  · intro x y tile hg
    rw [hr1]
    rcases hcv x y with h1 | ⟨_, _, _, _, old, new, _, _, g1, m1⟩
    · rw [h1] at hg
      exact htiles x y tile hg
    · rw [g1] at hg
      cases hg
      right
      right
      have := hreg x y tile g1 m1
      rw [hn] at this
      exact ⟨m1, this⟩

theorem identifyEdges_furnished {d d1 : Dungeon} (hf : d.Furnished)
    (he : ∀ r ∈ d.rooms, r.edges = [])
    (h : identifyEdges d = .ok d1) :
    d1.Furnished ∧ d1.width = d.width ∧ d1.height = d.height ∧
    ∀ r ∈ d1.rooms, r.edges = scannedEdges d1.tiles r := by
  obtain ⟨hs, hpw, hrooms, htiles⟩ := hf
  have ht : d.tiles.Readable d.width d.height :=
    fun x y a b c e => (hs x y).mpr ⟨a, b, c, e⟩
  have hr1 : ∀ r ∈ d.rooms, r.inMargin d.width d.height ∧ 0 ≤ r.width ∧ 0 ≤ r.height := by
    intro r hmem
    obtain ⟨h1, h2⟩ := hrooms r hmem
    obtain ⟨hw, hh, _⟩ := Room.enclosed_iff.mp h2
    exact ⟨h1, by omega, by omega⟩
  rw [identifyEdges_eq ht hr1] at h
  simp only [Except.ok.injEq] at h
  subst h
  refine ⟨⟨hs, ?_, ?_, ?_⟩, rfl, rfl, ?_⟩
  · simp only
    rw [List.pairwise_map]
    exact hpw
  · intro r1 hmem
    simp only [List.mem_map] at hmem
    obtain ⟨r, hr, rfl⟩ := hmem
    exact hrooms r hr
  · intro x y tile hg
    simp only [List.length_map]
    exact htiles x y tile hg
  · intro r1 hmem
    simp only [List.mem_map] at hmem
    obtain ⟨r, hr, rfl⟩ := hmem
    simp only [he r hr, List.nil_append]
    rfl

theorem stagesToEdges_furnished {gridWidth gridHeight roomAttempts minRoomSize maxRoomSize : Int}
    {g : Rng} {res : Dungeon × Rng} (hmin : 1 ≤ minRoomSize)
    (h : stagesToEdges gridWidth gridHeight roomAttempts minRoomSize maxRoomSize g = .ok res) :
    res.1.Furnished ∧ res.1.width = gridWidth ∧ res.1.height = gridHeight ∧
    ∀ r ∈ res.1.rooms, r.edges = scannedEdges res.1.tiles r := by
  unfold stagesToEdges stagesToMaze at h
  cases h0 : createEmptyDungeon gridWidth gridHeight with
  | error e => rw [h0] at h; cases h
  | ok d0 =>
    rw [h0] at h
    simp only at h
    cases h1 : createRooms d0 minRoomSize maxRoomSize roomAttempts g with
    | error e => rw [h1] at h; cases h
    | ok r1 =>
      obtain ⟨d1, g1⟩ := r1
      rw [h1] at h
      simp only at h
      obtain ⟨f1, w1, hh1, e1, no1, n1⟩ := createRooms_furnished hmin h0 h1
      cases h2 : createMaze d1 g1 with
      | error e => rw [h2] at h; cases h
      | ok r2 =>
        obtain ⟨d2, g2⟩ := r2
        rw [h2] at h
        simp only at h
        obtain ⟨f2, r2, w2, hh2⟩ := createMaze_furnished f1 no1 n1 h2
        cases h3 : identifyEdges d2 with
        | error e => rw [h3] at h; cases h
        | ok d3 =>
          rw [h3] at h
          simp only [Except.ok.injEq] at h
          subst h
          simp only at r2 w2 hh2 w1 hh1 e1 ⊢
          obtain ⟨f3, w3, hh3, e3⟩ := identifyEdges_furnished f2
            (by intro r hr; rw [r2] at hr; exact e1 r hr) h3
          exact ⟨f3, by rw [w3, w2, w1], by rw [hh3, hh2, hh1], e3⟩

/-! ## Doors -/

theorem Dungeon.Furnished.covered_floor {d : Dungeon} (hf : d.Furnished) {r : Room}
    (hr : r ∈ d.rooms) {x y : Int} (hc : r.covers x y) :
    ∃ tile, d.tiles.get x y = .ok tile ∧ tile.material = Material.FLOOR := by
  obtain ⟨_, _, hrooms, _⟩ := hf
  obtain ⟨_, _, hall⟩ := Room.enclosed_iff.mp (hrooms r hr).2
  have hc0 := hc
  unfold Room.covers at hc0
  have := hall x y (by omega) (by omega) (by omega) (by omega)
  rw [if_pos hc] at this
  unfold Grid.floorAt at this
  cases hg : d.tiles.get x y with
  | error e => rw [hg] at this; cases this
  | ok tile =>
    rw [hg] at this
    exact ⟨tile, rfl, by simpa using this⟩

theorem Dungeon.Furnished.edge_wall {d : Dungeon} (hf : d.Furnished)
    (he : ∀ r ∈ d.rooms, r.edges = scannedEdges d.tiles r) {r : Room}
    (hr : r ∈ d.rooms) {e : Point} (hmem : e ∈ r.edges) :
    d.tiles.get e.x e.y = .ok ⟨0, Material.WALL⟩ := by
  obtain ⟨_, _, hrooms, htiles⟩ := hf
  rw [he r hr] at hmem
  obtain ⟨tile, hg, hm⟩ := wallAt_iff.mp (Room.enclosed_edges (hrooms r hr).2 e hmem)
  rcases htiles e.x e.y tile hg with h | h | h
  · rw [hg, h]
  · rw [h.1] at hm; cases hm
  · rw [h.1] at hm; cases hm

theorem connectRegions_doors {d : Dungeon} {g : Rng} {res : Dungeon × Rng}
    (hf : d.Furnished) (he : ∀ r ∈ d.rooms, r.edges = scannedEdges d.tiles r)
    (h : connectRegions d g = .ok res) :
    ∀ (x y : Int) (tile : Tile), res.1.tiles.get x y = .ok tile →
      tile.material = Material.DOOR →
      tile.region = 0 ∧ d.tiles.get x y = .ok ⟨0, Material.WALL⟩ ∧
        ∃ r ∈ d.rooms, (⟨x, y⟩ : Point) ∈ r.edges := by
  obtain ⟨hfr, _, _, _⟩ := connectRegions_doorFrame h
  intro x y tile hg hm
  obtain ⟨hdom, hch⟩ := hfr x y
  obtain ⟨old, hold⟩ := hdom.mp ⟨tile, hg⟩
  obtain ⟨hmat, hreg⟩ := hch old tile hold hg
  have hedge : ∃ r ∈ d.rooms, (⟨x, y⟩ : Point) ∈ r.edges := by
    rcases hmat with h1 | h1
    · exfalso
      rw [hm] at h1
      rcases hf.2.2.2 x y old hold with h2 | h2 | h2
      · rw [h2] at h1; cases h1
      · rw [h2.1] at h1; cases h1
      · rw [h2.1] at h1; cases h1
    · exact h1.2
  obtain ⟨r, hr, hmem⟩ := hedge
  have hw := hf.edge_wall he hr hmem
  simp only at hw
  rw [hold] at hw
  cases hw
  refine ⟨?_, hold, r, hr, hmem⟩
  rcases hreg with h1 | ⟨q, hq, hc⟩
  · exact h1
  · exfalso
    obtain ⟨t0, hg0, hm0⟩ := hf.covered_floor hq hc
    rw [hold] at hg0
    cases hg0
    cases hm0

theorem continueTrimTunnels_tilesAt (P : Int → Int → Tile → Prop)
    (h0 : ∀ a b, P a b ⟨0, Material.WALL⟩) :
    ∀ (fuel : Nat) (t t1 : Grid) (x y : Int),
      (∀ (a b : Int) (tile : Tile), t.get a b = .ok tile → P a b tile) →
      continueTrimTunnels fuel t x y = .ok t1 →
      ∀ (a b : Int) (tile : Tile), t1.get a b = .ok tile → P a b tile := by
  intro fuel
  induction fuel with
  | zero => intro t t1 x y _ h; simp [continueTrimTunnels] at h
  | succ fuel ih =>
    intro t t1 x y hl h
    simp only [continueTrimTunnels] at h
    cases hm : t.material x y with
    | error e => rw [hm] at h; cases h
    | ok m =>
      rw [hm] at h
      simp only at h
      split at h
      · cases hc : countWalls t (around4 x y) (0, ⟨0, 0⟩) with
        | error e => rw [hc] at h; cases h
        | ok r =>
          obtain ⟨wallCount, nextPoint⟩ := r
          rw [hc] at h
          simp only at h
          split at h
          · cases hw : t.modify x y (fun _ => ⟨0, Material.WALL⟩) with
            | error e => rw [hw] at h; cases h
            | ok t2 =>
              rw [hw] at h
              simp only at h
              have hl2 : ∀ (a b : Int) (tile : Tile), t2.get a b = .ok tile → P a b tile := by
                intro a b tile hg
                obtain ⟨old, _, h2, h3⟩ := Grid.modify_spec hw
                by_cases hab : a = x ∧ b = y
                · obtain ⟨rfl, rfl⟩ := hab
                  rw [h2] at hg
                  cases hg
                  exact h0 _ _
                · rw [h3 a b (not_and_or.mp hab)] at hg
                  exact hl a b tile hg
              split at h
              · exact ih t2 t1 _ _ hl2 h
              · simp only [Except.ok.injEq] at h
                subst h; exact hl2
          · simp only [Except.ok.injEq] at h
            subst h; exact hl
      · simp only [Except.ok.injEq] at h
        subst h; exact hl

theorem trimTunnels_tilesAt {d d1 : Dungeon} (h : trimTunnels d = .ok d1) :
    ∀ (a b : Int) (tile : Tile), d1.tiles.get a b = .ok tile →
      tile = ⟨0, Material.WALL⟩ ∨ d.tiles.get a b = .ok tile := by
  unfold trimTunnels at h
  cases hc : forEachM (fun x t =>
      forEachM (fun y t1 => continueTrimTunnels (countPassage t1 + 1) t1 x y)
        (intRange 1 (d.height - 1)) t)
      (intRange 1 (d.width - 1)) d.tiles with
  | error e => rw [hc] at h; cases h
  | ok t =>
    rw [hc] at h
    simp only [Except.ok.injEq] at h
    subst h
    exact forEachM_inv
      (P := fun (t0 : Grid) => ∀ (a b : Int) (tile : Tile), t0.get a b = .ok tile →
        tile = ⟨0, Material.WALL⟩ ∨ d.tiles.get a b = .ok tile)
      (by
        intro x _ t0 t2 hP hstep
        exact forEachM_inv
          (P := fun (t0 : Grid) => ∀ (a b : Int) (tile : Tile), t0.get a b = .ok tile →
            tile = ⟨0, Material.WALL⟩ ∨ d.tiles.get a b = .ok tile)
          (by
            intro y _ t3 t4 hP3 hstep3
            exact continueTrimTunnels_tilesAt
              (fun a b tile => tile = ⟨0, Material.WALL⟩ ∨ d.tiles.get a b = .ok tile)
              (fun _ _ => Or.inl rfl) _ _ _ _ _ hP3 hstep3)
          t0 t2 hP hstep)
      d.tiles t (fun a b tile hg => Or.inr hg) hc

theorem generateDungeon_stages {gridWidth gridHeight roomAttempts minRoomSize maxRoomSize : Int}
    {g : Rng} {d : Dungeon}
    (h : generateDungeon gridWidth gridHeight roomAttempts minRoomSize maxRoomSize g = .ok d) :
    ∃ d3 g3 d4 g4,
      stagesToEdges gridWidth gridHeight roomAttempts minRoomSize maxRoomSize g = .ok (d3, g3) ∧
      connectRegions d3 g3 = .ok (d4, g4) ∧ trimTunnels d4 = .ok d := by
  unfold generateDungeon at h
  unfold stagesToEdges stagesToMaze
  cases h0 : createEmptyDungeon gridWidth gridHeight with
  | error e => rw [h0] at h; cases h
  | ok d0 =>
    rw [h0] at h
    simp only at h ⊢
    cases h1 : createRooms d0 minRoomSize maxRoomSize roomAttempts g with
    | error e => rw [h1] at h; cases h
    | ok r1 =>
      obtain ⟨d1, g1⟩ := r1
      rw [h1] at h
      simp only at h ⊢
      cases h2 : createMaze d1 g1 with
      | error e => rw [h2] at h; cases h
      | ok r2 =>
        obtain ⟨d2, g2⟩ := r2
        rw [h2] at h
        simp only at h ⊢
        cases h3 : identifyEdges d2 with
        | error e => rw [h3] at h; cases h
        | ok d3 =>
          rw [h3] at h
          simp only at h ⊢
          cases h4 : connectRegions d3 g2 with
          | error e => rw [h4] at h; cases h
          | ok r4 =>
            obtain ⟨d4, g4⟩ := r4
            rw [h4] at h
            simp only at h
            exact ⟨d3, g2, d4, g4, rfl, h4, h⟩

theorem generateDungeon_door_region
    {gridWidth gridHeight roomAttempts minRoomSize maxRoomSize : Int} {g : Rng} {d : Dungeon}
    (hmin : 1 ≤ minRoomSize)
    (h : generateDungeon gridWidth gridHeight roomAttempts minRoomSize maxRoomSize g = .ok d) :
    ∀ (x y : Int) (tile : Tile), d.tiles.get x y = .ok tile →
      tile.material = Material.DOOR → tile.region = 0 := by
  obtain ⟨d3, g3, d4, g4, h3, h4, h5⟩ := generateDungeon_stages h
  obtain ⟨hf, _, _, he⟩ := stagesToEdges_furnished hmin h3
  intro x y tile hg hm
  rcases trimTunnels_tilesAt h5 x y tile hg with h6 | h6
  · rw [h6]
  · exact (connectRegions_doors hf he h4 x y tile h6 hm).1

/-! ## `connectRegions` completes and makes doors -/

theorem permLoop_ok : ∀ (k i : Nat) (m : List Int) (g : Rng), ∃ res, permLoop k i m g = .ok res := by
  intro k
  induction k with
  | zero => intro i m g; exact ⟨_, rfl⟩
  | succ k ih =>
    intro i m g
    simp only [permLoop]
    have hi : g.intn ((i : Int) + 1) =
        .ok (((g.draws g.pos : Nat) : Int) % ((i : Int) + 1), ⟨g.draws, g.pos + 1⟩) := by
      unfold Rng.intn
      rw [if_neg (by omega)]
    rw [hi]
    exact ih _ _ _

theorem readTiles_mem_of {t : Grid} :
    ∀ (ps : List (Int × Int)) (tiles : List Tile), readTiles t ps = .ok tiles →
      ∀ p ∈ ps, ∀ tile, t.get p.1 p.2 = .ok tile → tile ∈ tiles := by
  intro ps
  induction ps with
  | nil => intro tiles _ p hp; cases hp
  | cons q ps ih =>
    intro tiles h p hp tile hgp
    obtain ⟨x, y⟩ := q
    simp only [readTiles] at h
    cases hg : t.get x y with
    | error e => rw [hg] at h; cases h
    | ok tl =>
      rw [hg] at h
      simp only at h
      cases hr : readTiles t ps with
      | error e => rw [hr] at h; cases h
      | ok tls =>
        rw [hr] at h
        simp only [Except.ok.injEq] at h
        subst h
        rcases List.mem_cons.mp hp with rfl | h2
        · simp only at hgp
          rw [hg] at hgp
          cases hgp
          exact List.mem_cons_self _ _
        · exact List.mem_cons_of_mem _ (ih tls hr p h2 tile hgp)

theorem Dungeon.Furnished.edge_interior {d : Dungeon} (hf : d.Furnished)
    (he : ∀ r ∈ d.rooms, r.edges = scannedEdges d.tiles r) {r : Room}
    (hr : r ∈ d.rooms) {e : Point} (hmem : e ∈ r.edges) :
    1 ≤ e.x ∧ e.x ≤ d.width - 2 ∧ 1 ≤ e.y ∧ e.y ≤ d.height - 2 := by
  obtain ⟨_, _, hrooms, _⟩ := hf
  obtain ⟨hm, henc⟩ := hrooms r hr
  obtain ⟨hw, hh, _⟩ := Room.enclosed_iff.mp henc
  unfold Room.inMargin at hm
  rw [he r hr] at hmem
  rcases mem_scannedEdges.mp hmem with ⟨j, h1, h2, (⟨rfl, _⟩ | ⟨rfl, _⟩)⟩ |
    ⟨k, h1, h2, (⟨rfl, _⟩ | ⟨rfl, _⟩)⟩ <;> (simp only; omega)

theorem primaryStep_spec {gridWidth gridHeight : Int} {room : Room} {t : Grid} {g : Rng}
    (hs : t.HasSize gridWidth gridHeight)
    (hm : room.inMargin gridWidth gridHeight) (hw : 1 ≤ room.width) (hh : 1 ≤ room.height)
    (hne : room.edges ≠ [])
    (hint : ∀ e ∈ room.edges, 1 ≤ e.x ∧ e.x ≤ gridWidth - 2 ∧ 1 ≤ e.y ∧ e.y ≤ gridHeight - 2) :
    ∃ k g1 e corner ns t1, g.intn room.edges.length = .ok (k, g1) ∧
      room.edges[k.toNat]? = some e ∧
      t.get room.location.x room.location.y = .ok corner ∧
      readTiles t (around8 e) = .ok ns ∧
      primaryStep room (t, g) = .ok (t1, g1) ∧
      ((∃ n ∈ ns, qualifies corner.region n = true) →
        ∃ tile, t1.get e.x e.y = .ok tile ∧ tile.material = Material.DOOR) := by
  have hlen : 0 < room.edges.length := List.length_pos.mpr hne
  have hi : g.intn room.edges.length =
      .ok (((g.draws g.pos : Nat) : Int) % (room.edges.length : Int), ⟨g.draws, g.pos + 1⟩) := by
    unfold Rng.intn
    rw [if_neg (by omega)]
  obtain ⟨_, hk0, hk1⟩ := Rng.intn_spec hi
  have hlt : (((g.draws g.pos : Nat) : Int) % (room.edges.length : Int)).toNat <
      room.edges.length := by omega
  obtain ⟨e, hedge, hmem⟩ : ∃ e, room.edges[(((g.draws g.pos : Nat) : Int) %
      (room.edges.length : Int)).toNat]? = some e ∧ e ∈ room.edges :=
    ⟨_, List.getElem?_eq_getElem hlt, List.getElem_mem hlt⟩
  unfold Room.inMargin at hm
  obtain ⟨corner, hcorner⟩ := (hs room.location.x room.location.y).mpr
    ⟨by omega, by omega, by omega, by omega⟩
  obtain ⟨ns, hns⟩ := readTiles_ok (around8 e) (around8_readable hs (hint e hmem))
  have hie := hint e hmem
  cases hf : ns.find? (qualifies corner.region) with
  | none =>
    refine ⟨_, _, e, corner, ns, t, hi, hedge, hcorner, hns, ?_, ?_⟩
    · unfold primaryStep
      simp only [hi, hedge, hcorner, hns, hf]
    · rintro ⟨n, hn, hq⟩
      exact absurd hq (by simpa using List.find?_eq_none.mp hf n hn)
  | some tile =>
    obtain ⟨old, hold⟩ := (hs e.x e.y).mpr ⟨by omega, by omega, by omega, by omega⟩
    obtain ⟨t2, hd⟩ := Grid.modify_of_get (fun tile => ⟨tile.region, Material.DOOR⟩) hold
    have hd2 : setDoor t e.x e.y = .ok t2 := hd
    have hs2 : t2.HasSize gridWidth gridHeight :=
      fun x y => (Grid.modify_defined hd x y).trans (hs x y)
    obtain ⟨t3, hrl⟩ := @fillRect_ok (fun tl => ⟨tile.region, tl.material⟩)
      (intRange room.location.y (room.location.y + room.height))
      (intRange room.location.x (room.location.x + room.width)) t2
      (by
        intro px hpx py hpy
        rw [mem_intRange] at hpx hpy
        exact (hs2 px py).mpr ⟨by omega, by omega, by omega, by omega⟩)
    have hrl2 : relabelRoom t2 room tile.region = .ok t3 := hrl
    refine ⟨_, _, e, corner, ns, t3, hi, hedge, hcorner, hns, ?_, fun _ => ?_⟩
    · unfold primaryStep
      simp only [hi, hedge, hcorner, hns, hf, hd2, hrl2]
    · obtain ⟨old1, h1, h2, _⟩ := Grid.modify_spec hd
      rw [relabelRoom_get hrl2, h2]
      split
      · exact ⟨_, rfl, rfl⟩
      · exact ⟨_, rfl, rfl⟩

theorem primaryLoop_ok {gridWidth gridHeight : Int} :
    ∀ (l : List Room) (s : Grid × Rng),
      (∀ r ∈ l, r.inMargin gridWidth gridHeight ∧ 1 ≤ r.width ∧ 1 ≤ r.height ∧ r.edges ≠ [] ∧
        ∀ e ∈ r.edges, 1 ≤ e.x ∧ e.x ≤ gridWidth - 2 ∧ 1 ≤ e.y ∧ e.y ≤ gridHeight - 2) →
      s.1.HasSize gridWidth gridHeight →
      ∃ s1, forEachM primaryStep l s = .ok s1 := by
  intro l
  induction l with
  | nil => intro s _ _; exact ⟨s, rfl⟩
  | cons a l ih =>
    intro s hl hs
    obtain ⟨t, g⟩ := s
    obtain ⟨h1, h2, h3, h4, h5⟩ := hl a (List.mem_cons_self _ _)
    obtain ⟨k, g1, e, corner, ns, t1, _, _, _, _, hstep, _⟩ :=
      @primaryStep_spec gridWidth gridHeight a t g hs h1 h2 h3 h4 h5
    have hs1 : t1.HasSize gridWidth gridHeight :=
      Grid.doorFrame_hasSize
        (@primaryStep_doorFrame [a] a (t, g) (t1, g1) (List.mem_cons_self _ _) hstep) hs
    obtain ⟨s1, h6⟩ := ih (t1, g1) (fun r hr => hl r (List.mem_cons_of_mem _ hr)) hs1
    exact ⟨s1, by simp only [forEachM, hstep, h6]⟩

theorem residualScan_ok {t : Grid} (connected : List Int) :
    ∀ (ps : List Point) (cur : Int), (∀ p ∈ ps, ∃ tile, t.get p.x p.y = .ok tile) →
      ∃ r, residualScan t connected ps cur = .ok r := by
  intro ps
  induction ps with
  | nil => intro cur _; exact ⟨none, rfl⟩
  | cons p ps ih =>
    intro cur h
    obtain ⟨tile, hg⟩ := h p (List.mem_cons_self _ _)
    have hrest := fun c => ih c (fun q hq => h q (List.mem_cons_of_mem _ hq))
    simp only [residualScan, hg]
    split
    · exact hrest _
    · split
      · exact ⟨_, rfl⟩
      · exact hrest _

theorem around4_readable_of_interior {t : Grid} {gridWidth gridHeight : Int} {e : Point}
    (hs : t.HasSize gridWidth gridHeight)
    (he : 1 ≤ e.x ∧ e.x ≤ gridWidth - 2 ∧ 1 ≤ e.y ∧ e.y ≤ gridHeight - 2) :
    ∀ p ∈ around4 e.x e.y, ∃ tile, t.get p.x p.y = .ok tile := by
  intro p hp
  simp only [around4, List.mem_cons, List.mem_singleton, List.not_mem_nil, or_false] at hp
  rcases hp with rfl | rfl | rfl | rfl <;>
    exact (hs _ _).mpr ⟨by simp only; omega, by simp only; omega, by simp only; omega,
      by simp only; omega⟩

theorem residualEdges_ok {gridWidth gridHeight : Int} {room : Room}
    (hint : ∀ e ∈ room.edges, 1 ≤ e.x ∧ e.x ≤ gridWidth - 2 ∧ 1 ≤ e.y ∧ e.y ≤ gridHeight - 2) :
    ∀ (js : List Nat) (s : Grid × List Int), (∀ j ∈ js, j < room.edges.length) →
      s.1.HasSize gridWidth gridHeight → ∃ s1, residualEdges room js s = .ok s1 := by
  intro js
  induction js with
  | nil => intro s _ _; exact ⟨s, rfl⟩
  | cons j js ih =>
    intro s hj hs
    have hlt := hj j (List.mem_cons_self _ _)
    obtain ⟨e, hedge, hmem⟩ : ∃ e, room.edges[j]? = some e ∧ e ∈ room.edges :=
      ⟨_, List.getElem?_eq_getElem hlt, List.getElem_mem hlt⟩
    have hie := hint e hmem
    obtain ⟨r, hr⟩ := residualScan_ok s.2 (around4 e.x e.y) (-1)
      (around4_readable_of_interior hs hie)
    simp only [residualEdges, hedge, hr]
    cases r with
    | none => exact ih s (fun i hi => hj i (List.mem_cons_of_mem _ hi)) hs
    | some pr =>
      obtain ⟨region, curRegion⟩ := pr
      simp only
      obtain ⟨old, hold⟩ := (hs e.x e.y).mpr ⟨by omega, by omega, by omega, by omega⟩
      obtain ⟨t2, hd⟩ := Grid.modify_of_get (fun tile => ⟨tile.region, Material.DOOR⟩) hold
      have hd2 : setDoor s.1 e.x e.y = .ok t2 := hd
      rw [hd2]
      exact ⟨_, rfl⟩

theorem Rng.perm_ok (g : Rng) (n : Nat) : ∃ res, g.perm n = .ok res ∧ res.1.length = n := by
  obtain ⟨res, h⟩ := permLoop_ok n 0 (List.replicate n 0) g
  refine ⟨res, h, ?_⟩
  rw [permLoop_length _ _ _ _ _ h, List.length_replicate]

theorem residualRooms_ok {gridWidth gridHeight : Int} {rooms : List Room}
    (hint : ∀ r ∈ rooms, ∀ e ∈ r.edges,
      1 ≤ e.x ∧ e.x ≤ gridWidth - 2 ∧ 1 ≤ e.y ∧ e.y ≤ gridHeight - 2) :
    ∀ (is : List Nat) (s : Grid × List Int × Rng), (∀ i ∈ is, i < rooms.length) →
      s.1.HasSize gridWidth gridHeight → ∃ s1, residualRooms rooms is s = .ok s1 := by
  intro is
  induction is with
  | nil => intro s _ _; exact ⟨s, rfl⟩
  | cons i is ih =>
    intro s hi hs
    have hlt := hi i (List.mem_cons_self _ _)
    obtain ⟨room, hroom, hmem⟩ : ∃ r, rooms[i]? = some r ∧ r ∈ rooms :=
      ⟨_, List.getElem?_eq_getElem hlt, List.getElem_mem hlt⟩
    obtain ⟨pr, hperm, hplen⟩ := Rng.perm_ok s.2.2 room.edges.length
    obtain ⟨edgePerm, g1⟩ := pr
    obtain ⟨s1, he⟩ := residualEdges_ok (hint room hmem) (List.range edgePerm.length)
      (s.1, s.2.1) (by
        intro j hj
        simp only at hplen
        rw [List.mem_range, hplen] at hj
        exact hj) hs
    obtain ⟨t1, connected⟩ := s1
    have hs1 : t1.HasSize gridWidth gridHeight :=
      Grid.doorFrame_hasSize (residualEdges_doorFrame hmem _ _ _ he) hs
    obtain ⟨s2, h2⟩ := ih (t1, connected, g1)
      (fun k hk => hi k (List.mem_cons_of_mem _ hk)) hs1
    exact ⟨s2, by simp only [residualRooms, hroom, hperm, he, h2]⟩

theorem Dungeon.Furnished.room_ready {d : Dungeon} (hf : d.Furnished)
    (he : ∀ r ∈ d.rooms, r.edges = scannedEdges d.tiles r)
    (hne : ∀ r ∈ d.rooms, r.edges ≠ []) :
    ∀ r ∈ d.rooms, r.inMargin d.width d.height ∧ 1 ≤ r.width ∧ 1 ≤ r.height ∧ r.edges ≠ [] ∧
      ∀ e ∈ r.edges, 1 ≤ e.x ∧ e.x ≤ d.width - 2 ∧ 1 ≤ e.y ∧ e.y ≤ d.height - 2 := by
  intro r hr
  obtain ⟨hm, henc⟩ := hf.2.2.1 r hr
  obtain ⟨hw, hh, _⟩ := Room.enclosed_iff.mp henc
  exact ⟨hm, hw, hh, hne r hr, fun e hmem => hf.edge_interior he hr hmem⟩

theorem connectRegions_ok {d : Dungeon} (g : Rng) (hf : d.Furnished)
    (he : ∀ r ∈ d.rooms, r.edges = scannedEdges d.tiles r)
    (hne : ∀ r ∈ d.rooms, r.edges ≠ []) :
    ∃ res, connectRegions d g = .ok res := by
  have hready := hf.room_ready he hne
  obtain ⟨s1, h1⟩ := primaryLoop_ok d.rooms (d.tiles, g) hready hf.1
  obtain ⟨t1, g1⟩ := s1
  have hs1 : t1.HasSize d.width d.height :=
    Grid.doorFrame_hasSize (primaryLoop_doorFrame d.rooms _ _ (fun r hr => hr) h1) hf.1
  obtain ⟨pr, hperm, hplen⟩ := Rng.perm_ok g1 d.rooms.length
  obtain ⟨roomPerm, g2⟩ := pr
  obtain ⟨s2, h2⟩ := residualRooms_ok (fun r hr e hmem => (hready r hr).2.2.2.2 e hmem)
    (List.range roomPerm.length) (t1, [], g2) (by
      intro i hi
      simp only at hplen
      rw [List.mem_range, hplen] at hi
      exact hi) hs1
  obtain ⟨t2, c, g3⟩ := s2
  exact ⟨(⟨t2, d.rooms, d.width, d.height, d.numRegions⟩, g3),
    by simp only [connectRegions, h1, hperm, h2]⟩

theorem split_at_index {α : Type} {l : List α} {i : Nat} {a : α} (h : l[i]? = some a) :
    l = l.take i ++ a :: l.drop (i + 1) := by
  induction l generalizing i with
  | nil => simp at h
  | cons b l ih =>
    cases i with
    | zero =>
      simp only [List.getElem?_cons_zero, Option.some.injEq] at h
      subst h
      simp
    | succ i =>
      simp only [List.getElem?_cons_succ] at h
      simp only [List.take_succ_cons, List.drop_succ_cons, List.cons_append]
      rw [← ih h]

theorem Dungeon.Furnished.keep {d : Dungeon} (hf : d.Furnished)
    (he : ∀ r ∈ d.rooms, r.edges = scannedEdges d.tiles r)
    {l : List Room} (hsub : ∀ r ∈ l, r ∈ d.rooms) {t : Grid}
    (hfr : d.tiles.DoorFrame l t) {x y : Int} {old : Tile}
    (hg : d.tiles.get x y = .ok old) (hm : old.material ≠ Material.WALL)
    (hnc : ∀ r ∈ l, ¬ r.covers x y) : t.get x y = .ok old := by
  obtain ⟨hdom, hch⟩ := hfr x y
  obtain ⟨new, hnew⟩ := hdom.mpr ⟨old, hg⟩
  obtain ⟨hmat, hreg⟩ := hch old new hg hnew
  have h1 : new.material = old.material := by
    rcases hmat with h | ⟨_, r, hr, hmem⟩
    · exact h
    · exfalso
      have hw := hf.edge_wall he (hsub r hr) hmem
      simp only at hw
      rw [hg] at hw
      cases hw
      exact hm rfl
  have h2 : new.region = old.region := by
    rcases hreg with h | ⟨r, hr, hc⟩
    · exact h
    · exact absurd hc (hnc r hr)
  rw [hnew]
  cases new
  cases old
  simp only at h1 h2
  rw [h1, h2]

theorem connectRegions_parts {d : Dungeon} {g : Rng} {res : Dungeon × Rng}
    (h : connectRegions d g = .ok res) :
    ∃ tP gP, forEachM primaryStep d.rooms (d.tiles, g) = .ok (tP, gP) ∧
      tP.DoorFrame d.rooms res.1.tiles := by
  unfold connectRegions at h
  cases hpr : forEachM primaryStep d.rooms (d.tiles, g) with
  | error e => rw [hpr] at h; cases h
  | ok s =>
    obtain ⟨t1, g1⟩ := s
    rw [hpr] at h
    simp only at h
    cases hq : g1.perm d.rooms.length with
    | error e => rw [hq] at h; cases h
    | ok r =>
      obtain ⟨roomPerm, g2⟩ := r
      rw [hq] at h
      simp only at h
      cases hr : residualRooms d.rooms (List.range roomPerm.length) (t1, [], g2) with
      | error e => rw [hr] at h; cases h
      | ok r2 =>
        obtain ⟨t2, c, g3⟩ := r2
        rw [hr] at h
        simp only [Except.ok.injEq] at h
        subst h
        exact ⟨t1, g1, rfl, residualRooms_doorFrame _ _ _ hr⟩

theorem door_stays {rooms : List Room} {t t1 : Grid} (hfr : t.DoorFrame rooms t1)
    {x y : Int} {tile : Tile} (hg : t.get x y = .ok tile)
    (hm : tile.material = Material.DOOR) :
    ∃ tile1, t1.get x y = .ok tile1 ∧ tile1.material = Material.DOOR := by
  obtain ⟨hdom, hch⟩ := hfr x y
  obtain ⟨new, hnew⟩ := hdom.mpr ⟨tile, hg⟩
  refine ⟨new, hnew, ?_⟩
  rcases (hch tile new hg hnew).1 with h | h
  · rw [h, hm]
  · exact h.1

theorem connectRegions_door_made {d : Dungeon} {g : Rng} {res : Dungeon × Rng}
    (hf : d.Furnished) (he : ∀ r ∈ d.rooms, r.edges = scannedEdges d.tiles r)
    (hne : ∀ r ∈ d.rooms, r.edges ≠ [])
    (h : connectRegions d g = .ok res)
    {i : Nat} {r : Room} {t : Grid} {gi : Rng} {k : Int} {gk : Rng} {e : Point}
    (hi : d.rooms[i]? = some r)
    (hpre : forEachM primaryStep (d.rooms.take i) (d.tiles, g) = .ok (t, gi))
    (hdraw : gi.intn r.edges.length = .ok (k, gk))
    (hedge : r.edges[k.toNat]? = some e)
    (htun : ∃ q ∈ around8 e, ∃ tile, d.tiles.get q.1 q.2 = .ok tile ∧
      tile.material = Material.TUNNEL) :
    ∃ tile, res.1.tiles.get e.x e.y = .ok tile ∧ tile.material = Material.DOOR := by
  have hr : r ∈ d.rooms := List.getElem?_mem hi
  have hsplit := split_at_index hi
  have hsub : ∀ q ∈ d.rooms.take i, q ∈ d.rooms := fun q hq => List.mem_of_mem_take hq
  have hap : ∀ q ∈ d.rooms.take i, Room.apart q r := by
    have hpw := hf.2.1
    rw [hsplit, List.pairwise_append] at hpw
    intro q hq
    exact hpw.2.2 q hq r (List.mem_cons_self _ _)
  have hfr := primaryLoop_doorFrame (d.rooms.take i) _ _ (fun q hq => hq) hpre
  simp only at hfr
  have hs : t.HasSize d.width d.height := Grid.doorFrame_hasSize hfr hf.1
  obtain ⟨hm, hw, hh, _, hint⟩ := hf.room_ready he hne r hr
  obtain ⟨k1, g1, e1, corner, ns, t1, hdraw1, hedge1, hcorner, hns, hstep, hdoor⟩ :=
    @primaryStep_spec d.width d.height r t gi hs hm hw hh (hne r hr) hint
  rw [hdraw] at hdraw1
  simp only [Except.ok.injEq, Prod.mk.injEq] at hdraw1
  obtain ⟨rfl, rfl⟩ := hdraw1
  rw [hedge] at hedge1
  simp only [Option.some.injEq] at hedge1
  subst hedge1
  have hcov : r.covers r.location.x r.location.y := by
    unfold Room.covers
    omega
  obtain ⟨c0, hc0, hcm⟩ := hf.covered_floor hr hcov
  have hc1 := hf.keep he hsub hfr hc0 (by rw [hcm]; simp)
    (fun q hq hc => Room.apart_not_covers (hap q hq) hc hcov)
  rw [hcorner] at hc1
  cases hc1
  have hcreg : corner.region ≤ d.rooms.length := by
    rcases hf.2.2.2 _ _ corner hc0 with h1 | h1 | h1
    · rw [h1] at hcm; cases hcm
    · exact h1.2.2
    · rw [h1.1] at hcm; cases hcm
  obtain ⟨q, hq, tile, hqt, hqm⟩ := htun
  have hqreg : (d.rooms.length : Int) < tile.region := by
    rcases hf.2.2.2 _ _ tile hqt with h1 | h1 | h1
    · rw [h1] at hqm; cases hqm
    · rw [h1.1] at hqm; cases hqm
    · exact h1.2
  have hq1 := hf.keep he hsub hfr hqt (by rw [hqm]; simp)
    (fun p hp hc => by
      obtain ⟨t0, hg0, hm0⟩ := hf.covered_floor (hsub p hp) hc
      rw [hqt] at hg0
      cases hg0
      rw [hqm] at hm0
      cases hm0)
  have hmem := readTiles_mem_of _ _ hns q hq tile hq1
  obtain ⟨dt, hdt, hdm⟩ := hdoor ⟨tile, hmem, by
    unfold qualifies
    simp only [hqm, Bool.and_eq_true, Bool.or_eq_true, decide_eq_true_eq]
    exact ⟨Or.inr trivial, by omega⟩⟩
  obtain ⟨tP, gP, hfull, hfr2⟩ := connectRegions_parts h
  rw [hsplit, forEachM_append, hpre] at hfull
  simp only [forEachM, hstep] at hfull
  have hfr1 := primaryLoop_doorFrame (d.rooms.drop (i + 1)) _ _
    (fun q hq => List.mem_of_mem_drop hq) hfull
  simp only at hfr1
  exact door_stays (Grid.doorFrame_trans hfr1 hfr2) hdt hdm

theorem connectRegions_door_joins {d : Dungeon} {g : Rng} {res : Dungeon × Rng}
    (hf : d.Furnished) (he : ∀ r ∈ d.rooms, r.edges = scannedEdges d.tiles r)
    (h : connectRegions d g = .ok res) {r : Room} (hr : r ∈ d.rooms) {e : Point}
    (hmem : e ∈ r.edges) {tile : Tile} (hg : res.1.tiles.get e.x e.y = .ok tile)
    (hm : tile.material = Material.DOOR) :
    ∃ f o : Point, f ∈ around4 e.x e.y ∧ o ∈ around4 e.x e.y ∧ r.covers f.x f.y ∧
      ¬ r.covers o.x o.y ∧ d.tiles.openAt o.x o.y = true ∧ Joined res.1.tiles f o := by
  obtain ⟨hmar, henc⟩ := hf.2.2.1 r hr
  obtain ⟨hw, hh, _⟩ := Room.enclosed_iff.mp henc
  have hopen_e : res.1.tiles.openTile e = true := by
    unfold Grid.openTile
    rw [hg]
    simp [hm]
  have key : ∀ f o : Point, f ∈ around4 e.x e.y → o ∈ around4 e.x e.y → e ∈ around4 f.x f.y →
      r.covers f.x f.y → ¬ r.covers o.x o.y → d.tiles.openAt o.x o.y = true →
      ∃ f o : Point, f ∈ around4 e.x e.y ∧ o ∈ around4 e.x e.y ∧ r.covers f.x f.y ∧
        ¬ r.covers o.x o.y ∧ d.tiles.openAt o.x o.y = true ∧ Joined res.1.tiles f o := by
    intro f o hf1 ho1 hef hcf hco hopen
    refine ⟨f, o, hf1, ho1, hcf, hco, hopen, ?_⟩
    have hof : d.tiles.openTile f = true := by
      obtain ⟨t0, hg0, hm0⟩ := hf.covered_floor hr hcf
      unfold Grid.openTile
      rw [hg0]
      simp [hm0]
    have hoo : d.tiles.openTile o = true := by
      obtain ⟨t0, hg0, hm0⟩ := Grid.openAt_iff.mp hopen
      unfold Grid.openTile
      rw [hg0]
      rcases hm0 with h1 | h1 <;> simp [h1]
    exact Joined.step
      (Joined.step (Joined.start (connectRegions_open h f hof)) hef hopen_e)
      ho1 (connectRegions_open h o hoo)
  rw [he r hr] at hmem
  rcases mem_scannedEdges.mp hmem with ⟨j, h1, h2, (⟨rfl, ho⟩ | ⟨rfl, ho⟩)⟩ |
    ⟨k, h1, h2, (⟨rfl, ho⟩ | ⟨rfl, ho⟩)⟩
  · exact key ⟨j, r.location.y⟩ ⟨j, r.location.y - 2⟩
      (by simp [around4]) (by simp [around4]; omega) (by simp [around4])
      (by unfold Room.covers; simp only; omega) (by unfold Room.covers; simp only; omega) ho
  · exact key ⟨j, r.location.y + r.height - 1⟩ ⟨j, r.location.y + r.height + 1⟩
      (by simp [around4]) (by simp [around4]) (by simp [around4])
      (by unfold Room.covers; simp only; omega) (by unfold Room.covers; simp only; omega) ho
  · exact key ⟨r.location.x, k⟩ ⟨r.location.x - 2, k⟩
      (by simp [around4]) (by simp [around4]; omega) (by simp [around4])
      (by unfold Room.covers; simp only; omega) (by unfold Room.covers; simp only; omega) ho
  · exact key ⟨r.location.x + r.width - 1, k⟩ ⟨r.location.x + r.width + 1, k⟩
      (by simp [around4]) (by simp [around4]) (by simp [around4])
      (by unfold Room.covers; simp only; omega) (by unfold Room.covers; simp only; omega) ho

/-! ## Regions of the generated dungeon and what `connectRegions` achieves -/

theorem generateDungeon_door
    {gridWidth gridHeight roomAttempts minRoomSize maxRoomSize : Int} {g : Rng} {d : Dungeon}
    (hmin : 1 ≤ minRoomSize)
    (h : generateDungeon gridWidth gridHeight roomAttempts minRoomSize maxRoomSize g = .ok d) :
    ∃ d3 g3,
      stagesToEdges gridWidth gridHeight roomAttempts minRoomSize maxRoomSize g = .ok (d3, g3) ∧
      ∀ (x y : Int) (tile : Tile), d.tiles.get x y = .ok tile →
        tile.material = Material.DOOR →
        tile.region = 0 ∧ d3.tiles.get x y = .ok ⟨0, Material.WALL⟩ ∧
          ∃ r ∈ d3.rooms, (⟨x, y⟩ : Point) ∈ r.edges := by
  obtain ⟨d3, g3, d4, g4, h3, h4, h5⟩ := generateDungeon_stages h
  obtain ⟨hf, _, _, he⟩ := stagesToEdges_furnished hmin h3
  refine ⟨d3, g3, h3, ?_⟩
  intro x y tile hg hm
  rcases trimTunnels_tilesAt h5 x y tile hg with h6 | h6
  · rw [h6] at hm
    cases hm
  · exact connectRegions_doors hf he h4 x y tile h6 hm

/-- Claim C2 (as amended): in every dungeon returned by `generateDungeon`, every WALL tile has
region 0 and every tile with region 0 is WALL or DOOR; equivalently every FLOOR and every
TUNNEL tile has a nonzero region. When `minRoomSize` is at least 1, every DOOR tile has region
0: its position is a recorded edge of a room and held a WALL tile of region 0 in the dungeon
that reached `connectRegions`, which assigns only the material of a door. -/
theorem generateDungeon_regions (gridWidth gridHeight roomAttempts minRoomSize maxRoomSize : Int)
    (g : Rng) (d : Dungeon)
    (h : generateDungeon gridWidth gridHeight roomAttempts minRoomSize maxRoomSize g = .ok d) :
    ∀ (x y : Int) (tile : Tile), d.tiles.get x y = .ok tile →
      (tile.material = Material.WALL → tile.region = 0) ∧
      (tile.region = 0 → tile.material = Material.WALL ∨ tile.material = Material.DOOR) ∧
      (1 ≤ minRoomSize → tile.material = Material.DOOR →
        tile.region = 0 ∧
        ∃ d3 g3,
          stagesToEdges gridWidth gridHeight roomAttempts minRoomSize maxRoomSize g =
            .ok (d3, g3) ∧
          d3.tiles.get x y = .ok ⟨0, Material.WALL⟩ ∧
          ∃ r ∈ d3.rooms, (⟨x, y⟩ : Point) ∈ r.edges) := by
  intro x y tile hg
  obtain ⟨h1, h2⟩ := generateDungeon_labelled _ _ _ _ _ _ _ h x y tile hg
  refine ⟨h1, h2, ?_⟩
  intro hmin hm
  obtain ⟨d3, g3, h3, h4⟩ := generateDungeon_door hmin h
  obtain ⟨a, b, c⟩ := h4 x y tile hg hm
  exact ⟨a, d3, g3, h3, b, c⟩

/-- Witness of `generateDungeon_regions`: the 9 × 7 run with two rooms and `minRoomSize = 1`,
which ends with a DOOR at (5, 2). -/
theorem generateDungeon_regions_witness :
    completes (generateDungeon 9 7 2 1 2 sampleRng) = true ∧
    sampleFinal.tiles.get 5 2 = .ok ⟨0, Material.DOOR⟩ ∧
    ∀ (x y : Int) (tile : Tile), sampleFinal.tiles.get x y = .ok tile →
      (tile.material = Material.WALL → tile.region = 0) ∧
      (tile.region = 0 → tile.material = Material.WALL ∨ tile.material = Material.DOOR) ∧
      ((1 : Int) ≤ 1 → tile.material = Material.DOOR →
        tile.region = 0 ∧
        ∃ d3 g3,
          stagesToEdges 9 7 2 1 2 sampleRng = .ok (d3, g3) ∧
          d3.tiles.get x y = .ok ⟨0, Material.WALL⟩ ∧
          ∃ r ∈ d3.rooms, (⟨x, y⟩ : Point) ∈ r.edges) :=
  ⟨by decide, by decide, generateDungeon_regions 9 7 2 1 2 sampleRng sampleFinal
    (eq_ok_okOr _ (by decide))⟩

/-- Claim C2 (refuted as stated): the 9 × 7 run with two rooms completes, and in its result
the tile at (5, 2) is a DOOR that survived trimming and has region 0. -/
theorem generateDungeon_door_region_zero :
    completes (generateDungeon 9 7 2 1 2 sampleRng) = true ∧
    sampleFinal.tiles.get 5 2 = .ok ⟨0, Material.DOOR⟩ ∧
    ¬ (∀ (x y : Int) (tile : Tile), sampleFinal.tiles.get x y = .ok tile →
      (tile.region = 0 ↔ tile.material = Material.WALL)) :=
  ⟨by decide, by decide, fun h => by
    have h1 := (h 5 2 ⟨0, Material.DOOR⟩ (by decide)).mp rfl
    cases h1⟩

theorem primaryLoop_prefix_ok {l1 l2 : List Room} {s s1 : Grid × Rng}
    (h : forEachM primaryStep (l1 ++ l2) s = .ok s1) :
    ∃ s2, forEachM primaryStep l1 s = .ok s2 := by
  rw [forEachM_append] at h
  cases hp : forEachM primaryStep l1 s with
  | error e => rw [hp] at h; cases h
  | ok s2 => exact ⟨s2, rfl⟩

/-- Claim C3 (as amended): for a dungeon that reaches `connectRegions` through the first four
stages with room sizes of at least 1 and in which every room has an edge, `connectRegions`
completes. Two tiles joined by a walk through orthogonally adjacent non-WALL tiles before
are still joined afterwards. No material changes except that WALL tiles of region 0 at
recorded edges become DOOR tiles of region 0. Every edge `e` of a room that is a DOOR
afterwards has a tile `f` of the room and an open tile `o` outside the room among its four
neighbours, and `f` and `o` are joined by a walk. The edge drawn for a room in the primary
phase becomes a DOOR whenever one of its eight neighbours is a TUNNEL tile; hence a room all
of whose edges have a TUNNEL tile among their eight neighbours is joined, through a door at
one of its edges, to an open tile outside it. -/
theorem connectRegions_joins_rooms
    (gridWidth gridHeight roomAttempts minRoomSize maxRoomSize : Int) (g : Rng)
    (d : Dungeon) (g1 : Rng) (hmin : 1 ≤ minRoomSize)
    (hst : stagesToEdges gridWidth gridHeight roomAttempts minRoomSize maxRoomSize g =
      .ok (d, g1))
    (hne : ∀ r ∈ d.rooms, r.edges ≠ []) :
    ∃ res, connectRegions d g1 = .ok res ∧
      (∀ p q : Point, Joined d.tiles p q → Joined res.1.tiles p q) ∧
      (∀ (x y : Int) (old : Tile), d.tiles.get x y = .ok old →
        ∃ new, res.1.tiles.get x y = .ok new ∧
          (new.material = old.material ∨
            (old = ⟨0, Material.WALL⟩ ∧ new = ⟨0, Material.DOOR⟩ ∧
              ∃ r ∈ d.rooms, (⟨x, y⟩ : Point) ∈ r.edges))) ∧
      (∀ r ∈ d.rooms, ∀ e ∈ r.edges, ∀ tile : Tile, res.1.tiles.get e.x e.y = .ok tile →
        tile.material = Material.DOOR →
        ∃ f o : Point, f ∈ around4 e.x e.y ∧ o ∈ around4 e.x e.y ∧ r.covers f.x f.y ∧
          ¬ r.covers o.x o.y ∧ d.tiles.openAt o.x o.y = true ∧ Joined res.1.tiles f o) ∧
      (∀ (i : Nat) (r : Room) (t : Grid) (gi : Rng) (k : Int) (gk : Rng) (e : Point),
        d.rooms[i]? = some r →
        forEachM primaryStep (d.rooms.take i) (d.tiles, g1) = .ok (t, gi) →
        gi.intn r.edges.length = .ok (k, gk) → r.edges[k.toNat]? = some e →
        (∃ q ∈ around8 e, ∃ tile, d.tiles.get q.1 q.2 = .ok tile ∧
          tile.material = Material.TUNNEL) →
        ∃ tile, res.1.tiles.get e.x e.y = .ok tile ∧ tile.material = Material.DOOR) ∧
      (∀ r ∈ d.rooms,
        (∀ e ∈ r.edges, ∃ q ∈ around8 e, ∃ tile, d.tiles.get q.1 q.2 = .ok tile ∧
          tile.material = Material.TUNNEL) →
        ∃ e ∈ r.edges, ∃ f o : Point,
          (∃ tile, res.1.tiles.get e.x e.y = .ok tile ∧ tile.material = Material.DOOR) ∧
          f ∈ around4 e.x e.y ∧ o ∈ around4 e.x e.y ∧ r.covers f.x f.y ∧
          ¬ r.covers o.x o.y ∧ d.tiles.openAt o.x o.y = true ∧ Joined res.1.tiles f o) := by
  obtain ⟨hf, hw, hh, he⟩ := stagesToEdges_furnished hmin hst
  simp only at hf hw hh he
  obtain ⟨res, h⟩ := connectRegions_ok g1 hf he hne
  have hmade : ∀ (i : Nat) (r : Room) (t : Grid) (gi : Rng) (k : Int) (gk : Rng) (e : Point),
      d.rooms[i]? = some r →
      forEachM primaryStep (d.rooms.take i) (d.tiles, g1) = .ok (t, gi) →
      gi.intn r.edges.length = .ok (k, gk) → r.edges[k.toNat]? = some e →
      (∃ q ∈ around8 e, ∃ tile, d.tiles.get q.1 q.2 = .ok tile ∧
        tile.material = Material.TUNNEL) →
      ∃ tile, res.1.tiles.get e.x e.y = .ok tile ∧ tile.material = Material.DOOR :=
    fun i r t gi k gk e hi hpre hdraw hedge htun =>
      connectRegions_door_made hf he hne h hi hpre hdraw hedge htun
  refine ⟨res, h, fun p q hj => joined_keeps h hj, ?_,
    fun r hr e hmem tile hg hm => connectRegions_door_joins hf he h hr hmem hg hm, hmade, ?_⟩
  · intro x y old hold
    obtain ⟨hfr, _, _, _⟩ := connectRegions_doorFrame h
    obtain ⟨hdom, hch⟩ := hfr x y
    obtain ⟨new, hnew⟩ := hdom.mpr ⟨old, hold⟩
    refine ⟨new, hnew, ?_⟩
    by_cases hm : new.material = Material.DOOR
    · obtain ⟨h1, h2, h3⟩ := connectRegions_doors hf he h x y new hnew hm
      rw [hold] at h2
      cases h2
      right
      refine ⟨rfl, ?_, h3⟩
      cases new
      simp only at h1 hm
      rw [h1, hm]
    · rcases (hch old new hold hnew).1 with h1 | h1
      · exact Or.inl h1
      · exact absurd h1.1 hm
  · intro r hr hall
    obtain ⟨i, hi⟩ := List.getElem?_of_mem hr
    obtain ⟨tP, gP, hfull, _⟩ := connectRegions_parts h
    have hsplit := split_at_index hi
    rw [hsplit] at hfull
    obtain ⟨s2, hpre⟩ := primaryLoop_prefix_ok hfull
    obtain ⟨t, gi⟩ := s2
    have hfr := primaryLoop_doorFrame (d.rooms.take i) _ _ (fun q hq => hq) hpre
    have hs : t.HasSize d.width d.height := Grid.doorFrame_hasSize hfr hf.1
    obtain ⟨hm, hw1, hh1, _, hint⟩ := hf.room_ready he hne r hr
    obtain ⟨k, gk, e, corner, ns, t1, hdraw, hedge, _, _, _, _⟩ :=
      @primaryStep_spec d.width d.height r t gi hs hm hw1 hh1 (hne r hr) hint
    have hmem := List.getElem?_mem hedge
    obtain ⟨tile, hg, hmd⟩ := hmade i r t gi k gk e hi hpre hdraw hedge (hall e hmem)
    obtain ⟨f, o, a1, a2, a3, a4, a5, a6⟩ := connectRegions_door_joins hf he h hr hmem hg hmd
    exact ⟨e, hmem, f, o, ⟨tile, hg, hmd⟩, a1, a2, a3, a4, a5, a6⟩

/-- Witness of `connectRegions_joins_rooms`: the 9 × 9 run with one room at (5, 3) and the
edges (5, 2) and (6, 3), each with a TUNNEL tile next to it; a door is made at one of them and
joins the room to an open tile outside it. -/
theorem connectRegions_joins_rooms_witness :
    (∀ r ∈ sampleSplitStage.1.rooms, r.edges ≠ []) ∧
    sampleSplitStage.1.rooms = [⟨1, 1, ⟨5, 3⟩, [⟨5, 2⟩, ⟨6, 3⟩]⟩] ∧
    ∃ res, connectRegions sampleSplitStage.1 sampleSplitStage.2 = .ok res ∧
      ∃ e ∈ [(⟨5, 2⟩ : Point), ⟨6, 3⟩], ∃ f o : Point,
        (∃ tile, res.1.tiles.get e.x e.y = .ok tile ∧ tile.material = Material.DOOR) ∧
        f ∈ around4 e.x e.y ∧ o ∈ around4 e.x e.y ∧
        Room.covers ⟨1, 1, ⟨5, 3⟩, [⟨5, 2⟩, ⟨6, 3⟩]⟩ f.x f.y ∧
        ¬ Room.covers ⟨1, 1, ⟨5, 3⟩, [⟨5, 2⟩, ⟨6, 3⟩]⟩ o.x o.y ∧
        sampleSplitStage.1.tiles.openAt o.x o.y = true ∧ Joined res.1.tiles f o := by
  obtain ⟨res, h1, _, _, _, _, h6⟩ :=
    connectRegions_joins_rooms 9 9 1 1 2 (polyRng 3 2 0 11) sampleSplitStage.1
      sampleSplitStage.2 (by decide) (eq_ok_okOr (noDungeon, zeroRng) (by decide))
      (by decide)
  refine ⟨by decide, by decide, res, h1, ?_⟩
  refine h6 ⟨1, 1, ⟨5, 3⟩, [⟨5, 2⟩, ⟨6, 3⟩]⟩ (by decide) ?_
  intro e he
  simp only [List.mem_cons, List.mem_singleton, List.not_mem_nil, or_false] at he
  rcases he with rfl | rfl
  · exact ⟨(5, 1), by decide, ⟨2, Material.TUNNEL⟩, by decide, rfl⟩
  · exact ⟨(7, 3), by decide, ⟨2, Material.TUNNEL⟩, by decide, rfl⟩
end GoDungeon
